import Mathlib

/-!
# drone-s3-sync: the diff-and-reconcile engine of `aws.go`

A shallow embedding of `src/aws.go` (`NewAWS`, `AWS.visit`, `AWS.AddRedirects`,
`AWS.List`, `AWS.Cleanup`) and theorems about it.

* Go strings are Lean `String`s; the Go standard-library string and path
  functions the code calls are defined on character lists.
* The S3 client is a deterministic backend: a record of request handlers over a
  backend state.  Every request the code sends is appended to a log carried by
  the `AWS` value, so that "issues a PutObject" is a statement about that log.
* What the Go runtime or other packages decide (the MD5 digest, the MIME table,
  the glob matcher, the file system, the order in which `range` visits the keys
  of a map) is a field of `Env`.
-/

namespace S3Sync

/-! ## Go standard library: `strings`, `path/filepath` -/

/-- Go `strings.HasPrefix` on character lists. -/
def hasPrefixChars : List Char → List Char → Bool
  | _, [] => true
  | [], _ :: _ => false
  | c :: s, p :: ps => c == p && hasPrefixChars s ps

/-- Go `strings.HasPrefix(s, prefix)`. -/
def HasPrefix (s pre : String) : Bool := hasPrefixChars s.data pre.data

/-- Go `strings.TrimPrefix(s, prefix)`: `s` without the leading `prefix`, or `s`
itself when it does not start with `prefix`. -/
def TrimPrefix (s pre : String) : String :=
  if HasPrefix s pre then String.mk (s.data.drop pre.data.length) else s

/-- Scan of `filepath.Ext` over the reversed path: the characters seen so far
(already in path order) are in `acc`. -/
def extScan : List Char → List Char → List Char
  | [], _ => []
  | c :: rest, acc =>
    if c = '/' then [] else if c = '.' then c :: acc else extScan rest (c :: acc)

/-- Go `filepath.Ext(path)`: the suffix beginning at the final dot in the final
slash-separated element of `path`; empty if there is no dot. -/
def Ext (path : String) : String := String.mk (extScan path.data.reverse [])

/-- Split a character list at every `/`. -/
def splitSlash : List Char → List (List Char)
  | [] => [[]]
  | c :: s =>
    match splitSlash s with
    | [] => [[c]]
    | w :: ws => if c = '/' then [] :: w :: ws else (c :: w) :: ws

/-- One step of `filepath.Clean` on the stack of elements kept so far (most
recent first) for the next path element. -/
def cleanStep (rooted : Bool) (stack : List (List Char)) (elem : List Char) : List (List Char) :=
  if elem = [] ∨ elem = ['.'] then stack
  else if elem = ['.', '.'] then
    match stack with
    | [] => if rooted then [] else [elem]
    | top :: rest => if top = ['.', '.'] then elem :: top :: rest else rest
  else elem :: stack

/-- Go `filepath.Clean` (Unix): collapse repeated separators, drop `.` elements,
resolve inner `..` elements, drop `..` at the root; the empty path becomes `.`. -/
def cleanChars (p : List Char) : List Char :=
  let rooted := hasPrefixChars p ['/']
  let stack := (splitSlash p).foldl (cleanStep rooted) []
  let body := List.intercalate ['/'] stack.reverse
  let out := if rooted then '/' :: body else body
  if out = [] then ['.'] else out

/-- Go `filepath.Join(a, b)` for two elements: empty elements before the first
non-empty one are ignored, the rest is joined with `/` and cleaned; the result
is empty when both elements are empty. -/
def Join (a b : String) : String :=
  if a ≠ "" then String.mk (cleanChars (a.data ++ '/' :: b.data))
  else if b ≠ "" then String.mk (cleanChars b.data)
  else ""

/-! ## Go maps -/

/-- A Go `map[string]β`: its key/value pairs, keys distinct.  The order of the
list carries no meaning: a `range` statement visits the keys in the order the
runtime picks (`Env.rangeKeys`). -/
abbrev GoMap (β : Type) := List (String × β)

/-- The keys of a Go map. -/
def GoMap.keys {β : Type} (m : GoMap β) : List String := m.map Prod.fst

/-- Go `len(m)`. -/
def GoMap.len {β : Type} (m : GoMap β) : Nat := m.length

/-- Go `v, ok := m[k]`. -/
def GoMap.get? {β : Type} (m : GoMap β) (k : String) : Option β := m.lookup k

/-- Go `m[k] = v`: overwrite the value of an existing key, or add the key. -/
def GoMap.set {β : Type} : GoMap β → String → β → GoMap β
  | [], k, v => [(k, v)]
  | (k', v') :: m, k, v => if k' = k then (k, v) :: m else (k', v') :: GoMap.set m k v

/-! ## Data model -/

deriving instance DecidableEq for Except

/-- A Go `error` value. -/
abbrev Error := String

/-- The bytes of a file. -/
abbrev Bytes := List Nat

/-- Modelled from the spec: the configuration value type `StringMap` (declared
outside `aws.go`), "a tagged union of {absent, scalar, mapping}". -/
inductive StringMap where
  | absent
  | scalar (s : String)
  | mapping (m : GoMap String)
deriving DecidableEq, Repr

/-- Modelled from the spec: `StringMap.IsString`, true for the scalar case. -/
def StringMap.IsString : StringMap → Bool
  | .scalar _ => true
  | _ => false

/-- Modelled from the spec: `StringMap.IsEmpty`, true for the absent case. -/
def StringMap.IsEmpty : StringMap → Bool
  | .absent => true
  | _ => false

/-- Modelled from the spec: `StringMap.Map`, the pattern mapping. -/
def StringMap.Map : StringMap → GoMap String
  | .mapping m => m
  | _ => []

/-- Modelled from the spec: `StringMap.String`, the scalar value. -/
def StringMap.String : StringMap → String
  | .scalar s => s
  | _ => ""

/-- Modelled from the spec: the configuration record `PluginArgs` (declared
outside `aws.go`), with the fields `aws.go` reads.  `Metadata` stands for the
result of `vargs.Metadata.Map()`. -/
structure PluginArgs where
  Key : String
  Secret : String
  Bucket : String
  Region : String
  Source : String
  Target : String
  Access : StringMap
  ContentType : StringMap
  Metadata : GoMap (GoMap String)
deriving DecidableEq, Repr

/-- The grantee of an access grant (`s3.Grantee`); only `URI` is read. -/
structure Grantee where
  URI : Option String
deriving DecidableEq, Repr

/-- An access grant (`s3.Grant`). -/
structure Grant where
  Grantee : Grantee
  Permission : String
deriving DecidableEq, Repr

structure ListObjectsInput where
  Bucket : String
  Prefix : String
  Marker : Option String
deriving DecidableEq, Repr

/-- The part of `s3.ListObjectsOutput` the code reads: the keys of `Contents`
and `IsTruncated`. -/
structure ListObjectsOutput where
  Contents : List String
  IsTruncated : Bool
deriving DecidableEq, Repr

structure HeadObjectInput where
  Bucket : String
  Key : String
deriving DecidableEq, Repr

/-- The part of `s3.HeadObjectOutput` the code reads; the backend always
reports an ETag, the content type may be missing. -/
structure HeadObjectOutput where
  ETag : String
  ContentType : Option String
  Metadata : GoMap String
deriving DecidableEq, Repr

structure GetObjectAclInput where
  Bucket : String
  Key : String
deriving DecidableEq, Repr

structure GetObjectAclOutput where
  Grants : List Grant
deriving DecidableEq, Repr

structure CopyObjectInput where
  Bucket : String
  Key : String
  CopySource : String
  ACL : String
  ContentType : String
  Metadata : GoMap String
  MetadataDirective : String
deriving DecidableEq, Repr

/-- The fields of `s3.PutObjectInput` the code sets; a field left out of the Go
struct literal is `none` (or the empty map). -/
structure PutObjectInput where
  Bucket : String
  Key : String
  Body : Option Bytes
  ContentType : Option String
  ACL : Option String
  Metadata : GoMap String
  WebsiteRedirectLocation : Option String
deriving DecidableEq, Repr

structure DeleteObjectInput where
  Bucket : String
  Key : String
deriving DecidableEq, Repr

/-- A request sent to the storage backend. -/
inductive Request where
  | listObjects (i : ListObjectsInput)
  | headObject (i : HeadObjectInput)
  | getObjectAcl (i : GetObjectAclInput)
  | copyObject (i : CopyObjectInput)
  | putObject (i : PutObjectInput)
  | deleteObject (i : DeleteObjectInput)
deriving DecidableEq, Repr

/-- The storage backend behind `*s3.S3`: for each request, the answer and the
next backend state. -/
structure S3 (σ : Type) where
  ListObjects : ListObjectsInput → σ → Except Error ListObjectsOutput × σ
  HeadObject : HeadObjectInput → σ → Except Error HeadObjectOutput × σ
  GetObjectAcl : GetObjectAclInput → σ → Except Error GetObjectAclOutput × σ
  CopyObject : CopyObjectInput → σ → Except Error Unit × σ
  PutObject : PutObjectInput → σ → Except Error Unit × σ
  DeleteObject : DeleteObjectInput → σ → Except Error Unit × σ

/-- An opened local file: its bytes and the outcome of `file.Seek(0, 0)`. -/
structure File where
  content : Bytes
  seekErr : Option Error
deriving DecidableEq, Repr

/-- The part of `os.FileInfo` the code reads. -/
structure FileInfo where
  IsDir : Bool
deriving DecidableEq, Repr

/-- What the code takes from outside `aws.go` and the Go standard `strings` and
`path/filepath` packages. -/
structure Env where
  /-- `fmt.Sprintf("%x", md5.Sum(content))` -/
  md5hex : Bytes → String
  /-- `mime.TypeByExtension` -/
  TypeByExtension : String → String
  /-- `glob.Glob(pattern, subject)` -/
  Glob : String → String → Bool
  /-- `os.Open` -/
  Open : String → Except Error File
  /-- The order in which a `range` statement visits the keys of a map. -/
  rangeKeys : List String → List String

/-- The keys of `m` in the order a `range` statement visits them. -/
def rangeOver {β : Type} (E : Env) (m : GoMap β) : List String :=
  (E.rangeKeys m.keys).filter (fun k => (m.get? k).isSome)

/-- The receiver of the methods of `aws.go`; `locals` is the Go field `local`.
`log` is not a field of the Go struct: it records, in order, every request sent
through `client`. -/
structure AWS (σ : Type) where
  client : σ
  remote : List String
  locals : List String
  vargs : PluginArgs
  log : List Request

/-- Go `NewAWS`: both slices are made with length one, so each starts out
holding one empty string. -/
def NewAWS {σ : Type} (c : σ) (vargs : PluginArgs) : AWS σ :=
  { client := c, remote := [""], locals := [""], vargs := vargs, log := [] }

/-! ## `AWS.visit` -/

/-- Lines 51-54: the path relative to the source directory. -/
def localPathOf (source path : String) : String :=
  let localPath := TrimPrefix path source
  if HasPrefix localPath "/" then String.mk (localPath.data.drop 1) else localPath

/-- Lines 66-81: the access of a path. -/
def resolveAccess (E : Env) (vargs : PluginArgs) (localPath : String) : String :=
  let access :=
    if vargs.Access.IsString then vargs.Access.String
    else if !vargs.Access.IsEmpty then
      let accessMap := vargs.Access.Map
      match (rangeOver E accessMap).find? (fun pattern => E.Glob pattern localPath) with
      | some pattern => (accessMap.get? pattern).getD ""
      | none => ""
    else ""
  if access = "" then "private" else access

/-- Lines 83-95 and 110-112: the content type of a path. -/
def resolveContentType (E : Env) (vargs : PluginArgs) (localPath : String) : String :=
  let fileExt := Ext localPath
  let contentType :=
    if vargs.ContentType.IsString then vargs.ContentType.String
    else if !vargs.ContentType.IsEmpty then
      let contentMap := vargs.ContentType.Map
      match (rangeOver E contentMap).find? (fun patternExt => patternExt == fileExt) with
      | some patternExt => (contentMap.get? patternExt).getD ""
      | none => ""
    else ""
  if contentType = "" then E.TypeByExtension fileExt else contentType

/-- Lines 97-108: the metadata of a path. -/
def resolveMetadata (E : Env) (vargs : PluginArgs) (localPath : String) : GoMap String :=
  let vmap := vargs.Metadata
  if vmap.len > 0 then
    match (rangeOver E vmap).find? (fun pattern => E.Glob pattern localPath) with
    | some pattern =>
      let inner := (vmap.get? pattern).getD []
      (rangeOver E inner).foldl (fun metadata k => metadata.set k ((inner.get? k).getD "")) []
    | none => []
  else []

/-- Lines 138-146: the two content-type tests, starting from `shouldCopy = false`. -/
def contentTypeChanged (headContentType : Option String) (contentType : String) : Bool :=
  let shouldCopy := false
  let shouldCopy := if headContentType = none ∧ contentType ≠ "" then true else shouldCopy
  if !shouldCopy ∧ headContentType ≠ none ∧ some contentType ≠ headContentType then true
  else shouldCopy

/-- Lines 148-163: the two metadata tests, starting from `shouldCopy = false`. -/
def metadataChanged (E : Env) (headMetadata metadata : GoMap String) : Bool :=
  let shouldCopy := false
  let shouldCopy := if headMetadata.len ≠ metadata.len then true else shouldCopy
  if !shouldCopy ∧ metadata.len > 0 then
    (rangeOver E metadata).any (fun k =>
      match metadata.get? k, headMetadata.get? k with
      | some v, some hv => v != hv
      | _, _ => false)
  else shouldCopy

/-- The body of the loop of lines 175-190 for one grant. -/
def previousAccessStep (previousAccess : String) (g : Grant) : String :=
  match g.Grantee.URI with
  | none => previousAccess
  | some uri =>
    if uri = "http://acs.amazonaws.com/groups/global/AllUsers" then
      if g.Permission = "READ" then "public-read"
      else if g.Permission = "WRITE" then "public-read-write"
      else previousAccess
    else if uri = "http://acs.amazonaws.com/groups/global/AllUsers" then
      if g.Permission = "READ" then "authenticated-read" else previousAccess
    else previousAccess

/-- Lines 174-190: the access derived from the grants of the remote object. -/
def previousAccess (grants : List Grant) : String :=
  grants.foldl previousAccessStep "private"

/-- The request of lines 223-230. -/
def putInput (bucket remotePath : String) (file : File) (contentType access : String)
    (metadata : GoMap String) : PutObjectInput :=
  { Bucket := bucket, Key := remotePath, Body := some file.content,
    ContentType := some contentType, ACL := some access, Metadata := metadata,
    WebsiteRedirectLocation := none }

/-- Lines 222-231: the upload. -/
def upload {σ : Type} (S : S3 σ) (a : AWS σ) (remotePath : String) (file : File)
    (contentType access : String) (metadata : GoMap String) : AWS σ × Option Error :=
  let input := putInput a.vargs.Bucket remotePath file contentType access metadata
  match S.PutObject input a.client with
  | (r, c) =>
    ({ a with client := c, log := a.log ++ [Request.putObject input] },
      match r with
      | .error e => some e
      | .ok _ => none)

/-- The request of lines 204-212. -/
def copyInput (bucket remotePath contentType access : String) (metadata : GoMap String) :
    CopyObjectInput :=
  { Bucket := bucket, Key := remotePath, CopySource := bucket ++ "/" ++ remotePath,
    ACL := access, ContentType := contentType, Metadata := metadata,
    MetadataDirective := "REPLACE" }

/-- Lines 203-213: the metadata update. -/
def updateMetadata {σ : Type} (S : S3 σ) (a : AWS σ) (remotePath : String)
    (contentType access : String) (metadata : GoMap String) : AWS σ × Option Error :=
  let input := copyInput a.vargs.Bucket remotePath contentType access metadata
  match S.CopyObject input a.client with
  | (r, c) =>
    ({ a with client := c, log := a.log ++ [Request.copyObject input] },
      match r with
      | .error e => some e
      | .ok _ => none)

/-- Lines 135-214: the branch taken when the local hash equals the remote ETag. -/
def sameHash {σ : Type} (E : Env) (S : S3 σ) (a : AWS σ) (remotePath : String)
    (head : HeadObjectOutput) (contentType access : String) (metadata : GoMap String) :
    AWS σ × Option Error :=
  let shouldCopy := contentTypeChanged head.ContentType contentType
  let shouldCopy := if !shouldCopy then metadataChanged E head.Metadata metadata else shouldCopy
  if !shouldCopy then
    let input : GetObjectAclInput := { Bucket := a.vargs.Bucket, Key := remotePath }
    match S.GetObjectAcl input a.client with
    | (r, c) =>
      let a := { a with client := c, log := a.log ++ [Request.getObjectAcl input] }
      match r with
      | .error e => (a, some e)
      | .ok grant =>
        if previousAccess grant.Grants ≠ access then
          updateMetadata S a remotePath contentType access metadata
        else (a, none)
  else updateMetadata S a remotePath contentType access metadata

/-- Go `AWS.visit`, the callback of `filepath.Walk`. -/
def AWS.visit {σ : Type} (E : Env) (S : S3 σ) (a : AWS σ) (path : String) (info : FileInfo)
    (err : Option Error) : AWS σ × Option Error :=
  match err with
  | some e => (a, some e)
  | none =>
    if path = "." then (a, none)
    else if info.IsDir then (a, none)
    else
      let localPath := localPathOf a.vargs.Source path
      let remotePath := Join a.vargs.Target localPath
      let a := { a with locals := a.locals ++ [localPath] }
      match E.Open path with
      | .error e => (a, some e)
      | .ok file =>
        let access := resolveAccess E a.vargs localPath
        let contentType := resolveContentType E a.vargs localPath
        let metadata := resolveMetadata E a.vargs localPath
        let «exists» := a.remote.any (fun remoteFile => remoteFile == localPath)
        if «exists» then
          let sum := "\"" ++ E.md5hex file.content ++ "\""
          let input : HeadObjectInput := { Bucket := a.vargs.Bucket, Key := remotePath }
          match S.HeadObject input a.client with
          | (r, c) =>
            let a := { a with client := c, log := a.log ++ [Request.headObject input] }
            match r with
            | .error e => (a, some e)
            | .ok head =>
              if sum = head.ETag then
                sameHash E S a remotePath head contentType access metadata
              else
                match file.seekErr with
                | some e => (a, some e)
                | none => upload S a remotePath file contentType access metadata
        else upload S a remotePath file contentType access metadata

/-! ## `AWS.AddRedirects`, `AWS.List`, `AWS.Cleanup` -/

/-- The loop of `AddRedirects` over the paths still to visit. -/
def addRedirectsLoop {σ : Type} (S : S3 σ) (redirects : GoMap String) :
    AWS σ → List String → AWS σ × Option Error
  | a, [] => (a, none)
  | a, path :: rest =>
    let location := (redirects.get? path).getD ""
    let a := { a with locals := a.locals ++ [TrimPrefix path "/"] }
    let input : PutObjectInput :=
      { Bucket := a.vargs.Bucket, Key := path, Body := none, ContentType := none,
        ACL := some "public-read", Metadata := [],
        WebsiteRedirectLocation := some location }
    match S.PutObject input a.client with
    | (r, c) =>
      let a := { a with client := c, log := a.log ++ [Request.putObject input] }
      match r with
      | .error e => (a, some e)
      | .ok _ => addRedirectsLoop S redirects a rest

/-- Go `AWS.AddRedirects`. -/
def AWS.AddRedirects {σ : Type} (E : Env) (S : S3 σ) (a : AWS σ) (redirects : GoMap String) :
    AWS σ × Option Error :=
  addRedirectsLoop S redirects a (rangeOver E redirects)

/-- The loop `for *resp.IsTruncated` of `List`, run for at most `fuel` rounds;
`none` when the rounds run out.  Indexing an empty `a.remote` is a panic, here
an error value. -/
def listLoop {σ : Type} (S : S3 σ) (path : String) :
    Nat → AWS σ → Bool → Option (AWS σ × Option Error)
  | _, a, false => some (a, none)
  | 0, _, true => none
  | fuel + 1, a, true =>
    match a.remote.getLast? with
    | none => some (a, some "panic: runtime error: index out of range")
    | some marker =>
      let input : ListObjectsInput :=
        { Bucket := a.vargs.Bucket, Prefix := path, Marker := some marker }
      match S.ListObjects input a.client with
      | (r, c) =>
        let a := { a with client := c, log := a.log ++ [Request.listObjects input] }
        match r with
        | .error e => some (a, some e)
        | .ok resp =>
          listLoop S path fuel { a with remote := a.remote ++ resp.Contents } resp.IsTruncated

/-- Go `AWS.List`; `fuel` bounds the number of continuation requests. -/
def AWS.List {σ : Type} (S : S3 σ) (fuel : Nat) (a : AWS σ) (path : String) :
    Option (AWS σ × Option Error) :=
  let input : ListObjectsInput := { Bucket := a.vargs.Bucket, Prefix := path, Marker := none }
  match S.ListObjects input a.client with
  | (r, c) =>
    let a := { a with client := c, log := a.log ++ [Request.listObjects input] }
    match r with
    | .error e => some (a, some e)
    | .ok resp =>
      listLoop S path fuel { a with remote := a.remote ++ resp.Contents } resp.IsTruncated

/-- The outer loop of `Cleanup` over the inventory keys still to visit. -/
def cleanupLoop {σ : Type} (S : S3 σ) : AWS σ → List String → AWS σ × Option Error
  | a, [] => (a, none)
  | a, remote :: rest =>
    let found := a.locals.any (fun l => l == remote)
    if !found then
      let input : DeleteObjectInput := { Bucket := a.vargs.Bucket, Key := remote }
      match S.DeleteObject input a.client with
      | (r, c) =>
        let a := { a with client := c, log := a.log ++ [Request.deleteObject input] }
        match r with
        | .error e => (a, some e)
        | .ok _ => cleanupLoop S a rest
    else cleanupLoop S a rest

/-- Go `AWS.Cleanup`. -/
def AWS.Cleanup {σ : Type} (S : S3 σ) (a : AWS σ) : AWS σ × Option Error :=
  cleanupLoop S a a.remote

/-! ## The run and the storage backend -/

/-- Modelled from the spec: the walk of section 4.2 (`filepath.Walk` in the
absent `main.go`), which hands the entries of the local tree to `visit` one
after another and stops at the first error. -/
def walk {σ : Type} (E : Env) (S : S3 σ) :
    AWS σ → List (String × FileInfo) → AWS σ × Option Error
  | a, [] => (a, none)
  | a, (path, info) :: rest =>
    match a.visit E S path info none with
    | (a, some e) => (a, some e)
    | (a, none) => walk E S a rest

/-- Modelled from the spec: the control flow of section 2 (the absent
`main.go`): the lister seeds the inventory under the target prefix, the walker
drives `visit` over the local tree, the redirects are installed, and cleanup
runs last; any error ends the run.  `none` when `List` runs out of rounds. -/
def run {σ : Type} (E : Env) (S : S3 σ) (fuel : Nat) (vargs : PluginArgs) (c : σ)
    (tree : List (String × FileInfo)) (redirects : GoMap String) :
    Option (AWS σ × Option Error) :=
  match (NewAWS c vargs).List S fuel vargs.Target with
  | none => none
  | some (a, some e) => some (a, some e)
  | some (a, none) =>
    match walk E S a tree with
    | (a, some e) => some (a, some e)
    | (a, none) =>
      match a.AddRedirects E S redirects with
      | (a, some e) => some (a, some e)
      | (a, none) => some (a.Cleanup S)

/-- Modelled from the spec: a remote object of the storage backend of section 6
(bytes identified by their content hash, content type, metadata, access grants,
redirect location). -/
structure Object where
  ETag : String
  ContentType : Option String
  Metadata : GoMap String
  Grants : List Grant
  WebsiteRedirectLocation : Option String
deriving DecidableEq, Repr

/-- Modelled from the spec: the bucket of the storage backend of section 6, a
key-object store listed in key order, at most `maxKeys` keys to a page. -/
structure Bucket where
  objects : List (String × Object)
  maxKeys : Nat
deriving DecidableEq, Repr

/-- The grant of full control to the owner of an object. -/
def ownerGrant : Grant := { Grantee := { URI := none }, Permission := "FULL_CONTROL" }

/-- A grant to the "all users" well-known group. -/
def allUsersGrant (permission : String) : Grant :=
  { Grantee := { URI := some "http://acs.amazonaws.com/groups/global/AllUsers" },
    Permission := permission }

/-- A grant to the "authenticated users" well-known group. -/
def authenticatedUsersGrant (permission : String) : Grant :=
  { Grantee := { URI := some "http://acs.amazonaws.com/groups/global/AuthenticatedUsers" },
    Permission := permission }

/-- Modelled from the spec: the grants a canned access string stands for
(section 4.4, rule 6, read backwards); `none` for a string the backend rejects. -/
def cannedGrants (acl : String) : Option (List Grant) :=
  if acl = "private" then some [ownerGrant]
  else if acl = "public-read" then some [ownerGrant, allUsersGrant "READ"]
  else if acl = "public-read-write" then
    some [ownerGrant, allUsersGrant "READ", allUsersGrant "WRITE"]
  else if acl = "authenticated-read" then some [ownerGrant, authenticatedUsersGrant "READ"]
  else none

/-- Key order of the bucket on character lists: lexicographic by code point. -/
def keyLtChars : List Char → List Char → Bool
  | [], [] => false
  | [], _ :: _ => true
  | _ :: _, [] => false
  | a :: as, b :: bs => decide (a.toNat < b.toNat) || (a == b && keyLtChars as bs)

/-- Key order of the bucket. -/
def keyLt (a b : String) : Bool := keyLtChars a.data b.data

/-- Store `o` under `k`, keeping the objects in key order. -/
def putObj (k : String) (o : Object) : List (String × Object) → List (String × Object)
  | [] => [(k, o)]
  | (k', o') :: rest =>
    if keyLt k k' then (k, o) :: (k', o') :: rest
    else if k = k' then (k, o) :: rest
    else (k', o') :: putObj k o rest

/-- The keys of a listing request: those with the prefix, after the marker. -/
def listedKeys (b : Bucket) (i : ListObjectsInput) : List String :=
  (b.objects.map Prod.fst).filter (fun k =>
    HasPrefix k i.Prefix &&
      match i.Marker with
      | none => true
      | some m => keyLt m k)

/-- Modelled from the spec: the object storage backend of section 6, "paginated
listing by prefix, fetching object metadata/headers, fetching object access
grants, writing an object (bytes + content type + ACL + metadata), copying an
object in place with metadata replacement, and deleting an object", exposing "a
content hash comparable directly to a locally computed MD5-style digest". -/
def bucketS3 (md5hex : Bytes → String) : S3 Bucket where
  ListObjects := fun i b =>
    let ks := listedKeys b i
    (.ok { Contents := ks.take b.maxKeys, IsTruncated := decide (b.maxKeys < ks.length) }, b)
  HeadObject := fun i b =>
    match b.objects.lookup i.Key with
    | none => (.error "NotFound", b)
    | some o => (.ok { ETag := o.ETag, ContentType := o.ContentType, Metadata := o.Metadata }, b)
  GetObjectAcl := fun i b =>
    match b.objects.lookup i.Key with
    | none => (.error "NoSuchKey", b)
    | some o => (.ok { Grants := o.Grants }, b)
  CopyObject := fun i b =>
    match b.objects.lookup (TrimPrefix i.CopySource (i.Bucket ++ "/")), cannedGrants i.ACL with
    | some o, some gs =>
      let o' : Object :=
        if i.MetadataDirective = "REPLACE" then
          { o with ContentType := some i.ContentType, Metadata := i.Metadata, Grants := gs }
        else { o with Grants := gs }
      (.ok (), { b with objects := putObj i.Key o' b.objects })
    | none, _ => (.error "NoSuchKey", b)
    | _, none => (.error "InvalidArgument", b)
  PutObject := fun i b =>
    match cannedGrants (i.ACL.getD "private") with
    | none => (.error "InvalidArgument", b)
    | some gs =>
      let o : Object :=
        { ETag := "\"" ++ md5hex (i.Body.getD []) ++ "\"", ContentType := i.ContentType,
          Metadata := i.Metadata, Grants := gs,
          WebsiteRedirectLocation := i.WebsiteRedirectLocation }
      (.ok (), { b with objects := putObj i.Key o b.objects })
  DeleteObject := fun i b =>
    (.ok (), { b with objects := b.objects.filter (fun ko => ko.1 != i.Key) })

/-! ## Concrete surroundings for the scenarios -/

/-- The hexadecimal digit of a number below sixteen. -/
def hexDigit (n : Nat) : Char := "0123456789abcdef".data.getD n '0'

/-- A stand-in for the MD5 digest in the scenarios: the bytes themselves in
hexadecimal.  The scenarios rely only on equal contents having equal digests. -/
def demoDigest (content : Bytes) : String :=
  String.mk (content.flatMap (fun b => [hexDigit (b / 16 % 16), hexDigit (b % 16)]))

/-- A glob matcher in which `*` stands for any run of characters. -/
def starMatch : List Char → List Char → Bool
  | [], s => s.isEmpty
  | p :: ps, s =>
    if p = '*' then s.tails.any (fun t => starMatch ps t)
    else
      match s with
      | [] => false
      | c :: cs => p == c && starMatch ps cs

/-- The surroundings of the scenarios: the files of `fs` can be opened and
rewound, `range` visits keys in the order they are written down, and the MIME
table knows `.css`, `.html` and `.js`. -/
def demoEnv (fs : List (String × Bytes)) : Env where
  md5hex := demoDigest
  TypeByExtension := fun ext =>
    if ext = ".css" then "text/css; charset=utf-8"
    else if ext = ".html" then "text/html; charset=utf-8"
    else if ext = ".js" then "application/javascript"
    else ""
  Glob := fun pattern subj => starMatch pattern.data subj.data
  Open := fun path =>
    match fs.lookup path with
    | some content => .ok { content := content, seekErr := none }
    | none => .error "open: no such file or directory"
  rangeKeys := fun ks => ks

/-- The configuration of the scenarios: source `dist`, private access, and the
given target prefix and content-type policy. -/
def demoArgs (target : String) (contentType : StringMap) : PluginArgs :=
  { Key := "", Secret := "", Bucket := "bucket", Region := "us-east-1", Source := "dist",
    Target := target, Access := .absent, ContentType := contentType, Metadata := [] }

/-- A stored object with the given bytes, content type, metadata and canned access. -/
def demoObject (content : Bytes) (contentType : Option String) (metadata : GoMap String)
    (grants : List Grant) : Object :=
  { ETag := "\"" ++ demoDigest content ++ "\"", ContentType := contentType,
    Metadata := metadata, Grants := grants, WebsiteRedirectLocation := none }

/-- The state in which the walk starts: `NewAWS` followed by `List` of the
target prefix (with room for `fuel` continuation requests). -/
def afterList {σ : Type} (S : S3 σ) (fuel : Nat) (vargs : PluginArgs) (c : σ) : AWS σ :=
  match (NewAWS c vargs).List S fuel vargs.Target with
  | some (a, _) => a
  | none => NewAWS c vargs

/-- Whether a grant is one that the loop of lines 175-190 acts on: a grant to
the "all users" group with permission `READ` or `WRITE`. -/
def isAllUsersReadWrite (g : Grant) : Bool :=
  g.Grantee.URI == some "http://acs.amazonaws.com/groups/global/AllUsers" &&
    (g.Permission == "READ" || g.Permission == "WRITE")

/-- Scenario: source `dist` holds `style.css`, whose policy metadata is the
single pair `a = 1`. -/
def metaArgs : PluginArgs := { demoArgs "" .absent with Metadata := [("*", [("a", "1")])] }

/-- Scenario: the bucket holds `style.css` with the bytes of the local file, the
content type of the MIME table, private access, and the single metadata pair
`b = 1`. -/
def metaBucket : Bucket :=
  { objects := [("style.css",
      demoObject [3] (some "text/css; charset=utf-8") [("b", "1")] [ownerGrant])],
    maxKeys := 1000 }

/-- Scenario A of the spec, configuration: no target prefix, content type
`text/css` for `.css`. -/
def scenarioAArgs : PluginArgs := demoArgs "" (.mapping [(".css", "text/css")])

/-- Scenario A of the spec, bucket: the orphan `old.js` and `style.css` with the
bytes of the local file and no content type. -/
def scenarioABucket : Bucket :=
  { objects := [("old.js", demoObject [9] none [] [ownerGrant]),
      ("style.css", demoObject [3] none [] [ownerGrant])],
    maxKeys := 1000 }

/-- Scenario A of the spec, local tree: the new `index.html` and `style.css`. -/
def scenarioAEnv : Env := demoEnv [("dist/index.html", [1, 2]), ("dist/style.css", [3])]

/-- Scenario: the target prefix `site`. -/
def prefixArgs : PluginArgs := demoArgs "site" .absent

/-- Scenario: the bucket holds `site/index.html` with the bytes and the content
type of the local `index.html`, and private access. -/
def prefixBucket : Bucket :=
  { objects := [("site/index.html",
      demoObject [1, 2] (some "text/html; charset=utf-8") [] [ownerGrant])],
    maxKeys := 1000 }

/-- Scenario: an empty bucket. -/
def emptyBucket : Bucket := { objects := [], maxKeys := 1000 }

/-- The requests of a log that change the bucket. -/
def writesOf (log : List Request) : List Request :=
  log.filter (fun r =>
    match r with
    | .putObject _ => true
    | .copyObject _ => true
    | .deleteObject _ => true
    | _ => false)

/-- The runtime visits, in a `range` statement, exactly the keys handed to it. -/
def Env.RangeOK (E : Env) : Prop := ∀ ks : List String, (E.rangeKeys ks).Perm ks

/-! ## Predicates used in the statements -/

/-- The objects of a bucket are in strictly increasing key order. -/
def KeysSorted (l : List (String × Object)) : Prop :=
  (l.map Prod.fst).Pairwise (fun x y => keyLt x y = true)

/-- The object a successful upload stores. -/
def uploaded (md5hex : Bytes → String) (file : File) (contentType : String)
    (metadata : GoMap String) (gs : List Grant) : Object :=
  { ETag := "\"" ++ md5hex file.content ++ "\"", ContentType := some contentType,
    Metadata := metadata, Grants := gs, WebsiteRedirectLocation := none }

/-- The object a successful metadata update stores in place of `o`. -/
def replaced (o : Object) (contentType : String) (metadata : GoMap String)
    (gs : List Grant) : Object :=
  { o with ContentType := some contentType, Metadata := metadata, Grants := gs }

/-- The remote object at the relative path of `path` has the bytes of the local
file and is judged unchanged in content type, metadata and access. -/
def Synced (E : Env) (vargs : PluginArgs) (objs : List (String × Object)) (path : String) :
    Prop :=
  ∃ file o, E.Open path = .ok file ∧
    objs.lookup (localPathOf vargs.Source path) = some o ∧
    "\"" ++ E.md5hex file.content ++ "\"" = o.ETag ∧
    contentTypeChanged o.ContentType
      (resolveContentType E vargs (localPathOf vargs.Source path)) = false ∧
    metadataChanged E o.Metadata
      (resolveMetadata E vargs (localPathOf vargs.Source path)) = false ∧
    previousAccess o.Grants = resolveAccess E vargs (localPathOf vargs.Source path)

/-- Whether `visit` treats an entry of the walk as a file: it is not the entry
`.` and not a directory. -/
def isRegular (e : String × FileInfo) : Bool := e.1 != "." && !e.2.IsDir

/-- The paths of the files among the entries of a walk. -/
def regularFiles (tree : List (String × FileInfo)) : List String :=
  (tree.filter isRegular).map Prod.fst

/-- Modelled from the spec: the second of two runs of section 8 (idempotence),
made against the bucket the first run leaves, once the first run has completed
without error. -/
def rerun {σ : Type} (E : Env) (S : S3 σ) (fuel : Nat) (vargs : PluginArgs) (c : σ)
    (tree : List (String × FileInfo)) (redirects : GoMap String) :
    Option (AWS σ × Option Error) :=
  match run E S fuel vargs c tree redirects with
  | some (a, none) => run E S fuel vargs a.client tree redirects
  | _ => none

/-- Scenario A of the spec, the entries of the walk. -/
def scenarioATree : List (String × FileInfo) :=
  [("dist", ⟨true⟩), ("dist/index.html", ⟨false⟩), ("dist/style.css", ⟨false⟩)]

/-- The surroundings of `demoEnv`, except that `range` visits the keys of a map
in the reverse of the order in which they are written down. -/
def reverseEnv (fs : List (String × Bytes)) : Env :=
  { demoEnv fs with rangeKeys := List.reverse }

/-- Scenario: an access mapping with two patterns that both match `index.html`. -/
def overlapAccess : StringMap :=
  .mapping [("*.html", "public-read"), ("*", "public-read-write")]

/-- Scenario: a metadata mapping with two patterns that both match `index.html`. -/
def overlapMetadata : GoMap (GoMap String) :=
  [("*.html", [("a", "1")]), ("*", [("b", "2")])]

/-- Scenario: the configuration with both overlapping mappings. -/
def overlapArgs : PluginArgs :=
  { demoArgs "" .absent with Access := overlapAccess, Metadata := overlapMetadata }

/-- The request `Cleanup` sends for an orphan key (lines 297-300). -/
def deleteRequest (bucket key : String) : Request :=
  Request.deleteObject { Bucket := bucket, Key := key }

/-- The inventory keys that are not in the reference set, in inventory order. -/
def orphans {σ : Type} (a : AWS σ) : List String :=
  a.remote.filter (fun k => decide (k ∉ a.locals))

/-- The backend state after DeleteObject requests for `keys`, sent in order
from state `c`; `none` if one of them fails. -/
def deleteAll {σ : Type} (S : S3 σ) (bucket : String) : σ → List String → Option σ
  | c, [] => some c
  | c, k :: ks =>
    match S.DeleteObject { Bucket := bucket, Key := k } c with
    | (.ok _, c') => deleteAll S bucket c' ks
    | (.error _, _) => none

/-- The storage backend of section 6, except that deleting `key` is refused. -/
def refusingDelete (key : String) : S3 Bucket :=
  { bucketS3 demoDigest with
    DeleteObject := fun i b =>
      if i.Key = key then (.error "AccessDenied", b)
      else (bucketS3 demoDigest).DeleteObject i b }

/-- Scenario A of the spec, the state in which `Cleanup` starts: the inventory
of the bucket and the reference set of the walk. -/
def scenarioABeforeCleanup : AWS Bucket :=
  { NewAWS scenarioABucket scenarioAArgs with
    remote := ["", "old.js", "style.css"], locals := ["", "index.html", "style.css"] }

/-- Scenario: a bucket with the three orphans `a`, `b`, `c`. -/
def orphanBucket : Bucket :=
  { objects := [("a", demoObject [1] none [] [ownerGrant]),
      ("b", demoObject [2] none [] [ownerGrant]), ("c", demoObject [3] none [] [ownerGrant])],
    maxKeys := 1000 }

/-- Scenario: the state in which `Cleanup` starts with the orphans `a`, `b`, `c`. -/
def orphanState : AWS Bucket :=
  { NewAWS orphanBucket (demoArgs "" .absent) with remote := ["", "a", "b", "c"] }

/-- The continuation requests `List` sends while the pages `pages` are still to
come, `remote` being the inventory collected so far: each carries as marker the
last entry of the inventory at the time it is sent. -/
def continuations (bucket path : String) : List String → List ListObjectsOutput →
    List ListObjectsInput
  | _, [] => []
  | remote, o :: os =>
    { Bucket := bucket, Prefix := path, Marker := remote.getLast? } ::
      continuations bucket path (remote ++ o.Contents) os

/-- The answers of the backend to the listing requests `is`, sent in order from
state `c`; `none` if one of them fails. -/
def answers {σ : Type} (S : S3 σ) : σ → List ListObjectsInput → Option (List ListObjectsOutput)
  | _, [] => some []
  | c, i :: is =>
    match S.ListObjects i c with
    | (.ok o, c') => (answers S c' is).map (fun os => o :: os)
    | (.error _, _) => none

/-- A finite sequence of pages: every page but the last is reported as
truncated, the last one is not. -/
def paged : List ListObjectsOutput → Bool
  | [] => false
  | [o] => !o.IsTruncated
  | o :: o' :: os => o.IsTruncated && paged (o' :: os)

/-- Scenario: a bucket with three keys, listed one key to a page. -/
def pagedBucket : Bucket :=
  { objects := [("a", demoObject [1] none [] [ownerGrant]),
      ("b", demoObject [2] none [] [ownerGrant]), ("c", demoObject [3] none [] [ownerGrant])],
    maxKeys := 1 }

/-- Scenario: access configured as the fixed string "authenticated-read". -/
def authenticatedArgs : PluginArgs :=
  { demoArgs "" .absent with Access := .scalar "authenticated-read" }

/-- Scenario: the bucket holds `index.html` with the bytes and content type of
the local file and the grants of the canned access "authenticated-read". -/
def authenticatedBucket : Bucket :=
  { objects := [("index.html", demoObject [1, 2] (some "text/html; charset=utf-8") []
      [ownerGrant, authenticatedUsersGrant "READ"])],
    maxKeys := 1000 }

/-- The states of an `AWS` value that the methods `List`, `visit` and
`AddRedirects` can produce from the result of `NewAWS`. -/
inductive Reachable {σ : Type} (S : S3 σ) : AWS σ → Prop
  | new (c : σ) (vargs : PluginArgs) : Reachable S (NewAWS c vargs)
  | list (a a' : AWS σ) (fuel : Nat) (path : String) (err : Option Error) :
      Reachable S a → a.List S fuel path = some (a', err) → Reachable S a'
  | visit (E : Env) (a : AWS σ) (path : String) (info : FileInfo) (err : Option Error) :
      Reachable S a → Reachable S (a.visit E S path info err).1
  | addRedirects (E : Env) (a : AWS σ) (redirects : GoMap String) :
      Reachable S a → Reachable S (a.AddRedirects E S redirects).1

/-- A backend that answers the listing requests from a script of pages, one
page per request whatever the request, and fails once the script is used up;
it holds no objects. -/
def scriptedS3 : S3 (List ListObjectsOutput) where
  ListObjects := fun _ script =>
    match script with
    | [] => (.error "RequestTimeout", [])
    | o :: rest => (.ok o, rest)
  HeadObject := fun _ script => (.error "NotFound", script)
  GetObjectAcl := fun _ script => (.error "NoSuchKey", script)
  CopyObject := fun _ script => (.error "NoSuchKey", script)
  PutObject := fun _ script => (.ok (), script)
  DeleteObject := fun _ script => (.ok (), script)

/-- Scenario: the target prefix `site` with access configured as the fixed
string "authenticated-read". -/
def authenticatedPrefixArgs : PluginArgs :=
  { demoArgs "site" .absent with Access := .scalar "authenticated-read" }

/-- Scenario: the bucket holds `site/index.html` with the bytes and content
type of the local file and the grants of the canned access
"authenticated-read". -/
def authenticatedPrefixBucket : Bucket :=
  { objects := [("site/index.html", demoObject [1, 2] (some "text/html; charset=utf-8") []
      [ownerGrant, authenticatedUsersGrant "READ"])],
    maxKeys := 1000 }

/-- Scenario: a configuration whose access mapping, content-type mapping and
metadata mapping each have two keys, of which only the second one written
matches `index.html`; the matching metadata entry has two pairs. -/
def disjointArgs : PluginArgs :=
  { demoArgs "" (.mapping [(".css", "text/css"), (".html", "text/html")]) with
    Access := .mapping [("*.css", "private"), ("*.html", "public-read")],
    Metadata := [("*.css", [("b", "2")]), ("*.html", [("a", "1"), ("c", "3")])] }

/-! ## Theorems -/

theorem demoEnv_rangeOK (fs : List (String × Bytes)) : (demoEnv fs).RangeOK :=
  fun ks => List.Perm.refl ks

theorem get?_isSome_of_mem_keys {β : Type} (m : GoMap β) (k : String) (h : k ∈ m.keys) :
    (m.get? k).isSome = true := by
  induction m with
  | nil => simp [GoMap.keys] at h
  | cons kv m ih =>
    obtain ⟨k', v'⟩ := kv
    by_cases hk : k = k'
    · subst hk; simp [GoMap.get?, List.lookup]
    · have hm : k ∈ GoMap.keys m := by
        simp only [GoMap.keys, List.map_cons, List.mem_cons] at h
        rcases h with h | h
        · exact absurd h hk
        · exact h
      have hb : (k == k') = false := by simpa using hk
      simpa [GoMap.get?, List.lookup, hb] using ih hm

theorem mem_keys_of_get? {β : Type} (m : GoMap β) (k : String) (v : β)
    (h : m.get? k = some v) : k ∈ m.keys := by
  induction m with
  | nil => simp [GoMap.get?, List.lookup] at h
  | cons kv m ih =>
    obtain ⟨k', v'⟩ := kv
    by_cases hk : k = k'
    · subst hk; simp [GoMap.keys]
    · have hb : (k == k') = false := by simpa using hk
      simp only [GoMap.get?, List.lookup, hb] at h
      simp only [GoMap.keys, List.map_cons, List.mem_cons]
      exact Or.inr (ih h)

theorem mem_rangeOver {β : Type} (E : Env) (hE : E.RangeOK) (m : GoMap β) (k : String) :
    k ∈ rangeOver E m ↔ k ∈ m.keys := by
  unfold rangeOver
  rw [List.mem_filter, (hE m.keys).mem_iff]
  constructor
  · exact fun h => h.1
  · exact fun h => ⟨h, get?_isSome_of_mem_keys m k h⟩

/-- C9: the content type of a hash-matched file is judged changed exactly when
the remote content type is absent and the resolved one is non-empty, or the
remote one is present and the resolved one is not equal to it; absent against
empty is not a change. -/
theorem contentTypeChanged_iff (r : Option String) (c : String) :
    (contentTypeChanged r c = true ↔ (r = none ∧ c ≠ "") ∨ (∃ x, r = some x ∧ c ≠ x)) ∧
      contentTypeChanged none "" = false := by
  refine ⟨?_, by decide⟩
  cases r with
  | none => by_cases hc : c = "" <;> simp [contentTypeChanged, hc]
  | some x => by_cases hx : c = x <;> simp [contentTypeChanged, hx]

theorem metadataChanged_eq_true (E : Env) (hE : E.RangeOK) (remote resolved : GoMap String) :
    metadataChanged E remote resolved = true ↔
      remote.len ≠ resolved.len ∨
        ∃ k v hv, resolved.get? k = some v ∧ remote.get? k = some hv ∧ v ≠ hv := by
  by_cases hlen : remote.len = resolved.len
  · have key : (∃ k v hv, resolved.get? k = some v ∧ remote.get? k = some hv ∧ v ≠ hv) ↔
        ((rangeOver E resolved).any (fun k =>
          match resolved.get? k, remote.get? k with
          | some v, some hv => v != hv
          | _, _ => false) = true) := by
      rw [List.any_eq_true]
      constructor
      · rintro ⟨k, v, hv, h1, h2, h3⟩
        refine ⟨k, (mem_rangeOver E hE resolved k).2 (mem_keys_of_get? resolved k v h1), ?_⟩
        simp [h1, h2, h3]
      · rintro ⟨k, _, hk⟩
        cases h1 : resolved.get? k with
        | none => simp [h1] at hk
        | some v =>
          cases h2 : remote.get? k with
          | none => simp [h1, h2] at hk
          | some hv =>
            refine ⟨k, v, hv, h1, h2, ?_⟩
            simpa [h1, h2] using hk
    by_cases hpos : resolved.len > 0
    · simp only [metadataChanged, hlen, hpos, ne_eq, not_true_eq_false, false_or]
      simpa using key.symm
    · have hnil : resolved = [] := by
        cases resolved with
        | nil => rfl
        | cons x xs => simp [GoMap.len] at hpos
      subst hnil
      simp [metadataChanged, hlen, GoMap.len, GoMap.get?, List.lookup]
  · simp [metadataChanged, hlen]

/-- C8: the metadata of a hash-matched file is judged changed exactly when the
resolved and the remote mapping have different numbers of keys, or some key of
the resolved mapping has a different value in the remote mapping; the values the
remote mapping holds under keys that are not in the resolved mapping have no
influence on the judgement. -/
theorem metadataChanged_iff (E : Env) (hE : E.RangeOK) (resolved : GoMap String) :
    (∀ remote : GoMap String,
      metadataChanged E remote resolved = true ↔
        remote.len ≠ resolved.len ∨
          ∃ k v hv, resolved.get? k = some v ∧ remote.get? k = some hv ∧ v ≠ hv) ∧
    (∀ remote remote' : GoMap String, remote.len = remote'.len →
      (∀ k, resolved.get? k ≠ none → remote.get? k = remote'.get? k) →
      metadataChanged E remote resolved = metadataChanged E remote' resolved) := by
  refine ⟨fun remote => metadataChanged_eq_true E hE remote resolved, ?_⟩
  intro remote remote' hlen hsame
  rw [Bool.eq_iff_iff, metadataChanged_eq_true E hE, metadataChanged_eq_true E hE, hlen]
  constructor
  · rintro (h | ⟨k, v, hv, h1, h2, h3⟩)
    · exact Or.inl h
    · exact Or.inr ⟨k, v, hv, h1, by rw [← hsame k (by simp [h1])]; exact h2, h3⟩
  · rintro (h | ⟨k, v, hv, h1, h2, h3⟩)
    · exact Or.inl h
    · exact Or.inr ⟨k, v, hv, h1, by rw [hsame k (by simp [h1])]; exact h2, h3⟩

/-- C8, at a concrete input: one resolved key whose remote value differs, next
to a key that only the remote mapping holds. -/
theorem metadataChanged_iff_witness :
    (demoEnv []).RangeOK ∧
      metadataChanged (demoEnv []) [("cache-control", "no-cache")]
        [("cache-control", "max-age=60")] = true ∧
      metadataChanged (demoEnv []) [("cache-control", "max-age=60"), ("x", "1")]
          [("cache-control", "max-age=60"), ("y", "2")] =
        metadataChanged (demoEnv []) [("cache-control", "max-age=60"), ("x", "3")]
          [("cache-control", "max-age=60"), ("y", "2")] :=
  ⟨demoEnv_rangeOK [],
    ((metadataChanged_iff (demoEnv []) (demoEnv_rangeOK [])
        [("cache-control", "max-age=60")]).1 [("cache-control", "no-cache")]).2
      (Or.inr ⟨"cache-control", "max-age=60", "no-cache", by decide, by decide, by decide⟩),
    (metadataChanged_iff (demoEnv []) (demoEnv_rangeOK [])
        [("cache-control", "max-age=60"), ("y", "2")]).2
      [("cache-control", "max-age=60"), ("x", "1")] [("cache-control", "max-age=60"), ("x", "3")]
      (by decide)
      (fun k hk => by
        by_cases h1 : k = "cache-control"
        · subst h1; decide
        · by_cases h2 : k = "y"
          · subst h2; decide
          · exfalso; apply hk
            have b1 : ("cache-control" == k) = false := by simpa using fun h => h1 h.symm
            have b1' : (k == "cache-control") = false := by simpa using h1
            have b2 : (k == "y") = false := by simpa using h2
            simp [GoMap.get?, List.lookup, b1', b2])⟩

/-! ### The branch of `visit` for a matching hash -/

theorem updateMetadata_log {σ : Type} (S : S3 σ) (a : AWS σ) (remotePath contentType access : String)
    (metadata : GoMap String) :
    (updateMetadata S a remotePath contentType access metadata).1.log =
      a.log ++ [Request.copyObject (copyInput a.vargs.Bucket remotePath contentType access metadata)] := by
  simp [updateMetadata, copyInput]

theorem sameHash_of_changed {σ : Type} (E : Env) (S : S3 σ) (a : AWS σ) (remotePath : String)
    (head : HeadObjectOutput) (contentType access : String) (metadata : GoMap String)
    (h : contentTypeChanged head.ContentType contentType = true ∨
      metadataChanged E head.Metadata metadata = true) :
    sameHash E S a remotePath head contentType access metadata =
      updateMetadata S a remotePath contentType access metadata := by
  unfold sameHash
  rcases h with h | h
  · simp [h]
  · cases hc : contentTypeChanged head.ContentType contentType <;> simp [hc, h]

theorem sameHash_of_unchanged {σ : Type} (E : Env) (S : S3 σ) (a : AWS σ) (remotePath : String)
    (head : HeadObjectOutput) (contentType access : String) (metadata : GoMap String)
    (grant : GetObjectAclOutput) (c : σ)
    (hct : contentTypeChanged head.ContentType contentType = false)
    (hmd : metadataChanged E head.Metadata metadata = false)
    (hacl : S.GetObjectAcl { Bucket := a.vargs.Bucket, Key := remotePath } a.client =
      (.ok grant, c)) :
    sameHash E S a remotePath head contentType access metadata =
      if previousAccess grant.Grants ≠ access then
        updateMetadata S { a with client := c, log := a.log ++
          [Request.getObjectAcl { Bucket := a.vargs.Bucket, Key := remotePath }] }
          remotePath contentType access metadata
      else
        ({ a with client := c, log := a.log ++
          [Request.getObjectAcl { Bucket := a.vargs.Bucket, Key := remotePath }] }, none) := by
  unfold sameHash
  simp [hct, hmd, hacl]

theorem sameHash_of_acl_error {σ : Type} (E : Env) (S : S3 σ) (a : AWS σ) (remotePath : String)
    (head : HeadObjectOutput) (contentType access : String) (metadata : GoMap String)
    (e : Error) (c : σ)
    (hct : contentTypeChanged head.ContentType contentType = false)
    (hmd : metadataChanged E head.Metadata metadata = false)
    (hacl : S.GetObjectAcl { Bucket := a.vargs.Bucket, Key := remotePath } a.client =
      (.error e, c)) :
    sameHash E S a remotePath head contentType access metadata =
      ({ a with client := c, log := a.log ++
        [Request.getObjectAcl { Bucket := a.vargs.Bucket, Key := remotePath }] }, some e) := by
  unfold sameHash
  simp [hct, hmd, hacl]

theorem visit_of_hash_match {σ : Type} (E : Env) (S : S3 σ) (a : AWS σ) (path : String)
    (info : FileInfo) (file : File) (head : HeadObjectOutput) (c : σ)
    (hpath : path ≠ ".") (hdir : info.IsDir = false) (hopen : E.Open path = .ok file)
    (hex : localPathOf a.vargs.Source path ∈ a.remote)
    (hhead : S.HeadObject
      { Bucket := a.vargs.Bucket, Key := Join a.vargs.Target (localPathOf a.vargs.Source path) }
      a.client = (.ok head, c))
    (hsum : "\"" ++ E.md5hex file.content ++ "\"" = head.ETag) :
    a.visit E S path info none =
      sameHash E S
        { a with
          client := c
          locals := a.locals ++ [localPathOf a.vargs.Source path]
          log := a.log ++ [Request.headObject
            { Bucket := a.vargs.Bucket,
              Key := Join a.vargs.Target (localPathOf a.vargs.Source path) }] }
        (Join a.vargs.Target (localPathOf a.vargs.Source path)) head
        (resolveContentType E a.vargs (localPathOf a.vargs.Source path))
        (resolveAccess E a.vargs (localPathOf a.vargs.Source path))
        (resolveMetadata E a.vargs (localPathOf a.vargs.Source path)) := by
  have hany : a.remote.any (fun remoteFile => remoteFile == localPathOf a.vargs.Source path) = true :=
    List.any_eq_true.2 ⟨_, hex, by simp⟩
  simp [AWS.visit, hpath, hdir, hopen, hany, hhead, hsum]

theorem visit_log_of_hash_match {σ : Type} (E : Env) (S : S3 σ) (a : AWS σ) (path : String)
    (info : FileInfo) (file : File) (head : HeadObjectOutput) (c : σ)
    (hpath : path ≠ ".") (hdir : info.IsDir = false) (hopen : E.Open path = .ok file)
    (hex : localPathOf a.vargs.Source path ∈ a.remote)
    (hhead : S.HeadObject
      { Bucket := a.vargs.Bucket, Key := Join a.vargs.Target (localPathOf a.vargs.Source path) }
      a.client = (.ok head, c))
    (hsum : "\"" ++ E.md5hex file.content ++ "\"" = head.ETag) :
    (contentTypeChanged head.ContentType
          (resolveContentType E a.vargs (localPathOf a.vargs.Source path)) = true ∨
        metadataChanged E head.Metadata
          (resolveMetadata E a.vargs (localPathOf a.vargs.Source path)) = true →
      writesOf ((a.visit E S path info none).1.log.drop a.log.length) =
        [Request.copyObject (copyInput a.vargs.Bucket
          (Join a.vargs.Target (localPathOf a.vargs.Source path))
          (resolveContentType E a.vargs (localPathOf a.vargs.Source path))
          (resolveAccess E a.vargs (localPathOf a.vargs.Source path))
          (resolveMetadata E a.vargs (localPathOf a.vargs.Source path)))]) ∧
    (contentTypeChanged head.ContentType
          (resolveContentType E a.vargs (localPathOf a.vargs.Source path)) = false →
      metadataChanged E head.Metadata
          (resolveMetadata E a.vargs (localPathOf a.vargs.Source path)) = false →
      ∀ (grant : GetObjectAclOutput) (c' : σ),
        S.GetObjectAcl
          { Bucket := a.vargs.Bucket,
            Key := Join a.vargs.Target (localPathOf a.vargs.Source path) } c = (.ok grant, c') →
        (previousAccess grant.Grants ≠ resolveAccess E a.vargs (localPathOf a.vargs.Source path) →
          writesOf ((a.visit E S path info none).1.log.drop a.log.length) =
            [Request.copyObject (copyInput a.vargs.Bucket
              (Join a.vargs.Target (localPathOf a.vargs.Source path))
              (resolveContentType E a.vargs (localPathOf a.vargs.Source path))
              (resolveAccess E a.vargs (localPathOf a.vargs.Source path))
              (resolveMetadata E a.vargs (localPathOf a.vargs.Source path)))]) ∧
        (previousAccess grant.Grants = resolveAccess E a.vargs (localPathOf a.vargs.Source path) →
          writesOf ((a.visit E S path info none).1.log.drop a.log.length) = [] ∧
            (a.visit E S path info none).2 = none)) := by
  rw [visit_of_hash_match E S a path info file head c hpath hdir hopen hex hhead hsum]
  refine ⟨fun h => ?_, fun hct hmd grant c' hacl => ⟨fun hne => ?_, fun heq => ?_⟩⟩
  · rw [sameHash_of_changed _ _ _ _ _ _ _ _ h, updateMetadata_log]
    simp [writesOf]
  · rw [sameHash_of_unchanged E S _ _ head _ _ _ grant c' hct hmd hacl, if_pos hne,
      updateMetadata_log]
    simp [writesOf]
  · rw [sameHash_of_unchanged E S _ _ head _ _ _ grant c' hct hmd hacl, if_neg (not_not.2 heq)]
    simp [writesOf]

/-- The skip rule where the existence test of `visit` succeeds: for a file
whose relative path is in the inventory, whose HeadObject
succeeds with an ETag equal to the local hash and whose GetObjectAcl succeeds,
`visit` issues no write and returns no error exactly when none of content type,
metadata and ACL is judged changed; in every other case its only write is the
CopyObject of the metadata update. -/
theorem visit_skips_iff_unchanged {σ : Type} (E : Env) (S : S3 σ) (a : AWS σ) (path : String)
    (info : FileInfo) (file : File) (head : HeadObjectOutput) (c : σ)
    (grant : GetObjectAclOutput) (c' : σ)
    (hpath : path ≠ ".") (hdir : info.IsDir = false) (hopen : E.Open path = .ok file)
    (hex : localPathOf a.vargs.Source path ∈ a.remote)
    (hhead : S.HeadObject
      { Bucket := a.vargs.Bucket, Key := Join a.vargs.Target (localPathOf a.vargs.Source path) }
      a.client = (.ok head, c))
    (hsum : "\"" ++ E.md5hex file.content ++ "\"" = head.ETag)
    (hacl : S.GetObjectAcl
      { Bucket := a.vargs.Bucket, Key := Join a.vargs.Target (localPathOf a.vargs.Source path) }
      c = (.ok grant, c')) :
    ((writesOf ((a.visit E S path info none).1.log.drop a.log.length) = [] ∧
        (a.visit E S path info none).2 = none) ↔
      (contentTypeChanged head.ContentType
          (resolveContentType E a.vargs (localPathOf a.vargs.Source path)) = false ∧
        metadataChanged E head.Metadata
          (resolveMetadata E a.vargs (localPathOf a.vargs.Source path)) = false ∧
        previousAccess grant.Grants =
          resolveAccess E a.vargs (localPathOf a.vargs.Source path))) ∧
    (¬ (contentTypeChanged head.ContentType
          (resolveContentType E a.vargs (localPathOf a.vargs.Source path)) = false ∧
        metadataChanged E head.Metadata
          (resolveMetadata E a.vargs (localPathOf a.vargs.Source path)) = false ∧
        previousAccess grant.Grants =
          resolveAccess E a.vargs (localPathOf a.vargs.Source path)) →
      writesOf ((a.visit E S path info none).1.log.drop a.log.length) =
        [Request.copyObject (copyInput a.vargs.Bucket
          (Join a.vargs.Target (localPathOf a.vargs.Source path))
          (resolveContentType E a.vargs (localPathOf a.vargs.Source path))
          (resolveAccess E a.vargs (localPathOf a.vargs.Source path))
          (resolveMetadata E a.vargs (localPathOf a.vargs.Source path)))]) := by
  obtain ⟨h1, h2⟩ :=
    visit_log_of_hash_match E S a path info file head c hpath hdir hopen hex hhead hsum
  cases hct : contentTypeChanged head.ContentType
      (resolveContentType E a.vargs (localPathOf a.vargs.Source path)) with
  | true =>
    have hw := h1 (Or.inl hct)
    refine ⟨⟨fun h => ?_, fun h => ?_⟩, fun _ => hw⟩
    · rw [hw] at h; simp at h
    · simp at h
  | false =>
    cases hmd : metadataChanged E head.Metadata
        (resolveMetadata E a.vargs (localPathOf a.vargs.Source path)) with
    | true =>
      have hw := h1 (Or.inr hmd)
      refine ⟨⟨fun h => ?_, fun h => ?_⟩, fun _ => hw⟩
      · rw [hw] at h; simp at h
      · simp at h
    | false =>
      obtain ⟨h3, h4⟩ := h2 hct hmd grant c' hacl
      by_cases hacc : previousAccess grant.Grants =
          resolveAccess E a.vargs (localPathOf a.vargs.Source path)
      · exact ⟨⟨fun _ => ⟨rfl, rfl, hacc⟩, fun _ => h4 hacc⟩, fun h => absurd ⟨rfl, rfl, hacc⟩ h⟩
      · have hw := h3 hacc
        refine ⟨⟨fun h => ?_, fun h => absurd h.2.2 hacc⟩, fun _ => hw⟩
        rw [hw] at h; simp at h

/-- The skip rule at a concrete input: Scenario A's `style.css`, whose content
type is judged changed, so that the visit is not a skip. -/
theorem visit_skips_iff_unchanged_witness :
    ¬ (writesOf (((afterList (bucketS3 demoDigest) 5 scenarioAArgs scenarioABucket).visit
          scenarioAEnv (bucketS3 demoDigest) "dist/style.css" ⟨false⟩ none).1.log.drop
          (afterList (bucketS3 demoDigest) 5 scenarioAArgs scenarioABucket).log.length) = [] ∧
        ((afterList (bucketS3 demoDigest) 5 scenarioAArgs scenarioABucket).visit
          scenarioAEnv (bucketS3 demoDigest) "dist/style.css" ⟨false⟩ none).2 = none) := by
  have h := (visit_skips_iff_unchanged scenarioAEnv (bucketS3 demoDigest)
    (afterList (bucketS3 demoDigest) 5 scenarioAArgs scenarioABucket) "dist/style.css" ⟨false⟩
    ⟨[3], none⟩ ⟨"\"03\"", none, []⟩ scenarioABucket ⟨[ownerGrant]⟩ scenarioABucket
    (by decide) rfl rfl (by decide) rfl (by decide) rfl).1
  intro hskip
  exact absurd (h.1 hskip).1 (by decide)

/-- C5, evaluated at a failing input: with the target prefix `site`, the bucket
holds `site/index.html`, the object at the target key of `dist/index.html`; the
HeadObject and the GetObjectAcl of that key succeed, the ETag equals the local
hash, and none of content type, metadata and ACL is judged changed; yet `visit`
issues a write, the PutObject of the whole file, because the inventory holds
the key `site/index.html` and the existence test looks for `index.html`. -/
theorem visit_writes_though_nothing_changed_under_prefix :
    Join prefixArgs.Target (localPathOf prefixArgs.Source "dist/index.html") =
        "site/index.html" ∧
      (afterList (bucketS3 demoDigest) 5 prefixArgs prefixBucket).remote =
        ["", "site/index.html"] ∧
      localPathOf prefixArgs.Source "dist/index.html" ∉
        (afterList (bucketS3 demoDigest) 5 prefixArgs prefixBucket).remote ∧
      (afterList (bucketS3 demoDigest) 5 prefixArgs prefixBucket).client = prefixBucket ∧
      (demoEnv [("dist/index.html", [1, 2])]).Open "dist/index.html" = .ok ⟨[1, 2], none⟩ ∧
      (bucketS3 demoDigest).HeadObject ⟨"bucket", "site/index.html"⟩ prefixBucket =
        (.ok ⟨"\"" ++ demoDigest [1, 2] ++ "\"", some "text/html; charset=utf-8", []⟩,
          prefixBucket) ∧
      (bucketS3 demoDigest).GetObjectAcl ⟨"bucket", "site/index.html"⟩ prefixBucket =
        (.ok ⟨[ownerGrant]⟩, prefixBucket) ∧
      contentTypeChanged (some "text/html; charset=utf-8")
        (resolveContentType (demoEnv [("dist/index.html", [1, 2])]) prefixArgs
          "index.html") = false ∧
      metadataChanged (demoEnv [("dist/index.html", [1, 2])]) []
        (resolveMetadata (demoEnv [("dist/index.html", [1, 2])]) prefixArgs
          "index.html") = false ∧
      previousAccess [ownerGrant] =
        resolveAccess (demoEnv [("dist/index.html", [1, 2])]) prefixArgs "index.html" ∧
      writesOf (((afterList (bucketS3 demoDigest) 5 prefixArgs prefixBucket).visit
          (demoEnv [("dist/index.html", [1, 2])]) (bucketS3 demoDigest) "dist/index.html"
          ⟨false⟩ none).1.log.drop
          (afterList (bucketS3 demoDigest) 5 prefixArgs prefixBucket).log.length) =
        [Request.putObject
          { Bucket := "bucket", Key := "site/index.html", Body := some [1, 2],
            ContentType := some "text/html; charset=utf-8", ACL := some "private",
            Metadata := [], WebsiteRedirectLocation := none }] ∧
      ((afterList (bucketS3 demoDigest) 5 prefixArgs prefixBucket).visit
          (demoEnv [("dist/index.html", [1, 2])]) (bucketS3 demoDigest) "dist/index.html"
          ⟨false⟩ none).2 = none := by
  decide

/-- C6, as amended: for a file whose relative path is in the inventory and whose
HeadObject succeeds with an ETag equal to the local hash, if the content type is
judged changed, or the metadata is judged changed, or GetObjectAcl succeeds and
the access derived from the grants differs from the resolved access, then the
only write of `visit` is one CopyObject from the target key onto itself, with
directive REPLACE and the resolved content type, ACL and metadata. -/
theorem visit_copies_when_judged_changed {σ : Type} (E : Env) (S : S3 σ) (a : AWS σ)
    (path : String) (info : FileInfo) (file : File) (head : HeadObjectOutput) (c : σ)
    (hpath : path ≠ ".") (hdir : info.IsDir = false) (hopen : E.Open path = .ok file)
    (hex : localPathOf a.vargs.Source path ∈ a.remote)
    (hhead : S.HeadObject
      { Bucket := a.vargs.Bucket, Key := Join a.vargs.Target (localPathOf a.vargs.Source path) }
      a.client = (.ok head, c))
    (hsum : "\"" ++ E.md5hex file.content ++ "\"" = head.ETag)
    (hchanged :
      contentTypeChanged head.ContentType
          (resolveContentType E a.vargs (localPathOf a.vargs.Source path)) = true ∨
        metadataChanged E head.Metadata
          (resolveMetadata E a.vargs (localPathOf a.vargs.Source path)) = true ∨
        ∃ grant c', S.GetObjectAcl
          { Bucket := a.vargs.Bucket,
            Key := Join a.vargs.Target (localPathOf a.vargs.Source path) } c = (.ok grant, c') ∧
          previousAccess grant.Grants ≠
            resolveAccess E a.vargs (localPathOf a.vargs.Source path)) :
    writesOf ((a.visit E S path info none).1.log.drop a.log.length) =
      [Request.copyObject
        { Bucket := a.vargs.Bucket
          Key := Join a.vargs.Target (localPathOf a.vargs.Source path)
          CopySource := a.vargs.Bucket ++ "/" ++
            Join a.vargs.Target (localPathOf a.vargs.Source path)
          ACL := resolveAccess E a.vargs (localPathOf a.vargs.Source path)
          ContentType := resolveContentType E a.vargs (localPathOf a.vargs.Source path)
          Metadata := resolveMetadata E a.vargs (localPathOf a.vargs.Source path)
          MetadataDirective := "REPLACE" }] := by
  obtain ⟨h1, h2⟩ :=
    visit_log_of_hash_match E S a path info file head c hpath hdir hopen hex hhead hsum
  cases hct : contentTypeChanged head.ContentType
      (resolveContentType E a.vargs (localPathOf a.vargs.Source path)) with
  | true => exact h1 (Or.inl hct)
  | false =>
    cases hmd : metadataChanged E head.Metadata
        (resolveMetadata E a.vargs (localPathOf a.vargs.Source path)) with
    | true => exact h1 (Or.inr hmd)
    | false =>
      rcases hchanged with h | h | ⟨grant, c', hacl, hne⟩
      · rw [hct] at h; cases h
      · rw [hmd] at h; cases h
      · exact (h2 hct hmd grant c' hacl).1 hne

/-- C6, at a concrete input: Scenario A's `style.css`, whose remote content
type is unset while the policy says `text/css`. -/
theorem visit_copies_when_judged_changed_witness :
    writesOf (((afterList (bucketS3 demoDigest) 5 scenarioAArgs scenarioABucket).visit
        scenarioAEnv (bucketS3 demoDigest) "dist/style.css" ⟨false⟩ none).1.log.drop
        (afterList (bucketS3 demoDigest) 5 scenarioAArgs scenarioABucket).log.length) =
      [Request.copyObject
        { Bucket := "bucket", Key := "style.css", CopySource := "bucket/style.css",
          ACL := "private", ContentType := "text/css", Metadata := [],
          MetadataDirective := "REPLACE" }] :=
  visit_copies_when_judged_changed scenarioAEnv (bucketS3 demoDigest)
    (afterList (bucketS3 demoDigest) 5 scenarioAArgs scenarioABucket) "dist/style.css" ⟨false⟩
    ⟨[3], none⟩ ⟨"\"03\"", none, []⟩ scenarioABucket
    (by decide) rfl rfl (by decide) rfl (by decide) (Or.inl (by decide))

/-- C6, as stated, fails: the resolved metadata `a = 1` and the remote metadata
`b = 1` differ as mappings, the hash matches and nothing else differs, yet
`visit` issues no CopyObject (its only requests are HeadObject and
GetObjectAcl). -/
theorem visit_skips_disjoint_metadata :
    (afterList (bucketS3 demoDigest) 5 metaArgs metaBucket).remote = ["", "style.css"] ∧
      (bucketS3 demoDigest).HeadObject ⟨"bucket", "style.css"⟩ metaBucket =
        (.ok ⟨"\"" ++ demoDigest [3] ++ "\"", some "text/css; charset=utf-8", [("b", "1")]⟩,
          metaBucket) ∧
      resolveContentType (demoEnv [("dist/style.css", [3])]) metaArgs "style.css" =
        "text/css; charset=utf-8" ∧
      resolveMetadata (demoEnv [("dist/style.css", [3])]) metaArgs "style.css" = [("a", "1")] ∧
      ((afterList (bucketS3 demoDigest) 5 metaArgs metaBucket).visit
          (demoEnv [("dist/style.css", [3])]) (bucketS3 demoDigest) "dist/style.css" ⟨false⟩
          none).1.log.drop (afterList (bucketS3 demoDigest) 5 metaArgs metaBucket).log.length =
        [Request.headObject ⟨"bucket", "style.css"⟩,
          Request.getObjectAcl ⟨"bucket", "style.css"⟩] := by
  decide

theorem previousAccess_foldl (grants : List Grant) (init : String) :
    grants.foldl previousAccessStep init =
      match (grants.filter isAllUsersReadWrite).getLast? with
      | none => init
      | some g => if g.Permission = "READ" then "public-read" else "public-read-write" := by
  induction grants generalizing init with
  | nil => rfl
  | cons g gs ih =>
    rw [List.foldl_cons, ih]
    by_cases hg : isAllUsersReadWrite g = true
    · rw [List.filter_cons_of_pos hg]
      have hstep : previousAccessStep init g =
          if g.Permission = "READ" then "public-read" else "public-read-write" := by
        simp only [isAllUsersReadWrite, Bool.and_eq_true, beq_iff_eq, Bool.or_eq_true] at hg
        obtain ⟨huri, hperm⟩ := hg
        unfold previousAccessStep
        rw [huri]
        rcases hperm with hp | hp
        · simp [hp]
        · simp [hp]
      cases hf : gs.filter isAllUsersReadWrite with
      | nil => simp [hstep]
      | cons x xs =>
        obtain ⟨y, hy⟩ : ∃ y, (x :: xs).getLast? = some y :=
          ⟨_, List.getLast?_eq_getLast _ (List.cons_ne_nil _ _)⟩
        simp [List.getLast?_cons_cons, hy]
    · have hg' : isAllUsersReadWrite g = false := by simpa using hg
      rw [List.filter_cons_of_neg hg]
      have hstep : previousAccessStep init g = init := by
        unfold previousAccessStep
        cases huri : g.Grantee.URI with
        | none => rfl
        | some uri =>
          by_cases hu : uri = "http://acs.amazonaws.com/groups/global/AllUsers"
          · have hp : ¬ (g.Permission = "READ" ∨ g.Permission = "WRITE") := by
              intro hp
              simp only [isAllUsersReadWrite, huri, hu, beq_self_eq_true, Bool.true_and,
                Bool.or_eq_false_iff, beq_eq_false_iff_ne, ne_eq] at hg'
              rcases hp with h | h
              · exact hg'.1 h
              · exact hg'.2 h
            simp only [hu, if_true]
            rw [if_neg (fun h => hp (Or.inl h)), if_neg (fun h => hp (Or.inr h))]
          · simp [hu]
      rw [hstep]

/-- C10, as amended: the access derived from a list of grants is decided by the
last grant to the AllUsers group whose permission is READ or WRITE: it is
"public-read" if that grant has READ, "public-read-write" if it has WRITE, and
"private" when there is no such grant, in particular when the list holds no
grant to the AllUsers group; and once content type and metadata are judged
unchanged and GetObjectAcl succeeds, `visit` goes on to write exactly when the
derived access differs from the resolved access. -/
theorem previousAccess_last_allUsers_grant (grants : List Grant) :
    (previousAccess grants =
      match (grants.filter isAllUsersReadWrite).getLast? with
      | none => "private"
      | some g => if g.Permission = "READ" then "public-read" else "public-read-write") ∧
    ((∀ g ∈ grants,
        g.Grantee.URI ≠ some "http://acs.amazonaws.com/groups/global/AllUsers") →
      previousAccess grants = "private") ∧
    (∀ {σ : Type} (E : Env) (S : S3 σ) (a : AWS σ) (remotePath : String)
        (head : HeadObjectOutput) (contentType access : String) (metadata : GoMap String)
        (c : σ),
      contentTypeChanged head.ContentType contentType = false →
      metadataChanged E head.Metadata metadata = false →
      S.GetObjectAcl { Bucket := a.vargs.Bucket, Key := remotePath } a.client =
        (.ok { Grants := grants }, c) →
      (writesOf ((sameHash E S a remotePath head contentType access metadata).1.log.drop
          a.log.length) ≠ [] ↔ previousAccess grants ≠ access)) := by
  refine ⟨previousAccess_foldl grants "private", fun hno => ?_, ?_⟩
  · have hnil : grants.filter isAllUsersReadWrite = [] := by
      rw [List.filter_eq_nil_iff]
      intro g hg
      simp [isAllUsersReadWrite, hno g hg]
    rw [previousAccess, previousAccess_foldl, hnil]
    rfl
  · intro σ E S a remotePath head contentType access metadata c hct hmd hacl
    rw [sameHash_of_unchanged E S a remotePath head contentType access metadata _ c hct hmd hacl]
    by_cases hne : previousAccess grants ≠ access
    · rw [if_pos hne, updateMetadata_log]
      simp [writesOf, hne]
    · rw [if_neg hne]
      simp [writesOf, hne]

/-- C10, at a concrete input: the grants of a publicly writable object, READ
before WRITE. -/
theorem previousAccess_last_allUsers_grant_witness :
    previousAccess [ownerGrant, allUsersGrant "READ", allUsersGrant "WRITE"] =
        "public-read-write" ∧
      previousAccess [ownerGrant, authenticatedUsersGrant "READ"] = "private" :=
  ⟨(previousAccess_last_allUsers_grant
      [ownerGrant, allUsersGrant "READ", allUsersGrant "WRITE"]).1.trans (by decide),
    (previousAccess_last_allUsers_grant [ownerGrant, authenticatedUsersGrant "READ"]).2.1
      (by decide)⟩

/-- C10, as stated, fails: a list that holds a grant of READ to the AllUsers
group (followed by a grant of WRITE to it) does not derive "public-read". -/
theorem previousAccess_read_then_write :
    allUsersGrant "READ" ∈ [ownerGrant, allUsersGrant "READ", allUsersGrant "WRITE"] ∧
      (allUsersGrant "READ").Grantee.URI =
        some "http://acs.amazonaws.com/groups/global/AllUsers" ∧
      (allUsersGrant "READ").Permission = "READ" ∧
      previousAccess [ownerGrant, allUsersGrant "READ", allUsersGrant "WRITE"] ≠
        "public-read" := by
  decide

/-- C1: under the target prefix `site`, the bucket holds an object at the target
key `site/index.html` whose ETag equals the hash of the local file, and the
inventory lists it; `visit` nevertheless sends a PutObject with the whole file,
because its existence test compares the inventory with the relative path. -/
theorem visit_uploads_unchanged_file_under_prefix :
    (afterList (bucketS3 demoDigest) 5 prefixArgs prefixBucket).remote =
        ["", "site/index.html"] ∧
      Join prefixArgs.Target (localPathOf prefixArgs.Source "dist/index.html") =
        "site/index.html" ∧
      (bucketS3 demoDigest).HeadObject ⟨"bucket", "site/index.html"⟩ prefixBucket =
        (.ok ⟨"\"" ++ demoDigest [1, 2] ++ "\"", some "text/html; charset=utf-8", []⟩,
          prefixBucket) ∧
      ((afterList (bucketS3 demoDigest) 5 prefixArgs prefixBucket).visit
          (demoEnv [("dist/index.html", [1, 2])]) (bucketS3 demoDigest) "dist/index.html"
          ⟨false⟩ none).1.log.drop
          (afterList (bucketS3 demoDigest) 5 prefixArgs prefixBucket).log.length =
        [Request.putObject
          { Bucket := "bucket", Key := "site/index.html", Body := some [1, 2],
            ContentType := some "text/html; charset=utf-8", ACL := some "private",
            Metadata := [], WebsiteRedirectLocation := none }] := by
  decide

/-- C2: under the target prefix `site`, a run of List, the visit of
`index.html` and Cleanup deletes the target key `site/index.html` of the file
it has just visited, because the reference set holds relative paths and the
inventory holds full keys. -/
theorem run_deletes_visited_file_under_prefix :
    (run (demoEnv [("dist/index.html", [1, 2])]) (bucketS3 demoDigest) 5 prefixArgs
        prefixBucket [("dist/index.html", ⟨false⟩)] []).map
        (fun r => (r.1.remote, r.1.locals, r.2)) =
      some (["", "site/index.html"], ["", "index.html"], none) ∧
    (run (demoEnv [("dist/index.html", [1, 2])]) (bucketS3 demoDigest) 5 prefixArgs
        prefixBucket [("dist/index.html", ⟨false⟩)] []).map (fun r => writesOf r.1.log) =
      some [Request.putObject
            { Bucket := "bucket", Key := "site/index.html", Body := some [1, 2],
              ContentType := some "text/html; charset=utf-8", ACL := some "private",
              Metadata := [], WebsiteRedirectLocation := none },
          Request.deleteObject ⟨"bucket", "site/index.html"⟩] ∧
    (run (demoEnv [("dist/index.html", [1, 2])]) (bucketS3 demoDigest) 5 prefixArgs
        prefixBucket [("dist/index.html", ⟨false⟩)] []).map (fun r => r.1.client.objects) =
      some [] := by
  decide

/-- C3: for the redirect mapping with the single entry `/old` to `/new`,
`AddRedirects` records the normalized path `old` in the reference set but sends
the PutObject with the key `/old`. -/
theorem addRedirects_key_not_normalized :
    ((afterList (bucketS3 demoDigest) 5 (demoArgs "" .absent) emptyBucket).AddRedirects
        (demoEnv []) (bucketS3 demoDigest) [("/old", "/new")]).1.locals = ["", "old"] ∧
      ((afterList (bucketS3 demoDigest) 5 (demoArgs "" .absent) emptyBucket).AddRedirects
        (demoEnv []) (bucketS3 demoDigest) [("/old", "/new")]).1.log.drop
          (afterList (bucketS3 demoDigest) 5 (demoArgs "" .absent) emptyBucket).log.length =
        [Request.putObject
          { Bucket := "bucket", Key := "/old", Body := none, ContentType := none,
            ACL := some "public-read", Metadata := [],
            WebsiteRedirectLocation := some "/new" }] := by
  decide

/-- C7: under the target prefix `site`, the local file `site/index.html` has the
target key `site/site/index.html`, at which the bucket holds no object; since
its relative path equals the inventory key of another object, `visit` sends a
HeadObject, sends no PutObject and returns the error of the HeadObject. -/
theorem visit_heads_absent_object_under_prefix :
    Join prefixArgs.Target (localPathOf prefixArgs.Source "dist/site/index.html") =
        "site/site/index.html" ∧
      prefixBucket.objects.lookup "site/site/index.html" = none ∧
      (afterList (bucketS3 demoDigest) 5 prefixArgs prefixBucket).remote =
        ["", "site/index.html"] ∧
      ((afterList (bucketS3 demoDigest) 5 prefixArgs prefixBucket).visit
          (demoEnv [("dist/site/index.html", [1, 2])]) (bucketS3 demoDigest)
          "dist/site/index.html" ⟨false⟩ none).1.log.drop
          (afterList (bucketS3 demoDigest) 5 prefixArgs prefixBucket).log.length =
        [Request.headObject ⟨"bucket", "site/site/index.html"⟩] ∧
      ((afterList (bucketS3 demoDigest) 5 prefixArgs prefixBucket).visit
          (demoEnv [("dist/site/index.html", [1, 2])]) (bucketS3 demoDigest)
          "dist/site/index.html" ⟨false⟩ none).2 = some "NotFound" := by
  decide

/-! ### The key order of the bucket -/

theorem char_eq_of_toNat_eq {a b : Char} (h : a.toNat = b.toNat) : a = b := by
  have := congrArg Char.ofNat h
  simpa [Char.ofNat_toNat] using this

theorem keyLtChars_irrefl (a : List Char) : keyLtChars a a = false := by
  induction a with
  | nil => rfl
  | cons c cs ih => simp [keyLtChars, ih]

theorem keyLtChars_trans {a b c : List Char} :
    keyLtChars a b = true → keyLtChars b c = true → keyLtChars a c = true := by
  induction a generalizing b c with
  | nil =>
    intro hab hbc
    cases b with
    | nil => simp [keyLtChars] at hab
    | cons y ys =>
      cases c with
      | nil => simp [keyLtChars] at hbc
      | cons z zs => simp [keyLtChars]
  | cons x xs ih =>
    intro hab hbc
    cases b with
    | nil => simp [keyLtChars] at hab
    | cons y ys =>
      cases c with
      | nil => simp [keyLtChars] at hbc
      | cons z zs =>
        simp only [keyLtChars, Bool.or_eq_true, decide_eq_true_eq, Bool.and_eq_true,
          beq_iff_eq] at hab hbc ⊢
        rcases hab with hab | ⟨hxy, hab⟩
        · rcases hbc with hbc | ⟨hyz, _⟩
          · exact Or.inl (Nat.lt_trans hab hbc)
          · exact Or.inl (hyz ▸ hab)
        · rcases hbc with hbc | ⟨hyz, hbc⟩
          · exact Or.inl (hxy ▸ hbc)
          · exact Or.inr ⟨hxy.trans hyz, ih hab hbc⟩

theorem keyLtChars_total {a b : List Char} :
    a ≠ b → keyLtChars a b = false → keyLtChars b a = true := by
  induction a generalizing b with
  | nil =>
    intro hne hab
    cases b with
    | nil => exact absurd rfl hne
    | cons y ys => simp [keyLtChars] at hab
  | cons x xs ih =>
    intro hne hab
    cases b with
    | nil => simp [keyLtChars]
    | cons y ys =>
      simp only [keyLtChars, Bool.or_eq_false_iff, decide_eq_false_iff_not, Nat.not_lt,
        Bool.and_eq_false_imp, beq_iff_eq] at hab
      simp only [keyLtChars, Bool.or_eq_true, decide_eq_true_eq, Bool.and_eq_true, beq_iff_eq]
      obtain ⟨hle, htail⟩ := hab
      by_cases hxy : x = y
      · subst hxy
        refine Or.inr ⟨rfl, ih (fun h => hne (by rw [h])) (htail rfl)⟩
      · refine Or.inl (Nat.lt_of_le_of_ne hle (fun h => hxy (char_eq_of_toNat_eq h.symm)))

theorem keyLt_irrefl (a : String) : keyLt a a = false := keyLtChars_irrefl a.data

theorem keyLt_trans {a b c : String} (hab : keyLt a b = true) (hbc : keyLt b c = true) :
    keyLt a c = true := keyLtChars_trans hab hbc

theorem keyLt_total {a b : String} (hne : a ≠ b) (hab : keyLt a b = false) :
    keyLt b a = true :=
  keyLtChars_total (fun h => hne (String.ext h)) hab

theorem keyLt_asymm {a b : String} (hab : keyLt a b = true) : keyLt b a = false := by
  cases h : keyLt b a with
  | false => rfl
  | true => have := keyLt_trans hab h; rw [keyLt_irrefl] at this; cases this

/-! ### `putObj` -/

theorem putObj_cons_lt (k k' : String) (o o' : Object) (rest : List (String × Object))
    (h : keyLt k k' = true) :
    putObj k o ((k', o') :: rest) = (k, o) :: (k', o') :: rest := by
  simp [putObj, h]

theorem putObj_cons_eq (k : String) (o o' : Object) (rest : List (String × Object)) :
    putObj k o ((k, o') :: rest) = (k, o) :: rest := by
  simp [putObj, keyLt_irrefl]

theorem putObj_cons_gt (k k' : String) (o o' : Object) (rest : List (String × Object))
    (h : keyLt k k' = false) (hne : k ≠ k') :
    putObj k o ((k', o') :: rest) = (k', o') :: putObj k o rest := by
  simp [putObj, h, hne]

theorem lookup_putObj_self (k : String) (o : Object) (l : List (String × Object)) :
    (putObj k o l).lookup k = some o := by
  induction l with
  | nil => simp [putObj, List.lookup]
  | cons x rest ih =>
    obtain ⟨k', o'⟩ := x
    cases h1 : keyLt k k' with
    | true => rw [putObj_cons_lt k k' o o' rest h1]; simp [List.lookup]
    | false =>
      by_cases h2 : k = k'
      · subst h2; rw [putObj_cons_eq]; simp [List.lookup]
      · have hb : (k == k') = false := by simpa using h2
        rw [putObj_cons_gt k k' o o' rest h1 h2]
        simp [List.lookup, hb, ih]

theorem lookup_putObj_ne (k k' : String) (o : Object) (l : List (String × Object))
    (hne : k' ≠ k) : (putObj k o l).lookup k' = l.lookup k' := by
  have hb : (k' == k) = false := by simpa using hne
  induction l with
  | nil => simp [putObj, List.lookup, hb]
  | cons x rest ih =>
    obtain ⟨k0, o0⟩ := x
    cases h1 : keyLt k k0 with
    | true => rw [putObj_cons_lt k k0 o o0 rest h1]; simp [List.lookup, hb]
    | false =>
      by_cases h2 : k = k0
      · subst h2; rw [putObj_cons_eq]; simp [List.lookup, hb]
      · rw [putObj_cons_gt k k0 o o0 rest h1 h2]
        by_cases h3 : k' = k0
        · subst h3; simp [List.lookup]
        · have hb3 : (k' == k0) = false := by simpa using h3
          simp [List.lookup, hb3, ih]

theorem mem_keys_putObj (k : String) (o : Object) (l : List (String × Object)) (x : String) :
    x ∈ (putObj k o l).map Prod.fst ↔ x = k ∨ x ∈ l.map Prod.fst := by
  induction l with
  | nil => simp [putObj]
  | cons y rest ih =>
    obtain ⟨k0, o0⟩ := y
    cases h1 : keyLt k k0 with
    | true => rw [putObj_cons_lt k k0 o o0 rest h1]; simp
    | false =>
      by_cases h2 : k = k0
      · subst h2; rw [putObj_cons_eq]; simp
      · rw [putObj_cons_gt k k0 o o0 rest h1 h2, List.map_cons, List.mem_cons, ih,
          List.map_cons, List.mem_cons]
        tauto

theorem keysSorted_putObj (k : String) (o : Object) (l : List (String × Object))
    (h : KeysSorted l) : KeysSorted (putObj k o l) := by
  induction l with
  | nil => simp [putObj, KeysSorted]
  | cons y rest ih =>
    obtain ⟨k0, o0⟩ := y
    have h' : (∀ x ∈ rest.map Prod.fst, keyLt k0 x = true) ∧ KeysSorted rest := by
      simpa [KeysSorted] using h
    cases h1 : keyLt k k0 with
    | true =>
      rw [putObj_cons_lt k k0 o o0 rest h1]
      simp only [KeysSorted, List.map_cons, List.pairwise_cons]
      refine ⟨?_, h'.1, h'.2⟩
      intro x hx
      rcases List.mem_cons.1 hx with hx | hx
      · rw [hx]; exact h1
      · exact keyLt_trans h1 (h'.1 x hx)
    | false =>
      by_cases h2 : k = k0
      · subst h2
        rw [putObj_cons_eq]
        simp only [KeysSorted, List.map_cons, List.pairwise_cons]
        exact ⟨h'.1, h'.2⟩
      · rw [putObj_cons_gt k k0 o o0 rest h1 h2]
        simp only [KeysSorted, List.map_cons, List.pairwise_cons]
        refine ⟨?_, ih h'.2⟩
        intro x hx
        rcases (mem_keys_putObj k o rest x).1 hx with hx | hx
        · rw [hx]; exact keyLt_total h2 h1
        · exact h'.1 x hx

theorem keysSorted_filter (p : String × Object → Bool) (l : List (String × Object))
    (h : KeysSorted l) : KeysSorted (l.filter p) := by
  unfold KeysSorted at *
  exact h.sublist ((List.filter_sublist l).map Prod.fst)

theorem filter_keyLt_last (done rest : List String) (m : String)
    (hs : (done ++ rest).Pairwise (fun x y => keyLt x y = true))
    (hm : done.getLast? = some m) :
    (done ++ rest).filter (fun k => keyLt m k) = rest := by
  have hmem : m ∈ done := List.mem_of_getLast?_eq_some hm
  rw [List.pairwise_append] at hs
  obtain ⟨hd, hr, hdr⟩ := hs
  rw [List.filter_append]
  have h1 : done.filter (fun k => keyLt m k) = [] := by
    rw [List.filter_eq_nil_iff]
    intro x hx hlt
    obtain ⟨pre, hpre⟩ : ∃ pre, done = pre ++ [m] := by
      obtain ⟨pre, hpre⟩ := List.getLast?_eq_some_iff.1 hm
      exact ⟨pre, hpre⟩
    rw [hpre, List.mem_append] at hx
    rcases hx with hx | hx
    · rw [hpre, List.pairwise_append] at hd
      have := hd.2.2 x hx m (by simp)
      rw [keyLt_asymm this] at hlt
      cases hlt
    · have hxm : x = m := by simpa using hx
      rw [hxm, keyLt_irrefl] at hlt
      cases hlt
  have h2 : rest.filter (fun k => keyLt m k) = rest := by
    rw [List.filter_eq_self]
    intro x hx
    exact hdr m hmem x hx
  rw [h1, h2, List.nil_append]

/-! ### `List` against the bucket -/

theorem listedKeys_marker (b : Bucket) (bucket path m : String) :
    listedKeys b { Bucket := bucket, Prefix := path, Marker := some m } =
      (listedKeys b { Bucket := bucket, Prefix := path, Marker := none }).filter
        (fun k => keyLt m k) := by
  simp [listedKeys, List.filter_filter, Bool.and_comm]

theorem listedKeys_sorted (b : Bucket) (i : ListObjectsInput) (hs : KeysSorted b.objects) :
    (listedKeys b i).Pairwise (fun x y => keyLt x y = true) := by
  unfold listedKeys
  exact List.Pairwise.sublist (List.filter_sublist _) hs

theorem listedKeys_empty_prefix (b : Bucket) (bucket : String) :
    listedKeys b { Bucket := bucket, Prefix := "", Marker := none } =
      b.objects.map Prod.fst := by
  unfold listedKeys
  rw [List.filter_eq_self]
  intro k _
  cases hk : k.data <;> simp [HasPrefix, hasPrefixChars, hk]

theorem listLoop_bucket (md5hex : Bytes → String) (path : String) (b : Bucket)
    (hmax : 0 < b.maxKeys) (hs : KeysSorted b.objects) (fuel : Nat) :
    ∀ (a : AWS Bucket) (pre done rest : List String) (trunc : Bool),
      a.client = b → a.remote = pre ++ done → (trunc = true → done ≠ []) →
      listedKeys b { Bucket := a.vargs.Bucket, Prefix := path, Marker := none } = done ++ rest →
      (trunc = true ↔ rest ≠ []) →
      (listLoop (bucketS3 md5hex) path fuel a trunc = none ∨
        ∃ a', listLoop (bucketS3 md5hex) path fuel a trunc = some (a', none) ∧
          a'.remote = a.remote ++ rest ∧ a'.client = b ∧ a'.locals = a.locals ∧
          a'.vargs = a.vargs ∧ writesOf a'.log = writesOf a.log) ∧
      (rest.length ≤ fuel → listLoop (bucketS3 md5hex) path fuel a trunc ≠ none) := by
  induction fuel with
  | zero =>
    intro a pre done rest trunc hc hr hd hK ht
    cases trunc with
    | false =>
      have hrest : rest = [] := by
        by_contra h
        exact Bool.false_ne_true (ht.2 h)
      refine ⟨Or.inr ⟨a, by simp [listLoop], by simp [hrest], hc, rfl, rfl, rfl⟩, ?_⟩
      intro _
      simp [listLoop]
    | true =>
      refine ⟨Or.inl (by simp [listLoop]), ?_⟩
      intro hlen
      have : rest = [] := List.length_eq_zero.1 (Nat.le_zero.1 hlen)
      exact absurd this (ht.1 rfl)
  | succ fuel ih =>
    intro a pre done rest trunc hc hr hd hK ht
    cases trunc with
    | false =>
      have hrest : rest = [] := by
        by_contra h
        exact Bool.false_ne_true (ht.2 h)
      refine ⟨Or.inr ⟨a, by simp [listLoop], by simp [hrest], hc, rfl, rfl, rfl⟩, ?_⟩
      intro _
      simp [listLoop]
    | true =>
      have hdone : done ≠ [] := hd rfl
      obtain ⟨m, hm⟩ : ∃ m, done.getLast? = some m :=
        ⟨_, List.getLast?_eq_getLast _ hdone⟩
      have hlast : a.remote.getLast? = some m := by
        rw [hr, List.getLast?_append_of_ne_nil _ hdone, hm]
      have hsorted := listedKeys_sorted b
        { Bucket := a.vargs.Bucket, Prefix := path, Marker := none } hs
      have hlisted : listedKeys b
          { Bucket := a.vargs.Bucket, Prefix := path, Marker := some m } = rest := by
        rw [listedKeys_marker, hK]
        rw [hK] at hsorted
        exact filter_keyLt_last done rest m hsorted hm
      have hstep : listLoop (bucketS3 md5hex) path (fuel + 1) a true =
          listLoop (bucketS3 md5hex) path fuel
            { a with
              log := a.log ++ [Request.listObjects
                { Bucket := a.vargs.Bucket, Prefix := path, Marker := some m }]
              remote := a.remote ++ rest.take b.maxKeys }
            (decide (b.maxKeys < rest.length)) := by
        simp [listLoop, hlast, bucketS3, hc, hlisted]
      rw [hstep]
      have hnext := ih
        { a with
          log := a.log ++ [Request.listObjects
            { Bucket := a.vargs.Bucket, Prefix := path, Marker := some m }]
          remote := a.remote ++ rest.take b.maxKeys }
        pre (done ++ rest.take b.maxKeys) (rest.drop b.maxKeys) (decide (b.maxKeys < rest.length))
        hc (by simp [hr]) (fun _ => by simp [hdone])
        (by simp [hK]) (by simp [List.drop_eq_nil_iff])
      obtain ⟨h1, h2⟩ := hnext
      refine ⟨?_, ?_⟩
      · rcases h1 with h1 | ⟨a', h1, h3, h4, h5, h6, h7⟩
        · exact Or.inl h1
        · refine Or.inr ⟨a', h1, ?_, h4, h5, h6, ?_⟩
          · rw [h3]; simp
          · rw [h7]; simp [writesOf]
      · intro hlen
        apply h2
        simp only [List.length_drop]
        omega

theorem List_bucket (md5hex : Bytes → String) (fuel : Nat) (a : AWS Bucket) (path : String)
    (hmax : 0 < a.client.maxKeys) (hs : KeysSorted a.client.objects) :
    (a.List (bucketS3 md5hex) fuel path = none ∨
      ∃ a', a.List (bucketS3 md5hex) fuel path = some (a', none) ∧
        a'.remote = a.remote ++
          listedKeys a.client { Bucket := a.vargs.Bucket, Prefix := path, Marker := none } ∧
        a'.client = a.client ∧ a'.locals = a.locals ∧ a'.vargs = a.vargs ∧
        writesOf a'.log = writesOf a.log) ∧
    ((listedKeys a.client
        { Bucket := a.vargs.Bucket, Prefix := path, Marker := none }).length ≤ fuel →
      a.List (bucketS3 md5hex) fuel path ≠ none) := by
  have hstep : a.List (bucketS3 md5hex) fuel path =
      listLoop (bucketS3 md5hex) path fuel
        { a with
          log := a.log ++ [Request.listObjects
            { Bucket := a.vargs.Bucket, Prefix := path, Marker := none }]
          remote := a.remote ++ (listedKeys a.client
            { Bucket := a.vargs.Bucket, Prefix := path, Marker := none }).take a.client.maxKeys }
        (decide (a.client.maxKeys < (listedKeys a.client
            { Bucket := a.vargs.Bucket, Prefix := path, Marker := none }).length)) := by
    simp [AWS.List, bucketS3]
  rw [hstep]
  have hloop := listLoop_bucket md5hex path a.client hmax hs fuel
    { a with
      log := a.log ++ [Request.listObjects
        { Bucket := a.vargs.Bucket, Prefix := path, Marker := none }]
      remote := a.remote ++ (listedKeys a.client
        { Bucket := a.vargs.Bucket, Prefix := path, Marker := none }).take a.client.maxKeys }
    a.remote
    ((listedKeys a.client
      { Bucket := a.vargs.Bucket, Prefix := path, Marker := none }).take a.client.maxKeys)
    ((listedKeys a.client
      { Bucket := a.vargs.Bucket, Prefix := path, Marker := none }).drop a.client.maxKeys)
    (decide (a.client.maxKeys < (listedKeys a.client
      { Bucket := a.vargs.Bucket, Prefix := path, Marker := none }).length))
    rfl rfl
    (fun h => by
      have hlt : a.client.maxKeys < (listedKeys a.client
          { Bucket := a.vargs.Bucket, Prefix := path, Marker := none }).length := by
        simpa using h
      intro hnil
      have := congrArg List.length hnil
      simp only [List.length_take, List.length_nil] at this
      omega)
    (by simp) (by simp [List.drop_eq_nil_iff])
  obtain ⟨h1, h2⟩ := hloop
  refine ⟨?_, ?_⟩
  · rcases h1 with h1 | ⟨a', h1, h3, h4, h5, h6, h7⟩
    · exact Or.inl h1
    · refine Or.inr ⟨a', h1, ?_, h4, h5, h6, ?_⟩
      · rw [h3]; simp
      · rw [h7]; simp [writesOf]
  · intro hlen
    apply h2
    simp only [List.length_drop]
    omega

/-! ### `visit`, branch by branch -/

theorem visit_of_absent {σ : Type} (E : Env) (S : S3 σ) (a : AWS σ) (path : String)
    (info : FileInfo) (file : File)
    (hpath : path ≠ ".") (hdir : info.IsDir = false) (hopen : E.Open path = .ok file)
    (hex : localPathOf a.vargs.Source path ∉ a.remote) :
    a.visit E S path info none =
      upload S { a with locals := a.locals ++ [localPathOf a.vargs.Source path] }
        (Join a.vargs.Target (localPathOf a.vargs.Source path)) file
        (resolveContentType E a.vargs (localPathOf a.vargs.Source path))
        (resolveAccess E a.vargs (localPathOf a.vargs.Source path))
        (resolveMetadata E a.vargs (localPathOf a.vargs.Source path)) := by
  have hany : a.remote.any (fun remoteFile => remoteFile == localPathOf a.vargs.Source path) =
      false := by
    rw [List.any_eq_false]
    intro x hx hxe
    exact hex (by rw [← beq_iff_eq.1 hxe]; exact hx)
  simp [AWS.visit, hpath, hdir, hopen, hany]

theorem visit_of_hash_mismatch {σ : Type} (E : Env) (S : S3 σ) (a : AWS σ) (path : String)
    (info : FileInfo) (file : File) (head : HeadObjectOutput) (c : σ)
    (hpath : path ≠ ".") (hdir : info.IsDir = false) (hopen : E.Open path = .ok file)
    (hex : localPathOf a.vargs.Source path ∈ a.remote)
    (hhead : S.HeadObject
      { Bucket := a.vargs.Bucket, Key := Join a.vargs.Target (localPathOf a.vargs.Source path) }
      a.client = (.ok head, c))
    (hsum : "\"" ++ E.md5hex file.content ++ "\"" ≠ head.ETag) :
    a.visit E S path info none =
      match file.seekErr with
      | some e =>
        ({ a with
            client := c
            locals := a.locals ++ [localPathOf a.vargs.Source path]
            log := a.log ++ [Request.headObject
              { Bucket := a.vargs.Bucket,
                Key := Join a.vargs.Target (localPathOf a.vargs.Source path) }] }, some e)
      | none =>
        upload S
          { a with
            client := c
            locals := a.locals ++ [localPathOf a.vargs.Source path]
            log := a.log ++ [Request.headObject
              { Bucket := a.vargs.Bucket,
                Key := Join a.vargs.Target (localPathOf a.vargs.Source path) }] }
          (Join a.vargs.Target (localPathOf a.vargs.Source path)) file
          (resolveContentType E a.vargs (localPathOf a.vargs.Source path))
          (resolveAccess E a.vargs (localPathOf a.vargs.Source path))
          (resolveMetadata E a.vargs (localPathOf a.vargs.Source path)) := by
  have hany : a.remote.any (fun remoteFile => remoteFile == localPathOf a.vargs.Source path) = true :=
    List.any_eq_true.2 ⟨_, hex, by simp⟩
  cases hseek : file.seekErr <;> simp [AWS.visit, hpath, hdir, hopen, hany, hhead, hsum, hseek]

theorem visit_of_head_error {σ : Type} (E : Env) (S : S3 σ) (a : AWS σ) (path : String)
    (info : FileInfo) (file : File) (e : Error) (c : σ)
    (hpath : path ≠ ".") (hdir : info.IsDir = false) (hopen : E.Open path = .ok file)
    (hex : localPathOf a.vargs.Source path ∈ a.remote)
    (hhead : S.HeadObject
      { Bucket := a.vargs.Bucket, Key := Join a.vargs.Target (localPathOf a.vargs.Source path) }
      a.client = (.error e, c)) :
    (a.visit E S path info none).2 = some e := by
  have hany : a.remote.any (fun remoteFile => remoteFile == localPathOf a.vargs.Source path) = true :=
    List.any_eq_true.2 ⟨_, hex, by simp⟩
  simp [AWS.visit, hpath, hdir, hopen, hany, hhead]

theorem visit_of_open_error {σ : Type} (E : Env) (S : S3 σ) (a : AWS σ) (path : String)
    (info : FileInfo) (e : Error)
    (hpath : path ≠ ".") (hdir : info.IsDir = false) (hopen : E.Open path = .error e) :
    (a.visit E S path info none).2 = some e := by
  simp [AWS.visit, hpath, hdir, hopen]

theorem visit_of_not_regular {σ : Type} (E : Env) (S : S3 σ) (a : AWS σ) (path : String)
    (info : FileInfo) (h : path = "." ∨ info.IsDir = true) :
    a.visit E S path info none = (a, none) := by
  by_cases hp : path = "."
  · simp [AWS.visit, hp]
  · rcases h with h | h
    · exact absurd h hp
    · simp [AWS.visit, hp, h]

/-! ### The requests against the bucket -/

theorem hasPrefixChars_append (x y : List Char) : hasPrefixChars (x ++ y) x = true := by
  induction x with
  | nil => cases y <;> rfl
  | cons c cs ih => simp [hasPrefixChars, ih]

theorem TrimPrefix_append (x y : String) : TrimPrefix (x ++ y) x = y := by
  have h : HasPrefix (x ++ y) x = true := by
    simp [HasPrefix, String.data_append, hasPrefixChars_append]
  simp [TrimPrefix, h, String.data_append]

theorem cannedGrants_of_mem (access : String)
    (h : access ∈ ["private", "public-read", "public-read-write"]) :
    ∃ gs, cannedGrants access = some gs ∧ previousAccess gs = access := by
  simp only [List.mem_cons, List.mem_singleton, List.not_mem_nil, or_false] at h
  rcases h with h | h | h <;> subst h
  · exact ⟨[ownerGrant], by decide, by decide⟩
  · exact ⟨[ownerGrant, allUsersGrant "READ"], by decide, by decide⟩
  · exact ⟨[ownerGrant, allUsersGrant "READ", allUsersGrant "WRITE"], by decide, by decide⟩

theorem metadataChanged_self (E : Env) (md : GoMap String) : metadataChanged E md md = false := by
  unfold metadataChanged
  simp only [ne_eq, not_true_eq_false, if_false, Bool.not_false, true_and]
  split
  · rw [List.any_eq_false]
    intro k _
    cases md.get? k <;> simp
  · rfl

theorem contentTypeChanged_some_self (ct : String) : contentTypeChanged (some ct) ct = false := by
  simp [contentTypeChanged]

theorem upload_bucket (md5hex : Bytes → String) (a : AWS Bucket) (remotePath : String)
    (file : File) (contentType access : String) (metadata : GoMap String) (gs : List Grant)
    (hgs : cannedGrants access = some gs) :
    upload (bucketS3 md5hex) a remotePath file contentType access metadata =
      ({ a with
          client := { a.client with objects := (putObj remotePath
            (uploaded md5hex file contentType metadata gs) a.client.objects) }
          log := a.log ++ [Request.putObject
            (putInput a.vargs.Bucket remotePath file contentType access metadata)] }, none) := by
  simp [upload, bucketS3, putInput, hgs, uploaded]

theorem updateMetadata_bucket (md5hex : Bytes → String) (a : AWS Bucket) (remotePath : String)
    (contentType access : String) (metadata : GoMap String) (gs : List Grant) (o : Object)
    (hgs : cannedGrants access = some gs) (ho : a.client.objects.lookup remotePath = some o) :
    updateMetadata (bucketS3 md5hex) a remotePath contentType access metadata =
      ({ a with
          client := { a.client with objects := (putObj remotePath
            (replaced o contentType metadata gs) a.client.objects) }
          log := a.log ++ [Request.copyObject
            (copyInput a.vargs.Bucket remotePath contentType access metadata)] }, none) := by
  have ht : TrimPrefix (a.vargs.Bucket ++ "/" ++ remotePath) (a.vargs.Bucket ++ "/") =
      remotePath := TrimPrefix_append _ _
  simp [updateMetadata, bucketS3, copyInput, hgs, ht, ho, replaced]

theorem synced_of_uploaded (E : Env) (vargs : PluginArgs) (objs : List (String × Object))
    (path : String) (file : File) (gs : List Grant) (hopen : E.Open path = .ok file)
    (hprev : previousAccess gs = resolveAccess E vargs (localPathOf vargs.Source path)) :
    Synced E vargs
      (putObj (localPathOf vargs.Source path)
        (uploaded E.md5hex file (resolveContentType E vargs (localPathOf vargs.Source path))
          (resolveMetadata E vargs (localPathOf vargs.Source path)) gs) objs) path :=
  ⟨file, _, hopen, lookup_putObj_self _ _ _, rfl, contentTypeChanged_some_self _,
    metadataChanged_self E _, hprev⟩

theorem synced_of_replaced (E : Env) (vargs : PluginArgs) (objs : List (String × Object))
    (path : String) (file : File) (o : Object) (gs : List Grant)
    (hopen : E.Open path = .ok file)
    (hsum : "\"" ++ E.md5hex file.content ++ "\"" = o.ETag)
    (hprev : previousAccess gs = resolveAccess E vargs (localPathOf vargs.Source path)) :
    Synced E vargs
      (putObj (localPathOf vargs.Source path)
        (replaced o (resolveContentType E vargs (localPathOf vargs.Source path))
          (resolveMetadata E vargs (localPathOf vargs.Source path)) gs) objs) path :=
  ⟨file, _, hopen, lookup_putObj_self _ _ _, hsum, contentTypeChanged_some_self _,
    metadataChanged_self E _, hprev⟩

theorem upload_bucket_post (md5hex : Bytes → String) (a0 a' : AWS Bucket)
    (remotePath : String) (file : File) (contentType access : String)
    (metadata : GoMap String) (gs : List Grant) (e : Option Error)
    (hres : upload (bucketS3 md5hex) a0 remotePath file contentType access metadata = (a', e))
    (hgs : cannedGrants access = some gs) :
    a'.remote = a0.remote ∧ a'.locals = a0.locals ∧ a'.vargs = a0.vargs ∧
      a'.client.maxKeys = a0.client.maxKeys ∧
      a'.client.objects =
        putObj remotePath (uploaded md5hex file contentType metadata gs) a0.client.objects := by
  rw [upload_bucket md5hex a0 remotePath file contentType access metadata gs hgs] at hres
  obtain ⟨rfl, -⟩ := Prod.mk.inj hres
  exact ⟨rfl, rfl, rfl, rfl, rfl⟩

theorem sameHash_bucket_post (E : Env) (a0 a' : AWS Bucket) (lp : String) (o : Object)
    (contentType access : String) (metadata : GoMap String) (gs : List Grant)
    (hres : sameHash E (bucketS3 E.md5hex) a0 lp
      { ETag := o.ETag, ContentType := o.ContentType, Metadata := o.Metadata }
      contentType access metadata = (a', none))
    (hlk : a0.client.objects.lookup lp = some o) (hgs : cannedGrants access = some gs) :
    a'.remote = a0.remote ∧ a'.locals = a0.locals ∧ a'.vargs = a0.vargs ∧
      a'.client.maxKeys = a0.client.maxKeys ∧
      ((a'.client.objects = a0.client.objects ∧
          contentTypeChanged o.ContentType contentType = false ∧
          metadataChanged E o.Metadata metadata = false ∧
          previousAccess o.Grants = access) ∨
        a'.client.objects = putObj lp (replaced o contentType metadata gs) a0.client.objects) := by
  by_cases hch : contentTypeChanged o.ContentType contentType = true ∨
      metadataChanged E o.Metadata metadata = true
  · rw [sameHash_of_changed E (bucketS3 E.md5hex) a0 lp _ contentType access metadata hch,
      updateMetadata_bucket E.md5hex a0 lp contentType access metadata gs o hgs hlk] at hres
    obtain ⟨rfl, -⟩ := Prod.mk.inj hres
    exact ⟨rfl, rfl, rfl, rfl, Or.inr rfl⟩
  · have hct : contentTypeChanged o.ContentType contentType = false := by
      cases h : contentTypeChanged o.ContentType contentType with
      | false => rfl
      | true => exact absurd (Or.inl h) hch
    have hmd : metadataChanged E o.Metadata metadata = false := by
      cases h : metadataChanged E o.Metadata metadata with
      | false => rfl
      | true => exact absurd (Or.inr h) hch
    have hacl : (bucketS3 E.md5hex).GetObjectAcl
        { Bucket := a0.vargs.Bucket, Key := lp } a0.client =
        (.ok { Grants := o.Grants }, a0.client) := by
      simp [bucketS3, hlk]
    rw [sameHash_of_unchanged E (bucketS3 E.md5hex) a0 lp _ contentType access metadata _
      a0.client hct hmd hacl] at hres
    by_cases hne : previousAccess o.Grants ≠ access
    · rw [if_pos hne] at hres
      rw [updateMetadata_bucket E.md5hex
        { a0 with log := a0.log ++
          [Request.getObjectAcl { Bucket := a0.vargs.Bucket, Key := lp }] }
        lp contentType access metadata gs o hgs hlk] at hres
      obtain ⟨rfl, -⟩ := Prod.mk.inj hres
      exact ⟨rfl, rfl, rfl, rfl, Or.inr rfl⟩
    · rw [if_neg hne] at hres
      obtain ⟨rfl, -⟩ := Prod.mk.inj hres
      exact ⟨rfl, rfl, rfl, rfl, Or.inl ⟨rfl, hct, hmd, not_not.1 hne⟩⟩

theorem sameHash_bucket_skip (E : Env) (a0 : AWS Bucket) (lp : String) (o : Object)
    (contentType access : String) (metadata : GoMap String)
    (hlk : a0.client.objects.lookup lp = some o)
    (hct : contentTypeChanged o.ContentType contentType = false)
    (hmd : metadataChanged E o.Metadata metadata = false)
    (hprev : previousAccess o.Grants = access) :
    sameHash E (bucketS3 E.md5hex) a0 lp
        { ETag := o.ETag, ContentType := o.ContentType, Metadata := o.Metadata }
        contentType access metadata =
      ({ a0 with log := a0.log ++
          [Request.getObjectAcl { Bucket := a0.vargs.Bucket, Key := lp }] }, none) := by
  have hacl : (bucketS3 E.md5hex).GetObjectAcl
      { Bucket := a0.vargs.Bucket, Key := lp } a0.client =
      (.ok { Grants := o.Grants }, a0.client) := by
    simp [bucketS3, hlk]
  rw [sameHash_of_unchanged E (bucketS3 E.md5hex) a0 lp _ contentType access metadata _
    a0.client hct hmd hacl, if_neg (not_not.2 hprev)]

theorem visit_bucket_post (E : Env) (a a' : AWS Bucket) (path : String) (info : FileInfo)
    (hpath : path ≠ ".") (hdir : info.IsDir = false)
    (hkey : Join a.vargs.Target (localPathOf a.vargs.Source path) =
      localPathOf a.vargs.Source path)
    (hacc : resolveAccess E a.vargs (localPathOf a.vargs.Source path) ∈
      ["private", "public-read", "public-read-write"])
    (hres : a.visit E (bucketS3 E.md5hex) path info none = (a', none)) :
    a'.remote = a.remote ∧ a'.locals = a.locals ++ [localPathOf a.vargs.Source path] ∧
      a'.vargs = a.vargs ∧ a'.client.maxKeys = a.client.maxKeys ∧
      (a'.client.objects = a.client.objects ∨
        ∃ o, a'.client.objects = putObj (localPathOf a.vargs.Source path) o a.client.objects) ∧
      Synced E a.vargs a'.client.objects path := by
  obtain ⟨gs, hgs, hprev⟩ := cannedGrants_of_mem _ hacc
  cases hopen : E.Open path with
  | error e =>
    have h := visit_of_open_error E (bucketS3 E.md5hex) a path info e hpath hdir hopen
    rw [hres] at h
    cases h
  | ok file =>
    by_cases hex : localPathOf a.vargs.Source path ∈ a.remote
    · cases hlk : a.client.objects.lookup (localPathOf a.vargs.Source path) with
      | none =>
        have hhead : (bucketS3 E.md5hex).HeadObject
            { Bucket := a.vargs.Bucket,
              Key := Join a.vargs.Target (localPathOf a.vargs.Source path) } a.client =
            (.error "NotFound", a.client) := by
          simp [bucketS3, hkey, hlk]
        have h := visit_of_head_error E (bucketS3 E.md5hex) a path info file _ _ hpath hdir hopen
          hex hhead
        rw [hres] at h
        cases h
      | some o =>
        have hhead : (bucketS3 E.md5hex).HeadObject
            { Bucket := a.vargs.Bucket,
              Key := Join a.vargs.Target (localPathOf a.vargs.Source path) } a.client =
            (.ok { ETag := o.ETag, ContentType := o.ContentType, Metadata := o.Metadata },
              a.client) := by
          simp [bucketS3, hkey, hlk]
        by_cases hsum : "\"" ++ E.md5hex file.content ++ "\"" = o.ETag
        · rw [visit_of_hash_match E (bucketS3 E.md5hex) a path info file _ _ hpath hdir hopen
            hex hhead hsum, hkey] at hres
          obtain ⟨h1, h2, h3, h4, h5⟩ :=
            sameHash_bucket_post E _ a' _ o _ _ _ gs hres hlk hgs
          refine ⟨h1, h2, h3, h4, ?_⟩
          rcases h5 with ⟨h5, hct, hmd, hp⟩ | h5
          · exact ⟨Or.inl h5, ⟨file, o, hopen, by rw [h5]; exact hlk, hsum, hct, hmd, hp⟩⟩
          · refine ⟨Or.inr ⟨_, h5⟩, ?_⟩
            rw [h5]
            exact synced_of_replaced E a.vargs _ path file o gs hopen hsum hprev
        · rw [visit_of_hash_mismatch E (bucketS3 E.md5hex) a path info file _ _ hpath hdir
            hopen hex hhead hsum, hkey] at hres
          cases hseek : file.seekErr with
          | some e =>
            rw [hseek] at hres
            cases (Prod.mk.inj hres).2
          | none =>
            rw [hseek] at hres
            obtain ⟨h1, h2, h3, h4, h5⟩ :=
              upload_bucket_post E.md5hex _ a' _ _ _ _ _ gs none hres hgs
            refine ⟨h1, h2, h3, h4, Or.inr ⟨_, h5⟩, ?_⟩
            rw [h5]
            exact synced_of_uploaded E a.vargs _ path file gs hopen hprev
    · rw [visit_of_absent E (bucketS3 E.md5hex) a path info file hpath hdir hopen hex,
        hkey] at hres
      obtain ⟨h1, h2, h3, h4, h5⟩ :=
        upload_bucket_post E.md5hex _ a' _ _ _ _ _ gs none hres hgs
      refine ⟨h1, h2, h3, h4, Or.inr ⟨_, h5⟩, ?_⟩
      rw [h5]
      exact synced_of_uploaded E a.vargs _ path file gs hopen hprev

theorem visit_bucket_synced (E : Env) (a : AWS Bucket) (path : String) (info : FileInfo)
    (hpath : path ≠ ".") (hdir : info.IsDir = false)
    (hkey : Join a.vargs.Target (localPathOf a.vargs.Source path) =
      localPathOf a.vargs.Source path)
    (hex : localPathOf a.vargs.Source path ∈ a.remote)
    (hsync : Synced E a.vargs a.client.objects path) :
    a.visit E (bucketS3 E.md5hex) path info none =
      ({ a with
          locals := a.locals ++ [localPathOf a.vargs.Source path]
          log := a.log ++
            [Request.headObject
              { Bucket := a.vargs.Bucket, Key := localPathOf a.vargs.Source path },
            Request.getObjectAcl
              { Bucket := a.vargs.Bucket, Key := localPathOf a.vargs.Source path }] },
        none) := by
  obtain ⟨file, o, hopen, hlk, hsum, hct, hmd, hprev⟩ := hsync
  have hhead : (bucketS3 E.md5hex).HeadObject
      { Bucket := a.vargs.Bucket,
        Key := Join a.vargs.Target (localPathOf a.vargs.Source path) } a.client =
      (.ok { ETag := o.ETag, ContentType := o.ContentType, Metadata := o.Metadata },
        a.client) := by
    simp [bucketS3, hkey, hlk]
  rw [visit_of_hash_match E (bucketS3 E.md5hex) a path info file _ _ hpath hdir hopen
    hex hhead hsum, hkey]
  exact (sameHash_bucket_skip E
    { a with
      locals := a.locals ++ [localPathOf a.vargs.Source path]
      log := a.log ++ [Request.headObject
        { Bucket := a.vargs.Bucket, Key := localPathOf a.vargs.Source path }] }
    _ o _ _ _ hlk hct hmd hprev).trans (by simp)

/-! ### The walk against the bucket -/

theorem synced_congr (E : Env) (vargs : PluginArgs) (objs objs' : List (String × Object))
    (path : String)
    (h : objs'.lookup (localPathOf vargs.Source path) =
      objs.lookup (localPathOf vargs.Source path))
    (hs : Synced E vargs objs path) : Synced E vargs objs' path := by
  obtain ⟨file, o, h1, h2, h3⟩ := hs
  exact ⟨file, o, h1, h.trans h2, h3⟩

theorem mem_keys_of_lookup (objs : List (String × Object)) (k : String) (o : Object)
    (h : objs.lookup k = some o) : k ∈ objs.map Prod.fst := by
  induction objs with
  | nil => simp [List.lookup] at h
  | cons x rest ih =>
    obtain ⟨k0, o0⟩ := x
    by_cases hk : k = k0
    · subst hk; simp
    · have hb : (k == k0) = false := by simpa using hk
      simp only [List.lookup, hb] at h
      simp only [List.map_cons, List.mem_cons]
      exact Or.inr (ih h)

theorem regularFiles_cons_of_regular (path : String) (info : FileInfo)
    (rest : List (String × FileInfo)) (h : isRegular (path, info) = true) :
    regularFiles ((path, info) :: rest) = path :: regularFiles rest := by
  simp [regularFiles, List.filter_cons, h]

theorem regularFiles_cons_of_not_regular (path : String) (info : FileInfo)
    (rest : List (String × FileInfo)) (h : isRegular (path, info) = false) :
    regularFiles ((path, info) :: rest) = regularFiles rest := by
  simp [regularFiles, List.filter_cons, h]

theorem not_regular_cases (path : String) (info : FileInfo)
    (h : isRegular (path, info) = false) : path = "." ∨ info.IsDir = true := by
  by_cases hp : path = "."
  · exact Or.inl hp
  · refine Or.inr ?_
    cases hd : info.IsDir with
    | true => rfl
    | false => simp [isRegular, hp, hd] at h

theorem regular_cases (path : String) (info : FileInfo)
    (h : isRegular (path, info) = true) : path ≠ "." ∧ info.IsDir = false := by
  simp only [isRegular, Bool.and_eq_true, bne_iff_ne, ne_eq, Bool.not_eq_true'] at h
  exact h

theorem walk_cons_none {σ : Type} (E : Env) (S : S3 σ) (a a' : AWS σ) (path : String)
    (info : FileInfo) (rest : List (String × FileInfo))
    (h : walk E S a ((path, info) :: rest) = (a', none)) :
    ∃ a1, a.visit E S path info none = (a1, none) ∧ walk E S a1 rest = (a', none) := by
  rw [walk] at h
  rcases hv : a.visit E S path info none with ⟨a1, e1⟩
  rw [hv] at h
  cases e1 with
  | some e => cases (Prod.mk.inj h).2
  | none => exact ⟨a1, rfl, h⟩

theorem walk_bucket_post (E : Env) (vargs : PluginArgs) (tree : List (String × FileInfo)) :
    ∀ (a a' : AWS Bucket), a.vargs = vargs →
      (∀ p ∈ regularFiles tree,
        Join vargs.Target (localPathOf vargs.Source p) = localPathOf vargs.Source p) →
      (∀ p ∈ regularFiles tree, resolveAccess E vargs (localPathOf vargs.Source p) ∈
        ["private", "public-read", "public-read-write"]) →
      ((regularFiles tree).map (localPathOf vargs.Source)).Nodup →
      KeysSorted a.client.objects →
      walk E (bucketS3 E.md5hex) a tree = (a', none) →
      a'.remote = a.remote ∧
        a'.locals = a.locals ++ (regularFiles tree).map (localPathOf vargs.Source) ∧
        a'.vargs = vargs ∧ a'.client.maxKeys = a.client.maxKeys ∧
        KeysSorted a'.client.objects ∧
        (∀ k, k ∉ (regularFiles tree).map (localPathOf vargs.Source) →
          a'.client.objects.lookup k = a.client.objects.lookup k) ∧
        (∀ k, k ∈ a'.client.objects.map Prod.fst →
          k ∈ a.client.objects.map Prod.fst ∨
            k ∈ (regularFiles tree).map (localPathOf vargs.Source)) ∧
        (∀ p ∈ regularFiles tree, Synced E vargs a'.client.objects p) := by
  induction tree with
  | nil =>
    intro a a' hv _ _ _ hs hres
    rw [walk] at hres
    obtain ⟨rfl, -⟩ := Prod.mk.inj hres
    simp [regularFiles, hv, hs]
  | cons x rest ih =>
    obtain ⟨path, info⟩ := x
    intro a a' hv hkey hacc hnd hs hres
    obtain ⟨a1, hvis, hrest⟩ := walk_cons_none E _ a a' path info rest hres
    cases hreg : isRegular (path, info) with
    | false =>
      rw [visit_of_not_regular E _ a path info (not_regular_cases path info hreg)] at hvis
      obtain ⟨rfl, -⟩ := Prod.mk.inj hvis
      rw [regularFiles_cons_of_not_regular path info rest hreg] at hkey hacc hnd ⊢
      exact ih a a' hv hkey hacc hnd hs hrest
    | true =>
      obtain ⟨hpath, hdir⟩ := regular_cases path info hreg
      rw [regularFiles_cons_of_regular path info rest hreg] at hkey hacc hnd ⊢
      rw [List.map_cons, List.nodup_cons] at hnd
      obtain ⟨h1, h2, h3, h4, h5, h6⟩ := visit_bucket_post E a a1 path info hpath hdir
        (by rw [hv]; exact hkey path (List.mem_cons_self _ _))
        (by rw [hv]; exact hacc path (List.mem_cons_self _ _)) hvis
      rw [hv] at h2 h5 h6
      have hs1 : KeysSorted a1.client.objects := by
        rcases h5 with h5 | ⟨o, h5⟩
        · rw [h5]; exact hs
        · rw [h5]; exact keysSorted_putObj _ _ _ hs
      obtain ⟨g1, g2, g3, g4, g5, g6, g7, g8⟩ := ih a1 a' (h3.trans hv)
        (fun p hp => hkey p (List.mem_cons_of_mem _ hp))
        (fun p hp => hacc p (List.mem_cons_of_mem _ hp)) hnd.2 hs1 hrest
      have hframe : ∀ k, k ≠ localPathOf vargs.Source path →
          a1.client.objects.lookup k = a.client.objects.lookup k := by
        intro k hk
        rcases h5 with h5 | ⟨o, h5⟩
        · rw [h5]
        · rw [h5]; exact lookup_putObj_ne _ _ _ _ hk
      refine ⟨g1.trans h1, ?_, g3, g4.trans h4, g5, ?_, ?_, ?_⟩
      · rw [g2, h2]; simp
      · intro k hk
        rw [List.map_cons, List.mem_cons, not_or] at hk
        rw [g6 k hk.2, hframe k hk.1]
      · intro k hk
        rcases g7 k hk with hk1 | hk1
        · rcases h5 with h5 | ⟨o, h5⟩
          · rw [h5] at hk1; exact Or.inl hk1
          · rw [h5, mem_keys_putObj] at hk1
            rcases hk1 with hk1 | hk1
            · exact Or.inr (by rw [hk1]; simp)
            · exact Or.inl hk1
        · exact Or.inr (by simp [hk1])
      · intro p hp
        rcases List.mem_cons.1 hp with hp | hp
        · subst hp
          exact synced_congr E vargs _ _ p (g6 _ hnd.1) h6
        · exact g8 p hp

theorem walk_bucket_synced (E : Env) (vargs : PluginArgs) (tree : List (String × FileInfo)) :
    ∀ (a : AWS Bucket), a.vargs = vargs →
      (∀ p ∈ regularFiles tree,
        Join vargs.Target (localPathOf vargs.Source p) = localPathOf vargs.Source p) →
      (∀ p ∈ regularFiles tree, localPathOf vargs.Source p ∈ a.remote ∧
        Synced E vargs a.client.objects p) →
      ∃ a', walk E (bucketS3 E.md5hex) a tree = (a', none) ∧ a'.client = a.client ∧
        a'.remote = a.remote ∧
        a'.locals = a.locals ++ (regularFiles tree).map (localPathOf vargs.Source) ∧
        a'.vargs = vargs ∧ writesOf a'.log = writesOf a.log := by
  induction tree with
  | nil =>
    intro a hv _ _
    exact ⟨a, by simp [walk], rfl, rfl, by simp [regularFiles], hv, rfl⟩
  | cons x rest ih =>
    obtain ⟨path, info⟩ := x
    intro a hv hkey hsync
    cases hreg : isRegular (path, info) with
    | false =>
      rw [regularFiles_cons_of_not_regular path info rest hreg] at hkey hsync ⊢
      obtain ⟨a', g1, g2⟩ := ih a hv hkey hsync
      refine ⟨a', ?_, g2⟩
      rw [walk, visit_of_not_regular E _ a path info (not_regular_cases path info hreg)]
      exact g1
    | true =>
      obtain ⟨hpath, hdir⟩ := regular_cases path info hreg
      rw [regularFiles_cons_of_regular path info rest hreg] at hkey hsync ⊢
      have hvis := visit_bucket_synced E a path info hpath hdir
        (by rw [hv]; exact hkey path (List.mem_cons_self _ _))
        (by rw [hv]; exact (hsync path (List.mem_cons_self _ _)).1)
        (by rw [hv]; exact (hsync path (List.mem_cons_self _ _)).2)
      obtain ⟨a', g1, g2, g3, g4, g5, g6⟩ := ih
        { a with
          locals := a.locals ++ [localPathOf a.vargs.Source path]
          log := a.log ++
            [Request.headObject
              { Bucket := a.vargs.Bucket, Key := localPathOf a.vargs.Source path },
            Request.getObjectAcl
              { Bucket := a.vargs.Bucket, Key := localPathOf a.vargs.Source path }] }
        hv (fun p hp => hkey p (List.mem_cons_of_mem _ hp))
        (fun p hp => hsync p (List.mem_cons_of_mem _ hp))
      refine ⟨a', ?_, g2, g3, ?_, g5, ?_⟩
      · rw [walk, hvis]
        exact g1
      · rw [g4, hv]; simp
      · rw [g6]; simp [writesOf]

/-! ### `AddRedirects` and `Cleanup` against the bucket -/

theorem addRedirects_nil {σ : Type} (E : Env) (S : S3 σ) (a : AWS σ) :
    a.AddRedirects E S [] = (a, none) := by
  simp [AWS.AddRedirects, rangeOver, GoMap.get?, List.lookup, addRedirectsLoop]

theorem locals_any_eq (locals : List String) (r : String) :
    locals.any (fun l => l == r) = decide (r ∈ locals) := by
  induction locals with
  | nil => simp
  | cons x xs ih =>
    rw [List.any_cons, ih]
    by_cases h : x = r
    · subst h; simp
    · have h' : ¬ r = x := fun e => h e.symm
      simp [h, h']

theorem cleanupLoop_of_subset {σ : Type} (S : S3 σ) (rest : List String) (a : AWS σ)
    (h : ∀ r ∈ rest, r ∈ a.locals) : cleanupLoop S a rest = (a, none) := by
  induction rest with
  | nil => rfl
  | cons r rest ih =>
    rw [cleanupLoop]
    have hr : a.locals.any (fun l => l == r) = true := by
      rw [locals_any_eq]; simpa using h r (List.mem_cons_self _ _)
    simp only [hr, Bool.not_true, Bool.false_eq_true, if_false]
    exact ih (fun x hx => h x (List.mem_cons_of_mem _ hx))

theorem cleanupLoop_bucket (md5hex : Bytes → String) (rest : List String) :
    ∀ a : AWS Bucket, ∃ a', cleanupLoop (bucketS3 md5hex) a rest = (a', none) ∧
      a'.locals = a.locals ∧ a'.remote = a.remote ∧ a'.vargs = a.vargs ∧
      a'.client.maxKeys = a.client.maxKeys ∧
      a'.client.objects =
        a.client.objects.filter (fun ko => decide (ko.1 ∈ rest → ko.1 ∈ a.locals)) := by
  induction rest with
  | nil =>
    intro a
    exact ⟨a, rfl, rfl, rfl, rfl, rfl, by simp⟩
  | cons r rest ih =>
    intro a
    by_cases hr : r ∈ a.locals
    · have hany : a.locals.any (fun l => l == r) = true := by
        rw [locals_any_eq]; simpa using hr
      obtain ⟨a', h1, h2, h3, h4, h5, h6⟩ := ih a
      refine ⟨a', ?_, h2, h3, h4, h5, ?_⟩
      · rw [cleanupLoop]
        simp only [hany, Bool.not_true, Bool.false_eq_true, if_false]
        exact h1
      · rw [h6]
        apply List.filter_congr
        intro ko _
        by_cases hk : ko.1 = r
        · simp [hk, hr]
        · simp [hk]
    · have hany : a.locals.any (fun l => l == r) = false := by
        rw [locals_any_eq]; simpa using hr
      obtain ⟨a', h1, h2, h3, h4, h5, h6⟩ := ih
        { a with
          client := { a.client with
            objects := a.client.objects.filter (fun ko => ko.1 != r) }
          log := a.log ++ [Request.deleteObject { Bucket := a.vargs.Bucket, Key := r }] }
      refine ⟨a', ?_, h2, h3, h4, h5, ?_⟩
      · rw [cleanupLoop]
        simp only [hany, Bool.not_false, if_true]
        simpa [bucketS3] using h1
      · rw [h6]
        simp only [List.filter_filter]
        apply List.filter_congr
        intro ko _
        by_cases hk : ko.1 = r
        · simp [hk, hr]
        · simp [hk]

theorem lookup_filter_key (p : String → Bool) (l : List (String × Object)) (k : String) :
    (l.filter (fun ko => p ko.1)).lookup k = if p k = true then l.lookup k else none := by
  induction l with
  | nil => simp [List.lookup]
  | cons x rest ih =>
    obtain ⟨k0, o0⟩ := x
    by_cases hk : k = k0
    · subst hk
      cases hp : p k with
      | true => simp [List.filter_cons, hp, List.lookup]
      | false =>
        rw [List.filter_cons]
        simp only [hp, Bool.false_eq_true, if_false] at ih ⊢
        exact ih
    · have hb : (k == k0) = false := by simpa using hk
      cases hp0 : p k0 with
      | true =>
        rw [List.filter_cons]
        simp only [hp0, if_true, List.lookup, hb]
        exact ih
      | false =>
        rw [List.filter_cons]
        simp only [hp0, Bool.false_eq_true, if_false, List.lookup, hb]
        exact ih

theorem exists_of_map_snd {α : Type} (r : Option (α × Option Error))
    (h : r.map Prod.snd = some none) : ∃ a, r = some (a, none) := by
  cases r with
  | none => simp at h
  | some x =>
    obtain ⟨a, e⟩ := x
    simp only [Option.map_some', Option.some.injEq] at h
    exact ⟨a, by rw [h]⟩

/-- C4, as amended: with an empty redirect mapping and an empty target prefix,
for a local tree whose files have pairwise distinct relative paths that are
their own target keys and whose resolved access is "private", "public-read" or
"public-read-write", once a run (List, visit of every file, AddRedirects,
Cleanup) against a bucket listed in key order has completed without error, a
second run against the unchanged tree and the resulting bucket completes
without error, given as many List rounds as the bucket holds objects, and
issues no PutObject, no CopyObject and no DeleteObject. -/
theorem second_run_issues_no_write (E : Env) (fuel : Nat) (vargs : PluginArgs) (b : Bucket)
    (tree : List (String × FileInfo)) (a1 : AWS Bucket)
    (hmax : 0 < b.maxKeys) (hsorted : KeysSorted b.objects) (hT : vargs.Target = "")
    (hkey : ∀ p ∈ regularFiles tree,
      Join vargs.Target (localPathOf vargs.Source p) = localPathOf vargs.Source p)
    (hnodup : ((regularFiles tree).map (localPathOf vargs.Source)).Nodup)
    (hacc : ∀ p ∈ regularFiles tree, resolveAccess E vargs (localPathOf vargs.Source p) ∈
      ["private", "public-read", "public-read-write"])
    (hrun : run E (bucketS3 E.md5hex) fuel vargs b tree [] = some (a1, none)) :
    ∀ fuel', a1.client.objects.length ≤ fuel' →
      ∃ a2, run E (bucketS3 E.md5hex) fuel' vargs a1.client tree [] = some (a2, none) ∧
        writesOf a2.log = [] := by
  -- the first run
  obtain ⟨hL1, -⟩ := List_bucket E.md5hex fuel (NewAWS b vargs) vargs.Target hmax hsorted
  rw [run] at hrun
  rcases hL1 with hL1 | ⟨aL, hL1, l1, l2, l3, l4, -⟩
  · rw [hL1] at hrun; cases hrun
  rw [hL1] at hrun
  simp only at hrun
  rcases hw : walk E (bucketS3 E.md5hex) aL tree with ⟨aW, eW⟩
  rw [hw] at hrun
  cases eW with
  | some e => simp at hrun
  | none =>
    simp only [addRedirects_nil] at hrun
    obtain ⟨aC, c1, c2, c3, c4, c5, c6⟩ := cleanupLoop_bucket E.md5hex aW.remote aW
    have hC : aW.Cleanup (bucketS3 E.md5hex) = (aC, none) := c1
    rw [hC] at hrun
    obtain ⟨rfl, -⟩ := Prod.mk.inj (Option.some.inj hrun)
    have hsL : KeysSorted aL.client.objects := by rw [l2]; exact hsorted
    obtain ⟨w1, w2, w3, w4, w5, w6, w7, w8⟩ :=
      walk_bucket_post E vargs tree aL aW l4 hkey hacc hnodup hsL hw
    have hremote : aW.remote = "" :: b.objects.map Prod.fst := by
      rw [w1, l1, hT]
      simp [NewAWS, listedKeys_empty_prefix]
    have hlocals : aW.locals = "" :: (regularFiles tree).map (localPathOf vargs.Source) := by
      rw [w2, l3]; simp [NewAWS]
    -- the bucket the first run leaves
    have hkeep : ∀ k, k ∈ aW.locals →
        aC.client.objects.lookup k = aW.client.objects.lookup k := by
      intro k hk
      rw [c6, lookup_filter_key (fun k => decide (k ∈ aW.remote → k ∈ aW.locals))]
      simp [hk]
    have hsync : ∀ p ∈ regularFiles tree, Synced E vargs aC.client.objects p := by
      intro p hp
      refine synced_congr E vargs _ _ p (hkeep _ ?_) (w8 p hp)
      rw [hlocals]
      exact List.mem_cons_of_mem _ (List.mem_map_of_mem _ hp)
    have hkeys : ∀ k, k ∈ aC.client.objects.map Prod.fst → k ∈ aW.locals := by
      intro k hk
      rw [c6, List.mem_map] at hk
      obtain ⟨ko, hko, rfl⟩ := hk
      rw [List.mem_filter] at hko
      obtain ⟨hmem, hdec⟩ := hko
      have himp : ko.1 ∈ aW.remote → ko.1 ∈ aW.locals := of_decide_eq_true hdec
      rcases w7 ko.1 (List.mem_map_of_mem _ hmem) with h | h
      · apply himp
        rw [l2] at h
        rw [hremote]
        exact List.mem_cons_of_mem _ h
      · rw [hlocals]
        exact List.mem_cons_of_mem _ h
    have hsC : KeysSorted aC.client.objects := by
      rw [c6]; exact keysSorted_filter _ _ w5
    have hmaxC : 0 < aC.client.maxKeys := by
      rw [c5, w4, l2]; exact hmax
    -- the second run
    intro fuel' hfuel
    obtain ⟨hL2, hL2'⟩ :=
      List_bucket E.md5hex fuel' (NewAWS aC.client vargs) vargs.Target hmaxC hsC
    have hnn : (NewAWS aC.client vargs).List (bucketS3 E.md5hex) fuel' vargs.Target ≠ none := by
      apply hL2'
      rw [hT]
      simp only [NewAWS, listedKeys_empty_prefix, List.length_map]
      exact hfuel
    rcases hL2 with hL2 | ⟨aM, hL2, m1, m2, m3, m4, m5⟩
    · exact absurd hL2 hnn
    have hremoteM : aM.remote = "" :: aC.client.objects.map Prod.fst := by
      rw [m1, hT]
      simp [NewAWS, listedKeys_empty_prefix]
    obtain ⟨aN, n1, n2, n3, n4, n5, n6⟩ := walk_bucket_synced E vargs tree aM m4 hkey
      (fun p hp => by
        obtain ⟨file, o, -, hlk, -⟩ := hsync p hp
        refine ⟨?_, ?_⟩
        · rw [hremoteM]
          exact List.mem_cons_of_mem _ (mem_keys_of_lookup _ _ o hlk)
        · rw [m2]
          exact hsync p hp)
    have hclean : aN.Cleanup (bucketS3 E.md5hex) = (aN, none) := by
      apply cleanupLoop_of_subset
      intro r hr
      rw [n3, hremoteM] at hr
      rw [n4, m3]
      rcases List.mem_cons.1 hr with hr | hr
      · rw [hr]; simp [NewAWS]
      · have := hkeys r hr
        rw [hlocals] at this
        simpa [NewAWS] using this
    refine ⟨aN, ?_, ?_⟩
    · rw [run, hL2]
      simp only [n1, addRedirects_nil, hclean]
    · rw [n6, m5]
      simp [NewAWS, writesOf]

/-- C4, at a concrete input: Scenario A of the spec, run twice. -/
theorem second_run_issues_no_write_witness :
    ∃ a1 a2 : AWS Bucket,
      run scenarioAEnv (bucketS3 demoDigest) 5 scenarioAArgs scenarioABucket scenarioATree [] =
        some (a1, none) ∧
      run scenarioAEnv (bucketS3 demoDigest) a1.client.objects.length scenarioAArgs a1.client
        scenarioATree [] = some (a2, none) ∧
      writesOf a2.log = [] := by
  obtain ⟨a1, h1⟩ := exists_of_map_snd
    (run scenarioAEnv (bucketS3 demoDigest) 5 scenarioAArgs scenarioABucket scenarioATree [])
    (by decide)
  obtain ⟨a2, h2, h3⟩ := second_run_issues_no_write scenarioAEnv 5 scenarioAArgs
    scenarioABucket scenarioATree a1 (by decide) (by unfold KeysSorted; decide) rfl (by decide)
    (by decide) (by decide) h1 _ (le_refl _)
  exact ⟨a1, a2, h1, h2, h3⟩

/-- With access "authenticated-read" the second run is not free of writes
either: the grants the first upload leaves derive "private", so every later
visit sends a CopyObject. -/
theorem second_run_copies_authenticated_read :
    (rerun (demoEnv [("dist/index.html", [1, 2])]) (bucketS3 demoDigest) 5
        { demoArgs "" .absent with Access := .scalar "authenticated-read" } emptyBucket
        [("dist/index.html", ⟨false⟩)] []).map (fun r => writesOf r.1.log) =
      some [Request.copyObject
        { Bucket := "bucket", Key := "index.html", CopySource := "bucket/index.html",
          ACL := "authenticated-read", ContentType := "text/html; charset=utf-8",
          Metadata := [], MetadataDirective := "REPLACE" }] := by
  decide

/-- C4, as stated, fails: with the redirect mapping `old` to `/new`, an empty
local tree and an empty bucket, the first run completes without error and the
second run sends the PutObject of the redirect again. -/
theorem second_run_rewrites_redirect :
    (run (demoEnv []) (bucketS3 demoDigest) 5 (demoArgs "" .absent) emptyBucket []
        [("old", "/new")]).map Prod.snd = some none ∧
      (rerun (demoEnv []) (bucketS3 demoDigest) 5 (demoArgs "" .absent) emptyBucket []
        [("old", "/new")]).map (fun r => writesOf r.1.log) =
        some [Request.putObject
          { Bucket := "bucket", Key := "old", Body := none, ContentType := none,
            ACL := some "public-read", Metadata := [],
            WebsiteRedirectLocation := some "/new" }] := by
  decide

/-! ### Policy resolution -/

theorem reverseEnv_rangeOK (fs : List (String × Bytes)) : (reverseEnv fs).RangeOK :=
  fun ks => List.reverse_perm ks

theorem mem_keys_of_mem_rangeOver {β : Type} (E : Env) (m : GoMap β) (k : String)
    (h : k ∈ rangeOver E m) : k ∈ m.keys := by
  unfold rangeOver at h
  rw [List.mem_filter] at h
  cases hk : m.get? k with
  | none => rw [hk] at h; simp at h
  | some v => exact mem_keys_of_get? m k v hk

theorem find?_of_first {α : Type} (f : α → Bool) (pre post : List α) (p : α)
    (hpre : ∀ q ∈ pre, f q = false) (hp : f p = true) :
    (pre ++ p :: post).find? f = some p := by
  induction pre with
  | nil => simp [List.find?, hp]
  | cons x xs ih =>
    have hx : f x = false := hpre x (List.mem_cons_self _ _)
    simp only [List.cons_append, List.find?, hx]
    exact ih (fun q hq => hpre q (List.mem_cons_of_mem _ hq))

theorem find?_of_none {α : Type} (f : α → Bool) (l : List α)
    (h : ∀ q ∈ l, f q = false) : l.find? f = none := by
  induction l with
  | nil => rfl
  | cons x xs ih =>
    have hx : f x = false := h x (List.mem_cons_self _ _)
    simp only [List.find?, hx]
    exact ih (fun q hq => h q (List.mem_cons_of_mem _ hq))

/-- C11, as amended: the resolved access is the configured scalar whenever
access is configured as a non-empty fixed string; for a pattern mapping it is
the value, when non-empty, of the first pattern whose glob matches the path in
the order in which `range` visits the keys of the mapping; and it is "private"
when access is absent, when no pattern matches, and when the scalar or the
matched value is empty. -/
theorem resolveAccess_first_in_range_order (E : Env) (vargs : PluginArgs) (localPath : String) :
    (∀ s, vargs.Access = .scalar s → s ≠ "" → resolveAccess E vargs localPath = s) ∧
    (∀ m pre p post v, vargs.Access = .mapping m → rangeOver E m = pre ++ p :: post →
      (∀ q ∈ pre, E.Glob q localPath = false) → E.Glob p localPath = true →
      m.get? p = some v → v ≠ "" → resolveAccess E vargs localPath = v) ∧
    (vargs.Access = .absent → resolveAccess E vargs localPath = "private") ∧
    (∀ m, vargs.Access = .mapping m → (∀ p ∈ m.keys, E.Glob p localPath = false) →
      resolveAccess E vargs localPath = "private") ∧
    (vargs.Access = .scalar "" → resolveAccess E vargs localPath = "private") ∧
    (∀ m pre p post, vargs.Access = .mapping m → rangeOver E m = pre ++ p :: post →
      (∀ q ∈ pre, E.Glob q localPath = false) → E.Glob p localPath = true →
      m.get? p = some "" → resolveAccess E vargs localPath = "private") := by
  refine ⟨?_, ?_, ?_, ?_, ?_, ?_⟩
  · intro s hs hne
    simp [resolveAccess, hs, StringMap.IsString, StringMap.String, hne]
  · intro m pre p post v hm hr hpre hp hv hne
    have hf := find?_of_first (fun pattern => E.Glob pattern localPath) pre post p hpre hp
    simp [resolveAccess, hm, StringMap.IsString, StringMap.IsEmpty, StringMap.Map, hr, hf, hv,
      hne]
  · intro ha
    simp [resolveAccess, ha, StringMap.IsString, StringMap.IsEmpty]
  · intro m hm hnone
    have hf := find?_of_none (fun pattern => E.Glob pattern localPath) (rangeOver E m)
      (fun q hq => hnone q (mem_keys_of_mem_rangeOver E m q hq))
    simp [resolveAccess, hm, StringMap.IsString, StringMap.IsEmpty, StringMap.Map, hf]
  · intro hs
    simp [resolveAccess, hs, StringMap.IsString, StringMap.String]
  · intro m pre p post hm hr hpre hp hv
    have hf := find?_of_first (fun pattern => E.Glob pattern localPath) pre post p hpre hp
    simp [resolveAccess, hm, StringMap.IsString, StringMap.IsEmpty, StringMap.Map, hr, hf, hv]

/-- C11, at a concrete input: two overlapping patterns, visited in the order
they are written down. -/
theorem resolveAccess_first_in_range_order_witness :
    resolveAccess (demoEnv []) overlapArgs "index.html" = "public-read" :=
  (resolveAccess_first_in_range_order (demoEnv []) overlapArgs "index.html").2.1
    [("*.html", "public-read"), ("*", "public-read-write")] [] "*.html" ["*"] "public-read"
    rfl (by decide) (by decide) (by decide) (by decide) (by decide)

/-- C11, as stated, fails: the mapping lists `*.html` before `*`, both match
`index.html`, and a runtime that visits the keys in the other order resolves
the value of `*`; a Go map has no defined order. -/
theorem resolveAccess_depends_on_range_order :
    (reverseEnv []).RangeOK ∧
      (reverseEnv []).Glob "*.html" "index.html" = true ∧
      overlapArgs.Access = .mapping [("*.html", "public-read"), ("*", "public-read-write")] ∧
      resolveAccess (reverseEnv []) overlapArgs "index.html" = "public-read-write" :=
  ⟨reverseEnv_rangeOK [], by decide, by decide, by decide⟩

theorem find?_beq_of_mem (l : List String) (x : String) (h : x ∈ l) :
    l.find? (fun y => y == x) = some x := by
  induction l with
  | nil => cases h
  | cons y ys ih =>
    by_cases hy : y = x
    · subst hy; simp [List.find?]
    · have hb : (y == x) = false := by simpa using hy
      simp only [List.find?, hb]
      rcases List.mem_cons.1 h with h | h
      · exact absurd h.symm hy
      · exact ih h

theorem find?_beq_of_not_mem (l : List String) (x : String) (h : x ∉ l) :
    l.find? (fun y => y == x) = none := by
  rw [List.find?_eq_none]
  intro y hy hyx
  exact h (by rw [← beq_iff_eq.1 hyx]; exact hy)

/-- C12, as amended: the resolved content type is the configured scalar
whenever content type is configured as a non-empty fixed string; for a mapping
it is the value, when non-empty, under the key exactly equal to the file
extension of the path; in every other case (no configuration, no such key, an
empty scalar or an empty value) it is the result of the extension-to-MIME
lookup, which is empty for an unknown extension. -/
theorem resolveContentType_cases (E : Env) (hE : E.RangeOK) (vargs : PluginArgs)
    (localPath : String) :
    (∀ s, vargs.ContentType = .scalar s → s ≠ "" →
      resolveContentType E vargs localPath = s) ∧
    (∀ m v, vargs.ContentType = .mapping m → m.get? (Ext localPath) = some v → v ≠ "" →
      resolveContentType E vargs localPath = v) ∧
    (∀ m, vargs.ContentType = .mapping m → m.get? (Ext localPath) = none →
      resolveContentType E vargs localPath = E.TypeByExtension (Ext localPath)) ∧
    (vargs.ContentType = .absent →
      resolveContentType E vargs localPath = E.TypeByExtension (Ext localPath)) ∧
    (vargs.ContentType = .scalar "" →
      resolveContentType E vargs localPath = E.TypeByExtension (Ext localPath)) ∧
    (∀ m, vargs.ContentType = .mapping m → m.get? (Ext localPath) = some "" →
      resolveContentType E vargs localPath = E.TypeByExtension (Ext localPath)) := by
  have hsome : ∀ (m : GoMap String) (v : String), m.get? (Ext localPath) = some v →
      (rangeOver E m).find? (fun patternExt => patternExt == Ext localPath) =
        some (Ext localPath) := fun m v hv =>
    find?_beq_of_mem _ _ ((mem_rangeOver E hE m _).2 (mem_keys_of_get? m _ v hv))
  refine ⟨?_, ?_, ?_, ?_, ?_, ?_⟩
  · intro s hs hne
    simp [resolveContentType, hs, StringMap.IsString, StringMap.String, hne]
  · intro m v hm hv hne
    simp [resolveContentType, hm, StringMap.IsString, StringMap.IsEmpty, StringMap.Map,
      hsome m v hv, hv, hne]
  · intro m hm hv
    have hnot : Ext localPath ∉ rangeOver E m := by
      intro hmem
      have := get?_isSome_of_mem_keys m _ (mem_keys_of_mem_rangeOver E m _ hmem)
      rw [hv] at this
      cases this
    simp [resolveContentType, hm, StringMap.IsString, StringMap.IsEmpty, StringMap.Map,
      find?_beq_of_not_mem _ _ hnot]
  · intro ha
    simp [resolveContentType, ha, StringMap.IsString, StringMap.IsEmpty]
  · intro hs
    simp [resolveContentType, hs, StringMap.IsString, StringMap.String]
  · intro m hm hv
    simp [resolveContentType, hm, StringMap.IsString, StringMap.IsEmpty, StringMap.Map,
      hsome m "" hv, hv]

/-- C12, at a concrete input: Scenario A's `style.css` under the mapping of
`.css` to `text/css`. -/
theorem resolveContentType_cases_witness :
    resolveContentType scenarioAEnv scenarioAArgs "style.css" = "text/css" :=
  (resolveContentType_cases scenarioAEnv (demoEnv_rangeOK _) scenarioAArgs "style.css").2.1
    [(".css", "text/css")] "text/css" rfl (by decide) (by decide)

/-- C12, as stated, fails: with content type configured as the empty fixed
string, the resolved content type of `style.css` is not that string but the
result of the MIME lookup. -/
theorem resolveContentType_empty_scalar :
    (demoArgs "" (.scalar "")).ContentType.IsString = true ∧
      (demoArgs "" (.scalar "")).ContentType.String = "" ∧
      resolveContentType (demoEnv []) (demoArgs "" (.scalar "")) "style.css" =
        "text/css; charset=utf-8" := by
  decide

/-! ### Building a Go map key by key -/

theorem get?_set {β : Type} (m : GoMap β) (k k' : String) (v : β) :
    (m.set k v).get? k' = if k' = k then some v else m.get? k' := by
  induction m with
  | nil =>
    by_cases h : k' = k
    · subst h; simp [GoMap.set, GoMap.get?, List.lookup]
    · have hb : (k' == k) = false := by simpa using h
      simp [GoMap.set, GoMap.get?, List.lookup, hb, h]
  | cons x rest ih =>
    obtain ⟨k0, v0⟩ := x
    unfold GoMap.get? at ih ⊢
    by_cases h0 : k0 = k
    · subst h0
      by_cases h : k' = k0
      · subst h; simp [GoMap.set, List.lookup]
      · have hb : (k' == k0) = false := by simpa using h
        simp [GoMap.set, List.lookup, hb, h]
    · by_cases h : k' = k0
      · subst h
        have hne : ¬ k' = k := h0
        simp [GoMap.set, h0, List.lookup, hne]
      · have hb : (k' == k0) = false := by simpa using h
        simp only [GoMap.set, h0, if_false, List.lookup, hb]
        exact ih

theorem mem_keys_set {β : Type} (m : GoMap β) (k k' : String) (v : β) :
    k' ∈ (m.set k v).keys ↔ k' = k ∨ k' ∈ m.keys := by
  induction m with
  | nil => simp [GoMap.set, GoMap.keys]
  | cons x rest ih =>
    obtain ⟨k0, v0⟩ := x
    unfold GoMap.keys at ih ⊢
    by_cases h0 : k0 = k
    · subst h0; simp [GoMap.set]
    · simp only [GoMap.set, h0, if_false, List.map_cons, List.mem_cons, ih]
      tauto

theorem nodup_keys_set {β : Type} (m : GoMap β) (k : String) (v : β)
    (h : m.keys.Nodup) : (m.set k v).keys.Nodup := by
  induction m with
  | nil => simp [GoMap.set, GoMap.keys]
  | cons x rest ih =>
    obtain ⟨k0, v0⟩ := x
    have h' : k0 ∉ GoMap.keys rest ∧ (GoMap.keys rest).Nodup := by
      simpa [GoMap.keys] using h
    by_cases h0 : k0 = k
    · subst h0
      simpa [GoMap.set, GoMap.keys] using h
    · have hk : k0 ∉ (GoMap.set rest k v).keys := by
        rw [mem_keys_set]
        intro hmem
        rcases hmem with hmem | hmem
        · exact h0 hmem
        · exact h'.1 hmem
      have := ih h'.2
      simp only [GoMap.set, h0, if_false]
      unfold GoMap.keys at hk this ⊢
      rw [List.map_cons, List.nodup_cons]
      exact ⟨hk, this⟩

theorem get?_foldl_set (f : String → String) (ks : List String) :
    ∀ (init : GoMap String) (k' : String),
      (ks.foldl (fun metadata k => metadata.set k (f k)) init).get? k' =
        if k' ∈ ks then some (f k') else init.get? k' := by
  induction ks with
  | nil => intro init k'; simp
  | cons k ks ih =>
    intro init k'
    rw [List.foldl_cons, ih, get?_set]
    by_cases h1 : k' ∈ ks
    · simp [h1]
    · by_cases h2 : k' = k
      · subst h2; simp [h1]
      · simp [h1, h2]

theorem keys_foldl_set (f : String → String) (ks : List String) :
    ∀ (init : GoMap String), init.keys.Nodup →
      (ks.foldl (fun metadata k => metadata.set k (f k)) init).keys.Nodup ∧
        ∀ k', k' ∈ (ks.foldl (fun metadata k => metadata.set k (f k)) init).keys ↔
          k' ∈ ks ∨ k' ∈ init.keys := by
  induction ks with
  | nil => intro init h; simp [h]
  | cons k ks ih =>
    intro init h
    rw [List.foldl_cons]
    obtain ⟨h1, h2⟩ := ih (init.set k (f k)) (nodup_keys_set init k (f k) h)
    refine ⟨h1, fun k' => ?_⟩
    rw [h2, mem_keys_set, List.mem_cons]
    tauto

theorem get?_foldl_range (E : Env) (hE : E.RangeOK) (inner : GoMap String) (k : String) :
    GoMap.get? ((rangeOver E inner).foldl
      (fun (metadata : GoMap String) k => GoMap.set metadata k ((inner.get? k).getD ""))
      ([] : GoMap String)) k = inner.get? k := by
  rw [get?_foldl_set (fun k => (inner.get? k).getD "")]
  by_cases hk : k ∈ rangeOver E inner
  · have := get?_isSome_of_mem_keys inner k (mem_keys_of_mem_rangeOver E inner k hk)
    cases hv : inner.get? k with
    | none => rw [hv] at this; cases this
    | some v => simp [hk]
  · have hnk : k ∉ inner.keys := fun h => hk ((mem_rangeOver E hE inner k).2 h)
    cases hv : inner.get? k with
    | none => simp [hk, GoMap.get?, List.lookup]
    | some v => exact absurd (mem_keys_of_get? inner k v hv) hnk

theorem keys_foldl_range (E : Env) (hE : E.RangeOK) (inner : GoMap String) :
    (GoMap.keys ((rangeOver E inner).foldl
      (fun (metadata : GoMap String) k => GoMap.set metadata k ((inner.get? k).getD ""))
      ([] : GoMap String))).Nodup ∧
    ∀ k, k ∈ GoMap.keys ((rangeOver E inner).foldl
      (fun (metadata : GoMap String) k => GoMap.set metadata k ((inner.get? k).getD ""))
      ([] : GoMap String)) ↔ k ∈ inner.keys := by
  obtain ⟨h1, h2⟩ := keys_foldl_set (fun k => (inner.get? k).getD "") (rangeOver E inner) []
    (by simp [GoMap.keys])
  refine ⟨h1, fun k => ?_⟩
  rw [h2, mem_rangeOver E hE]
  simp [GoMap.keys]

theorem resolveMetadata_eq (E : Env) (vargs : PluginArgs) (localPath : String) :
    resolveMetadata E vargs localPath =
      match (rangeOver E vargs.Metadata).find? (fun pattern => E.Glob pattern localPath) with
      | some pattern =>
        (rangeOver E ((vargs.Metadata.get? pattern).getD [])).foldl
          (fun (metadata : GoMap String) k =>
            GoMap.set metadata k ((((vargs.Metadata.get? pattern).getD []).get? k).getD ""))
          ([] : GoMap String)
      | none => [] := by
  unfold resolveMetadata
  by_cases hlen : vargs.Metadata.len > 0
  · simp only [hlen, if_true]
  · have hnil : vargs.Metadata = [] := by
      cases hm : vargs.Metadata with
      | nil => rfl
      | cons x xs => rw [hm] at hlen; simp [GoMap.len] at hlen
    simp [hnil, GoMap.len, rangeOver, GoMap.get?, List.lookup]

/-- C13, as amended: the resolved metadata holds exactly the key/value pairs of
the first pattern whose glob matches the path in the order in which `range`
visits the keys of the metadata mapping, never those of a later matching
pattern; it is empty if no pattern matches. -/
theorem resolveMetadata_first_in_range_order (E : Env) (hE : E.RangeOK) (vargs : PluginArgs)
    (localPath : String) :
    (∀ pre p post inner, rangeOver E vargs.Metadata = pre ++ p :: post →
      (∀ q ∈ pre, E.Glob q localPath = false) → E.Glob p localPath = true →
      vargs.Metadata.get? p = some inner →
      (∀ k, (resolveMetadata E vargs localPath).get? k = inner.get? k) ∧
        (inner.keys.Nodup → (resolveMetadata E vargs localPath).keys.Perm inner.keys)) ∧
    ((∀ p ∈ vargs.Metadata.keys, E.Glob p localPath = false) →
      resolveMetadata E vargs localPath = []) := by
  refine ⟨?_, ?_⟩
  · intro pre p post inner hr hpre hp hin
    have hf := find?_of_first (fun pattern => E.Glob pattern localPath) pre post p hpre hp
    rw [resolveMetadata_eq, hr, hf]
    simp only [hin, Option.getD_some]
    refine ⟨get?_foldl_range E hE inner, fun hnd => ?_⟩
    obtain ⟨h1, h2⟩ := keys_foldl_range E hE inner
    exact (List.perm_ext_iff_of_nodup h1 hnd).2 h2
  · intro hnone
    have hf := find?_of_none (fun pattern => E.Glob pattern localPath) (rangeOver E vargs.Metadata)
      (fun q hq => hnone q (mem_keys_of_mem_rangeOver E vargs.Metadata q hq))
    rw [resolveMetadata_eq, hf]

/-- C13, at a concrete input: two overlapping patterns, visited in the order
they are written down. -/
theorem resolveMetadata_first_in_range_order_witness :
    (demoEnv []).RangeOK ∧
      ∀ k, (resolveMetadata (demoEnv []) overlapArgs "index.html").get? k =
        GoMap.get? [("a", "1")] k :=
  ⟨demoEnv_rangeOK [],
    ((resolveMetadata_first_in_range_order (demoEnv []) (demoEnv_rangeOK []) overlapArgs
      "index.html").1 [] "*.html" ["*"] [("a", "1")] (by decide) (by decide) (by decide)
      (by decide)).1⟩

/-- C13, as stated, fails: the mapping lists `*.html` before `*`, both match
`index.html`, and a runtime that visits the keys in the other order resolves
the pairs of `*`; a Go map has no defined order. -/
theorem resolveMetadata_depends_on_range_order :
    (reverseEnv []).RangeOK ∧
      (reverseEnv []).Glob "*.html" "index.html" = true ∧
      overlapArgs.Metadata = [("*.html", [("a", "1")]), ("*", [("b", "2")])] ∧
      resolveMetadata (reverseEnv []) overlapArgs "index.html" = [("b", "2")] :=
  ⟨reverseEnv_rangeOK [], by decide, by decide, by decide⟩

/-! ### Two resolutions of the same path -/

theorem find?_congr_of_unique {α : Type} (f : α → Bool) (l1 l2 : List α)
    (hmem : ∀ x, x ∈ l1 ↔ x ∈ l2)
    (huniq : ∀ x ∈ l1, ∀ y ∈ l1, f x = true → f y = true → x = y) :
    l1.find? f = l2.find? f := by
  cases h1 : l1.find? f with
  | none =>
    rw [List.find?_eq_none] at h1
    symm
    rw [List.find?_eq_none]
    intro x hx
    exact h1 x ((hmem x).2 hx)
  | some x =>
    have hx : f x = true := List.find?_some h1
    have hxm : x ∈ l1 := List.mem_of_find?_eq_some h1
    cases h2 : l2.find? f with
    | none =>
      rw [List.find?_eq_none] at h2
      exact absurd hx (h2 x ((hmem x).1 hxm))
    | some y =>
      have hy : f y = true := List.find?_some h2
      have hym : y ∈ l1 := (hmem y).2 (List.mem_of_find?_eq_some h2)
      rw [huniq x hxm y hym hx hy]

theorem find?_beq_eq (l : List String) (x : String) :
    l.find? (fun y => y == x) = if x ∈ l then some x else none := by
  induction l with
  | nil => simp
  | cons y ys ih =>
    by_cases hy : y = x
    · subst hy; simp [List.find?]
    · have hb : (y == x) = false := by simpa using hy
      have hne : ¬ x = y := fun h => hy h.symm
      simp only [List.find?, hb, ih, List.mem_cons, hne, false_or]

/-- C14, as amended: two resolutions of the same path against the same
configuration, each with its own order of visiting map keys, yield the same
access, the same content type and the same metadata mapping, provided that at
most one pattern of the access mapping and at most one pattern of the metadata
mapping matches the path. -/
theorem resolution_deterministic_of_unique_match (E : Env)
    (r1 r2 : List String → List String)
    (h1 : ∀ ks, (r1 ks).Perm ks) (h2 : ∀ ks, (r2 ks).Perm ks)
    (vargs : PluginArgs) (localPath : String)
    (hA : ∀ p ∈ vargs.Access.Map.keys, ∀ q ∈ vargs.Access.Map.keys,
      E.Glob p localPath = true → E.Glob q localPath = true → p = q)
    (hM : ∀ p ∈ vargs.Metadata.keys, ∀ q ∈ vargs.Metadata.keys,
      E.Glob p localPath = true → E.Glob q localPath = true → p = q) :
    resolveAccess { E with rangeKeys := r1 } vargs localPath =
        resolveAccess { E with rangeKeys := r2 } vargs localPath ∧
      resolveContentType { E with rangeKeys := r1 } vargs localPath =
        resolveContentType { E with rangeKeys := r2 } vargs localPath ∧
      (∀ k, (resolveMetadata { E with rangeKeys := r1 } vargs localPath).get? k =
        (resolveMetadata { E with rangeKeys := r2 } vargs localPath).get? k) ∧
      (resolveMetadata { E with rangeKeys := r1 } vargs localPath).len =
        (resolveMetadata { E with rangeKeys := r2 } vargs localPath).len := by
  have hE1 : Env.RangeOK { E with rangeKeys := r1 } := h1
  have hE2 : Env.RangeOK { E with rangeKeys := r2 } := h2
  have hmem : ∀ {β : Type} (m : GoMap β) (x : String),
      x ∈ rangeOver { E with rangeKeys := r1 } m ↔ x ∈ rangeOver { E with rangeKeys := r2 } m :=
    fun m x => by rw [mem_rangeOver _ hE1, mem_rangeOver _ hE2]
  refine ⟨?_, ?_, ?_⟩
  · have hfind := find?_congr_of_unique (fun pattern => E.Glob pattern localPath)
      (rangeOver { E with rangeKeys := r1 } vargs.Access.Map)
      (rangeOver { E with rangeKeys := r2 } vargs.Access.Map) (hmem _)
      (fun x hx y hy => hA x (mem_keys_of_mem_rangeOver _ _ x hx)
        y (mem_keys_of_mem_rangeOver _ _ y hy))
    unfold resolveAccess
    simp only [hfind]
  · unfold resolveContentType
    simp only [find?_beq_eq, hmem]
  · have hfind := find?_congr_of_unique (fun pattern => E.Glob pattern localPath)
      (rangeOver { E with rangeKeys := r1 } vargs.Metadata)
      (rangeOver { E with rangeKeys := r2 } vargs.Metadata) (hmem _)
      (fun x hx y hy => hM x (mem_keys_of_mem_rangeOver _ _ x hx)
        y (mem_keys_of_mem_rangeOver _ _ y hy))
    rw [resolveMetadata_eq, resolveMetadata_eq]
    simp only [hfind]
    cases (rangeOver { E with rangeKeys := r2 } vargs.Metadata).find?
        (fun pattern => E.Glob pattern localPath) with
    | none => exact ⟨fun _ => rfl, rfl⟩
    | some p =>
      refine ⟨fun k => ?_, ?_⟩
      · exact (get?_foldl_range _ hE1 _ k).trans (get?_foldl_range _ hE2 _ k).symm
      · obtain ⟨a1, a2⟩ := keys_foldl_range _ hE1 ((vargs.Metadata.get? p).getD [])
        obtain ⟨b1, b2⟩ := keys_foldl_range _ hE2 ((vargs.Metadata.get? p).getD [])
        have hperm := (List.perm_ext_iff_of_nodup a1 b1).2 (fun k => (a2 k).trans (b2 k).symm)
        have := hperm.length_eq
        simpa [GoMap.keys, GoMap.len] using this

/-- C14, at a concrete input: a configuration whose access, content-type and
metadata mappings have two keys each, only one of which matches `index.html`,
resolved once visiting the keys in the written order and once in the reverse
order. The two orders differ for every mapping, the first puts the matching
key last and the second puts it first, and both resolutions give access
"public-read", content type `text/html` and the metadata pairs `a = 1` and
`c = 3`. -/
theorem resolution_deterministic_of_unique_match_witness :
    (rangeOver { demoEnv [] with rangeKeys := fun ks => ks } disjointArgs.Access.Map =
        ["*.css", "*.html"] ∧
      rangeOver { demoEnv [] with rangeKeys := List.reverse } disjointArgs.Access.Map =
        ["*.html", "*.css"] ∧
      rangeOver { demoEnv [] with rangeKeys := fun ks => ks } disjointArgs.Metadata =
        ["*.css", "*.html"] ∧
      rangeOver { demoEnv [] with rangeKeys := List.reverse } disjointArgs.Metadata =
        ["*.html", "*.css"] ∧
      resolveAccess { demoEnv [] with rangeKeys := List.reverse } disjointArgs "index.html" =
        "public-read" ∧
      resolveContentType { demoEnv [] with rangeKeys := List.reverse } disjointArgs
        "index.html" = "text/html" ∧
      (resolveMetadata { demoEnv [] with rangeKeys := fun ks => ks } disjointArgs
        "index.html").keys = ["a", "c"] ∧
      (resolveMetadata { demoEnv [] with rangeKeys := List.reverse } disjointArgs
        "index.html").keys = ["c", "a"]) ∧
    (resolveAccess { demoEnv [] with rangeKeys := fun ks => ks } disjointArgs "index.html" =
        resolveAccess { demoEnv [] with rangeKeys := List.reverse } disjointArgs
          "index.html" ∧
      resolveContentType { demoEnv [] with rangeKeys := fun ks => ks } disjointArgs
          "index.html" =
        resolveContentType { demoEnv [] with rangeKeys := List.reverse } disjointArgs
          "index.html" ∧
      (∀ k, (resolveMetadata { demoEnv [] with rangeKeys := fun ks => ks } disjointArgs
          "index.html").get? k =
        (resolveMetadata { demoEnv [] with rangeKeys := List.reverse } disjointArgs
          "index.html").get? k) ∧
      (resolveMetadata { demoEnv [] with rangeKeys := fun ks => ks } disjointArgs
          "index.html").len =
        (resolveMetadata { demoEnv [] with rangeKeys := List.reverse } disjointArgs
          "index.html").len) :=
  ⟨by decide,
    resolution_deterministic_of_unique_match (demoEnv []) (fun ks => ks) List.reverse
      (fun ks => List.Perm.refl ks) List.reverse_perm disjointArgs "index.html"
      (by decide) (by decide)⟩

/-- C14, as stated, fails: the same path resolved twice against the same
configuration, once visiting the keys of each mapping in the written order and
once in the reverse order, gets two different accesses and two different
metadata mappings. -/
theorem resolution_not_deterministic :
    (demoEnv []).RangeOK ∧ (reverseEnv []).RangeOK ∧
      resolveAccess (demoEnv []) overlapArgs "index.html" ≠
        resolveAccess (reverseEnv []) overlapArgs "index.html" ∧
      resolveMetadata (demoEnv []) overlapArgs "index.html" ≠
        resolveMetadata (reverseEnv []) overlapArgs "index.html" :=
  ⟨demoEnv_rangeOK [], reverseEnv_rangeOK [], by decide, by decide⟩

/-! ### `Cleanup` -/

theorem cleanupLoop_of_mem {σ : Type} (S : S3 σ) (a : AWS σ) (r : String)
    (rest : List String) (h : r ∈ a.locals) :
    cleanupLoop S a (r :: rest) = cleanupLoop S a rest := by
  have hany : a.locals.any (fun l => l == r) = true := by
    rw [locals_any_eq]; simpa using h
  rw [cleanupLoop]
  simp only [hany, Bool.not_true, Bool.false_eq_true, if_false]

theorem cleanupLoop_of_not_mem {σ : Type} (S : S3 σ) (a : AWS σ) (r : String)
    (rest : List String) (h : r ∉ a.locals) :
    cleanupLoop S a (r :: rest) =
      match S.DeleteObject { Bucket := a.vargs.Bucket, Key := r } a.client with
      | (.error e, c) =>
        ({ a with client := c, log := a.log ++ [deleteRequest a.vargs.Bucket r] }, some e)
      | (.ok _, c) =>
        cleanupLoop S { a with client := c, log := a.log ++ [deleteRequest a.vargs.Bucket r] }
          rest := by
  have hany : a.locals.any (fun l => l == r) = false := by
    rw [locals_any_eq]; simpa using h
  rcases hS : S.DeleteObject { Bucket := a.vargs.Bucket, Key := r } a.client with ⟨res, c⟩
  rw [cleanupLoop]
  simp only [hany, Bool.not_false, if_true, deleteRequest, hS]
  cases res <;> rfl

theorem cleanupLoop_succeeds {σ : Type} (S : S3 σ) (rest : List String) :
    ∀ (a : AWS σ) (c : σ),
      deleteAll S a.vargs.Bucket a.client (rest.filter (fun k => decide (k ∉ a.locals))) =
        some c →
      cleanupLoop S a rest =
        ({ a with
            client := c
            log := a.log ++ (rest.filter (fun k => decide (k ∉ a.locals))).map
              (deleteRequest a.vargs.Bucket) }, none) := by
  induction rest with
  | nil =>
    intro a c hall
    simp only [List.filter_nil, deleteAll, Option.some.injEq] at hall
    subst hall
    simp [cleanupLoop]
  | cons r rest ih =>
    intro a c hall
    by_cases hr : r ∈ a.locals
    · have hf : (r :: rest).filter (fun k => decide (k ∉ a.locals)) =
          rest.filter (fun k => decide (k ∉ a.locals)) := by
        simp [List.filter_cons, hr]
      rw [hf] at hall ⊢
      rw [cleanupLoop_of_mem S a r rest hr]
      exact ih a c hall
    · have hf : (r :: rest).filter (fun k => decide (k ∉ a.locals)) =
          r :: rest.filter (fun k => decide (k ∉ a.locals)) := by
        simp [List.filter_cons, hr]
      rw [hf] at hall ⊢
      rw [cleanupLoop_of_not_mem S a r rest hr]
      rw [deleteAll] at hall
      rcases hS : S.DeleteObject { Bucket := a.vargs.Bucket, Key := r } a.client with ⟨res, c1⟩
      rw [hS] at hall
      cases res with
      | error e1 => simp at hall
      | ok u =>
        simp only at hall ⊢
        rw [ih { a with client := c1, log := a.log ++ [deleteRequest a.vargs.Bucket r] } c hall]
        simp

/-- C15: when no delete fails, `Cleanup` returns no error and sends, one after
another and in inventory order, a DeleteObject for each inventory key that is
not (by string equality) in the reference set, and nothing else: no key of the
reference set is deleted, and a key that the inventory holds once is deleted
once. -/
theorem cleanup_deletes_orphans {σ : Type} (S : S3 σ) (a : AWS σ) (c : σ)
    (hall : deleteAll S a.vargs.Bucket a.client (orphans a) = some c) :
    a.Cleanup S =
        ({ a with
            client := c
            log := a.log ++ (orphans a).map (deleteRequest a.vargs.Bucket) }, none) ∧
      (∀ k, k ∈ orphans a ↔ k ∈ a.remote ∧ k ∉ a.locals) ∧
      (∀ k, k ∈ a.remote → k ∉ a.locals → a.remote.count k = 1 → (orphans a).count k = 1) := by
  refine ⟨cleanupLoop_succeeds S a.remote a c hall, fun k => ?_, fun k _ hk hc => ?_⟩
  · simp [orphans, List.mem_filter]
  · unfold orphans
    rw [List.count_filter (by simpa using hk)]
    exact hc

/-- C15, at a concrete input: Scenario A's orphan key `old.js`. -/
theorem cleanup_deletes_orphans_witness :
    (scenarioABeforeCleanup.Cleanup (bucketS3 demoDigest)).2 = none ∧
      (scenarioABeforeCleanup.Cleanup (bucketS3 demoDigest)).1.log =
        [Request.deleteObject { Bucket := "bucket", Key := "old.js" }] := by
  have h := (cleanup_deletes_orphans (bucketS3 demoDigest) scenarioABeforeCleanup
    { scenarioABucket with
      objects := scenarioABucket.objects.filter (fun ko => ko.1 != "old.js") }
    (by decide)).1
  rw [h]
  decide

theorem cleanupLoop_fails {σ : Type} (S : S3 σ) (k : String) (post : List String) (e : Error)
    (pre : List String) :
    ∀ (a : AWS σ) (c c' : σ), k ∉ a.locals →
      deleteAll S a.vargs.Bucket a.client (pre.filter (fun x => decide (x ∉ a.locals))) =
        some c →
      S.DeleteObject { Bucket := a.vargs.Bucket, Key := k } c = (.error e, c') →
      cleanupLoop S a (pre ++ k :: post) =
        ({ a with
            client := c'
            log := a.log ++ (pre.filter (fun x => decide (x ∉ a.locals)) ++ [k]).map
              (deleteRequest a.vargs.Bucket) }, some e) := by
  induction pre with
  | nil =>
    intro a c c' hk hall hfail
    simp only [List.filter_nil, deleteAll, Option.some.injEq] at hall
    subst hall
    rw [List.nil_append, cleanupLoop_of_not_mem S a k post hk, hfail]
    simp
  | cons r pre ih =>
    intro a c c' hk hall hfail
    by_cases hr : r ∈ a.locals
    · have hf : (r :: pre).filter (fun x => decide (x ∉ a.locals)) =
          pre.filter (fun x => decide (x ∉ a.locals)) := by
        simp [List.filter_cons, hr]
      rw [hf] at hall ⊢
      rw [List.cons_append, cleanupLoop_of_mem S a r _ hr]
      exact ih a c c' hk hall hfail
    · have hf : (r :: pre).filter (fun x => decide (x ∉ a.locals)) =
          r :: pre.filter (fun x => decide (x ∉ a.locals)) := by
        simp [List.filter_cons, hr]
      rw [hf] at hall ⊢
      rw [List.cons_append, cleanupLoop_of_not_mem S a r _ hr]
      rw [deleteAll] at hall
      rcases hS : S.DeleteObject { Bucket := a.vargs.Bucket, Key := r } a.client with ⟨res, c1⟩
      rw [hS] at hall
      cases res with
      | error e1 => simp at hall
      | ok u =>
        simp only at hall ⊢
        rw [ih { a with client := c1, log := a.log ++ [deleteRequest a.vargs.Bucket r] } c c'
          hk hall hfail]
        simp

/-- C17: if, after the deletes of the earlier orphan keys have succeeded, the
DeleteObject of an orphan key fails, `Cleanup` returns that error unchanged; its
log ends with the failed request, so no delete is sent for any later inventory
key, and the deletes sent before it stay in effect (the backend is left in the
state after them, nothing is sent to undo them). -/
theorem cleanup_stops_at_failed_delete {σ : Type} (S : S3 σ) (a : AWS σ)
    (pre post : List String) (k : String) (c c' : σ) (e : Error)
    (hsplit : a.remote = pre ++ k :: post) (hk : k ∉ a.locals)
    (hall : deleteAll S a.vargs.Bucket a.client
      (pre.filter (fun x => decide (x ∉ a.locals))) = some c)
    (hfail : S.DeleteObject { Bucket := a.vargs.Bucket, Key := k } c = (.error e, c')) :
    a.Cleanup S =
      ({ a with
          client := c'
          log := a.log ++ (pre.filter (fun x => decide (x ∉ a.locals)) ++ [k]).map
            (deleteRequest a.vargs.Bucket) }, some e) := by
  have h := cleanupLoop_fails S k post e pre a c c' hk hall hfail
  rw [← hsplit] at h
  exact h

/-- C17, at a concrete input: the orphans `a`, `b`, `c`, of which `b` cannot
be deleted: `a` is gone, `b` and `c` remain, and the error is returned. -/
theorem cleanup_stops_at_failed_delete_witness :
    (orphanState.Cleanup (refusingDelete "b")).2 = some "AccessDenied" ∧
      (orphanState.Cleanup (refusingDelete "b")).1.log =
        [Request.deleteObject { Bucket := "bucket", Key := "a" },
          Request.deleteObject { Bucket := "bucket", Key := "b" }] ∧
      (orphanState.Cleanup (refusingDelete "b")).1.client.objects.map Prod.fst = ["b", "c"] := by
  have h := cleanup_stops_at_failed_delete (refusingDelete "b") orphanState ["", "a"] ["c"] "b"
    { orphanBucket with objects := orphanBucket.objects.filter (fun ko => ko.1 != "a") }
    { orphanBucket with objects := orphanBucket.objects.filter (fun ko => ko.1 != "a") }
    "AccessDenied" rfl (by decide) (by decide) (by decide)
  rw [h]
  decide

/-! ### `List` -/

theorem listLoop_pages {σ : Type} (S : S3 σ) (path : String) (rest : List ListObjectsOutput) :
    ∀ (fuel : Nat) (a : AWS σ) (trunc : Bool), a.remote ≠ [] →
      (trunc = true ↔ rest ≠ []) → (rest ≠ [] → paged rest = true) →
      answers S a.client (continuations a.vargs.Bucket path a.remote rest) = some rest →
      rest.length ≤ fuel →
      ∃ a', listLoop S path fuel a trunc = some (a', none) ∧
        a'.remote = a.remote ++ (rest.map (fun o => o.Contents)).flatten ∧
        a'.log = a.log ++
          (continuations a.vargs.Bucket path a.remote rest).map Request.listObjects ∧
        a'.locals = a.locals ∧ a'.vargs = a.vargs := by
  induction rest with
  | nil =>
    intro fuel a trunc _ ht _ _ _
    have htf : trunc = false := by
      cases trunc with
      | false => rfl
      | true => exact absurd rfl (ht.1 rfl)
    subst htf
    refine ⟨a, ?_, by simp, by simp [continuations], rfl, rfl⟩
    cases fuel <;> simp [listLoop]
  | cons o os ih =>
    intro fuel a trunc hne ht hp hans hfuel
    have htt : trunc = true := ht.2 (List.cons_ne_nil _ _)
    subst htt
    obtain ⟨m, hm⟩ : ∃ m, a.remote.getLast? = some m :=
      ⟨_, List.getLast?_eq_getLast _ hne⟩
    cases fuel with
    | zero => simp at hfuel
    | succ fuel =>
      simp only [continuations, answers] at hans
      rcases hS : S.ListObjects
          { Bucket := a.vargs.Bucket, Prefix := path, Marker := a.remote.getLast? }
          a.client with ⟨res, c⟩
      rw [hS] at hans
      cases res with
      | error e => simp at hans
      | ok o1 =>
        simp only [Option.map_eq_some'] at hans
        obtain ⟨os1, hans1, hcons⟩ := hans
        obtain ⟨rfl, rfl⟩ := List.cons.inj hcons
        have hpaged := hp (List.cons_ne_nil _ _)
        have hnext : (o1.IsTruncated = true ↔ os1 ≠ []) ∧ (os1 ≠ [] → paged os1 = true) := by
          cases os1 with
          | nil => simpa [paged] using hpaged
          | cons o2 os2 =>
            simp only [paged, Bool.and_eq_true] at hpaged
            exact ⟨⟨fun _ => List.cons_ne_nil _ _, fun _ => hpaged.1⟩, fun _ => hpaged.2⟩
        rw [hm] at hS
        obtain ⟨a', h1, h2, h3, h4, h5⟩ := ih fuel
          { a with
            client := c
            log := a.log ++ [Request.listObjects
              { Bucket := a.vargs.Bucket, Prefix := path, Marker := some m }]
            remote := a.remote ++ o1.Contents }
          o1.IsTruncated (by simp [hne]) hnext.1 hnext.2 hans1 (by simpa using hfuel)
        refine ⟨a', ?_, ?_, ?_, h4, h5⟩
        · simp only [listLoop, hm, hS]
          exact h1
        · rw [h2]; simp
        · rw [h3]; simp [continuations, hm]

theorem continuations_get? (bucket path : String) (done : List ListObjectsOutput) :
    ∀ (remote : List String) (next : ListObjectsOutput) (later : List ListObjectsOutput),
      (continuations bucket path remote (done ++ next :: later))[done.length]? =
        some
          { Bucket := bucket, Prefix := path
            Marker := (remote ++ (done.map (fun o => o.Contents)).flatten).getLast? } := by
  induction done with
  | nil => intro remote next later; simp [continuations]
  | cons o os ih =>
    intro remote next later
    have h := ih (remote ++ o.Contents) next later
    simpa [continuations, List.append_assoc] using h

/-- C16: if the backend answers the requests of `List` with a finite sequence
of pages, all but the last reported as truncated, and never fails, then `List`
returns without error (given one round per page), appends to the inventory
exactly the keys of all pages in page order, and sends one request per page:
the first without marker, each later one, sent after the pages `done`, with
the last entry of the inventory collected so far as marker, and none after the
page that is not truncated. -/
theorem list_collects_pages {σ : Type} (S : S3 σ) (a : AWS σ) (path : String)
    (first : ListObjectsOutput) (rest : List ListObjectsOutput) (fuel : Nat)
    (hne : a.remote ≠ []) (hpaged : paged (first :: rest) = true)
    (hans : answers S a.client
      ({ Bucket := a.vargs.Bucket, Prefix := path, Marker := none } ::
        continuations a.vargs.Bucket path (a.remote ++ first.Contents) rest) =
      some (first :: rest))
    (hfuel : rest.length ≤ fuel) :
    ∃ a', a.List S fuel path = some (a', none) ∧
      a'.remote = a.remote ++ ((first :: rest).map (fun o => o.Contents)).flatten ∧
      a'.log = a.log ++
        (({ Bucket := a.vargs.Bucket, Prefix := path, Marker := none } : ListObjectsInput) ::
          continuations a.vargs.Bucket path (a.remote ++ first.Contents) rest).map
            Request.listObjects ∧
      a'.log.length = a.log.length + (first :: rest).length ∧
      ∀ done next later, first :: rest = done ++ next :: later → done ≠ [] →
        a'.log[a.log.length + done.length]? =
          some (Request.listObjects
            { Bucket := a.vargs.Bucket, Prefix := path
              Marker := (a.remote ++ (done.map (fun o => o.Contents)).flatten).getLast? }) := by
  simp only [answers] at hans
  rcases hS : S.ListObjects { Bucket := a.vargs.Bucket, Prefix := path, Marker := none }
      a.client with ⟨res, c⟩
  rw [hS] at hans
  cases res with
  | error e => simp at hans
  | ok o1 =>
    simp only [Option.map_eq_some'] at hans
    obtain ⟨os1, hans1, hcons⟩ := hans
    obtain ⟨rfl, rfl⟩ := List.cons.inj hcons
    have hnext : (o1.IsTruncated = true ↔ os1 ≠ []) ∧ (os1 ≠ [] → paged os1 = true) := by
      cases os1 with
      | nil => simpa [paged] using hpaged
      | cons o2 os2 =>
        simp only [paged, Bool.and_eq_true] at hpaged
        exact ⟨⟨fun _ => List.cons_ne_nil _ _, fun _ => hpaged.1⟩, fun _ => hpaged.2⟩
    obtain ⟨a', h1, h2, h3, h4, h5⟩ := listLoop_pages S path os1 fuel
      { a with
        client := c
        log := a.log ++ [Request.listObjects
          { Bucket := a.vargs.Bucket, Prefix := path, Marker := none }]
        remote := a.remote ++ o1.Contents }
      o1.IsTruncated (by simp [hne]) hnext.1 hnext.2 hans1 hfuel
    have hlog : a'.log = a.log ++
        (({ Bucket := a.vargs.Bucket, Prefix := path, Marker := none } : ListObjectsInput) ::
          continuations a.vargs.Bucket path (a.remote ++ o1.Contents) os1).map
            Request.listObjects := by
      rw [h3]; simp
    have hclen : ∀ (remote : List String) (ps : List ListObjectsOutput),
        (continuations a.vargs.Bucket path remote ps).length = ps.length := by
      intro remote ps
      induction ps generalizing remote with
      | nil => rfl
      | cons p ps ih => simp [continuations, ih]
    refine ⟨a', ?_, ?_, hlog, ?_, ?_⟩
    · simp only [AWS.List, hS]
      exact h1
    · rw [h2]; simp
    · rw [hlog]; simp [hclen]
    · intro done next later hsplit hdone
      cases done with
      | nil => exact absurd rfl hdone
      | cons d ds =>
        obtain ⟨rfl, hrest⟩ := List.cons.inj hsplit
        rw [hlog, hrest, List.getElem?_append_right (by simp)]
        simp only [List.length_cons, List.map_cons, Nat.add_sub_cancel_left,
          List.getElem?_cons_succ, List.getElem?_map, List.flatten_cons]
        have hc := continuations_get? a.vargs.Bucket path ds (a.remote ++ o1.Contents) next later
        rw [List.append_assoc] at hc
        exact (congrArg (Option.map Request.listObjects) hc).trans rfl

/-- C16, at a concrete input: a bucket with the keys `a`, `b`, `c`, listed one
key to a page. -/
theorem list_collects_pages_witness :
    ∃ a', (NewAWS pagedBucket (demoArgs "" .absent)).List (bucketS3 demoDigest) 2 "" =
        some (a', none) ∧
      a'.remote = ["", "a", "b", "c"] ∧
      a'.log =
        [Request.listObjects { Bucket := "bucket", Prefix := "", Marker := none },
          Request.listObjects { Bucket := "bucket", Prefix := "", Marker := some "a" },
          Request.listObjects { Bucket := "bucket", Prefix := "", Marker := some "b" }] := by
  obtain ⟨a', h1, h2, h3, -⟩ := list_collects_pages (bucketS3 demoDigest)
    (NewAWS pagedBucket (demoArgs "" .absent)) ""
    { Contents := ["a"], IsTruncated := true }
    [{ Contents := ["b"], IsTruncated := true }, { Contents := ["c"], IsTruncated := false }]
    2 (by decide) (by decide) (by decide) (by decide)
  exact ⟨a', h1, h2.trans (by decide), h3.trans (by decide)⟩

/-! ### The derived access -/

theorem previousAccess_mem (grants : List Grant) :
    previousAccess grants ∈ ["private", "public-read", "public-read-write"] := by
  rw [previousAccess, previousAccess_foldl]
  cases (grants.filter isAllUsersReadWrite).getLast? with
  | none => simp
  | some g => by_cases h : g.Permission = "READ" <;> simp [h]

/-- C18: the access derived from a list of grants is "private", "public-read"
or "public-read-write" and never "authenticated-read": the step of the loop
returns "authenticated-read" only if that was already the value before the
step, since its second test of the grantee URI repeats the first. -/
theorem previousAccess_never_authenticated_read (grants : List Grant) :
    previousAccess grants ∈ ["private", "public-read", "public-read-write"] ∧
      previousAccess grants ≠ "authenticated-read" ∧
      ∀ prev g, previousAccessStep prev g = "authenticated-read" →
        prev = "authenticated-read" := by
  refine ⟨previousAccess_mem grants, ?_, ?_⟩
  · intro h
    have hm := previousAccess_mem grants
    rw [h] at hm
    revert hm
    decide
  · intro prev g h
    unfold previousAccessStep at h
    cases huri : g.Grantee.URI with
    | none => simpa [huri] using h
    | some uri =>
      rw [huri] at h
      by_cases hu : uri = "http://acs.amazonaws.com/groups/global/AllUsers"
      · simp only [hu, if_true] at h
        by_cases hr : g.Permission = "READ"
        · rw [if_pos hr] at h
          exact absurd h (by decide)
        · rw [if_neg hr] at h
          by_cases hw : g.Permission = "WRITE"
          · rw [if_pos hw] at h
            exact absurd h (by decide)
          · rw [if_neg hw] at h
            exact h
      · simpa [hu] using h

/-- C18, at a concrete input: the grants of the canned access
"authenticated-read" derive "private". -/
theorem previousAccess_never_authenticated_read_witness :
    previousAccess [ownerGrant, authenticatedUsersGrant "READ"] ≠ "authenticated-read" ∧
      (previousAccessStep "private" (authenticatedUsersGrant "READ") = "authenticated-read" →
        "private" = "authenticated-read") :=
  ⟨(previousAccess_never_authenticated_read [ownerGrant, authenticatedUsersGrant "READ"]).2.1,
    (previousAccess_never_authenticated_read []).2.2 "private"
      (authenticatedUsersGrant "READ")⟩

/-- The access rule where the existence test of `visit` succeeds: for a file
whose relative path is in the inventory, whose HeadObject
succeeds with an ETag equal to the local hash and whose GetObjectAcl succeeds,
if the resolved access is none of "private", "public-read" and
"public-read-write", `visit` does not skip: whatever the grants, and also when
content type and metadata are judged unchanged, its only write is the
CopyObject of the metadata update. -/
theorem visit_copies_for_other_access {σ : Type} (E : Env) (S : S3 σ) (a : AWS σ)
    (path : String) (info : FileInfo) (file : File) (head : HeadObjectOutput) (c : σ)
    (grant : GetObjectAclOutput) (c' : σ)
    (hpath : path ≠ ".") (hdir : info.IsDir = false) (hopen : E.Open path = .ok file)
    (hex : localPathOf a.vargs.Source path ∈ a.remote)
    (hhead : S.HeadObject
      { Bucket := a.vargs.Bucket, Key := Join a.vargs.Target (localPathOf a.vargs.Source path) }
      a.client = (.ok head, c))
    (hsum : "\"" ++ E.md5hex file.content ++ "\"" = head.ETag)
    (hacl : S.GetObjectAcl
      { Bucket := a.vargs.Bucket, Key := Join a.vargs.Target (localPathOf a.vargs.Source path) }
      c = (.ok grant, c'))
    (hother : resolveAccess E a.vargs (localPathOf a.vargs.Source path) ∉
      ["private", "public-read", "public-read-write"]) :
    writesOf ((a.visit E S path info none).1.log.drop a.log.length) =
      [Request.copyObject (copyInput a.vargs.Bucket
        (Join a.vargs.Target (localPathOf a.vargs.Source path))
        (resolveContentType E a.vargs (localPathOf a.vargs.Source path))
        (resolveAccess E a.vargs (localPathOf a.vargs.Source path))
        (resolveMetadata E a.vargs (localPathOf a.vargs.Source path)))] := by
  obtain ⟨h1, h2⟩ :=
    visit_log_of_hash_match E S a path info file head c hpath hdir hopen hex hhead hsum
  cases hct : contentTypeChanged head.ContentType
      (resolveContentType E a.vargs (localPathOf a.vargs.Source path)) with
  | true => exact h1 (Or.inl hct)
  | false =>
    cases hmd : metadataChanged E head.Metadata
        (resolveMetadata E a.vargs (localPathOf a.vargs.Source path)) with
    | true => exact h1 (Or.inr hmd)
    | false =>
      refine (h2 hct hmd grant c' hacl).1 (fun heq => hother ?_)
      rw [← heq]
      exact previousAccess_mem grant.Grants

/-- The access rule at a concrete input: access "authenticated-read", and a
remote object that already carries the grants of that canned access. -/
theorem visit_copies_for_other_access_witness :
    writesOf (((afterList (bucketS3 demoDigest) 5 authenticatedArgs authenticatedBucket).visit
        (demoEnv [("dist/index.html", [1, 2])]) (bucketS3 demoDigest) "dist/index.html"
        ⟨false⟩ none).1.log.drop
        (afterList (bucketS3 demoDigest) 5 authenticatedArgs authenticatedBucket).log.length) =
      [Request.copyObject
        { Bucket := "bucket", Key := "index.html", CopySource := "bucket/index.html",
          ACL := "authenticated-read", ContentType := "text/html; charset=utf-8",
          Metadata := [], MetadataDirective := "REPLACE" }] :=
  visit_copies_for_other_access (demoEnv [("dist/index.html", [1, 2])]) (bucketS3 demoDigest)
    (afterList (bucketS3 demoDigest) 5 authenticatedArgs authenticatedBucket) "dist/index.html"
    ⟨false⟩ ⟨[1, 2], none⟩ ⟨"\"0102\"", some "text/html; charset=utf-8", []⟩
    authenticatedBucket ⟨[ownerGrant, authenticatedUsersGrant "READ"]⟩ authenticatedBucket
    (by decide) rfl rfl (by decide) rfl (by decide) rfl (by decide)

/-- C19, evaluated at a failing input: with the target prefix `site` and access
"authenticated-read", the bucket holds `site/index.html`, the object at the
target key of `dist/index.html`, with an ETag equal to the local hash; the
HeadObject and the GetObjectAcl of that key succeed; yet the only request of
`visit` is the PutObject of the whole file, and no CopyObject is sent, because
the inventory holds the key `site/index.html` and the existence test looks for
`index.html`. -/
theorem visit_uploads_for_other_access_under_prefix :
    Join authenticatedPrefixArgs.Target
        (localPathOf authenticatedPrefixArgs.Source "dist/index.html") = "site/index.html" ∧
      (afterList (bucketS3 demoDigest) 5 authenticatedPrefixArgs
        authenticatedPrefixBucket).remote = ["", "site/index.html"] ∧
      (afterList (bucketS3 demoDigest) 5 authenticatedPrefixArgs
        authenticatedPrefixBucket).client = authenticatedPrefixBucket ∧
      (bucketS3 demoDigest).HeadObject ⟨"bucket", "site/index.html"⟩
          authenticatedPrefixBucket =
        (.ok ⟨"\"" ++ demoDigest [1, 2] ++ "\"", some "text/html; charset=utf-8", []⟩,
          authenticatedPrefixBucket) ∧
      (bucketS3 demoDigest).GetObjectAcl ⟨"bucket", "site/index.html"⟩
          authenticatedPrefixBucket =
        (.ok ⟨[ownerGrant, authenticatedUsersGrant "READ"]⟩, authenticatedPrefixBucket) ∧
      resolveAccess (demoEnv [("dist/index.html", [1, 2])]) authenticatedPrefixArgs
        "index.html" = "authenticated-read" ∧
      ((afterList (bucketS3 demoDigest) 5 authenticatedPrefixArgs
          authenticatedPrefixBucket).visit
          (demoEnv [("dist/index.html", [1, 2])]) (bucketS3 demoDigest) "dist/index.html"
          ⟨false⟩ none).1.log.drop
          (afterList (bucketS3 demoDigest) 5 authenticatedPrefixArgs
            authenticatedPrefixBucket).log.length =
        [Request.putObject
          { Bucket := "bucket", Key := "site/index.html", Body := some [1, 2],
            ContentType := some "text/html; charset=utf-8", ACL := some "authenticated-read",
            Metadata := [], WebsiteRedirectLocation := none }] := by
  decide

/-! ### What the methods leave untouched -/

theorem upload_frame {σ : Type} (S : S3 σ) (a : AWS σ) (remotePath : String) (file : File)
    (contentType access : String) (metadata : GoMap String) :
    (upload S a remotePath file contentType access metadata).1.remote = a.remote ∧
      (upload S a remotePath file contentType access metadata).1.locals = a.locals := by
  simp [upload]

theorem updateMetadata_frame {σ : Type} (S : S3 σ) (a : AWS σ) (remotePath : String)
    (contentType access : String) (metadata : GoMap String) :
    (updateMetadata S a remotePath contentType access metadata).1.remote = a.remote ∧
      (updateMetadata S a remotePath contentType access metadata).1.locals = a.locals := by
  simp [updateMetadata]

theorem sameHash_frame {σ : Type} (E : Env) (S : S3 σ) (a : AWS σ) (remotePath : String)
    (head : HeadObjectOutput) (contentType access : String) (metadata : GoMap String) :
    (sameHash E S a remotePath head contentType access metadata).1.remote = a.remote ∧
      (sameHash E S a remotePath head contentType access metadata).1.locals = a.locals := by
  by_cases hch : contentTypeChanged head.ContentType contentType = true ∨
      metadataChanged E head.Metadata metadata = true
  · rw [sameHash_of_changed E S a remotePath head contentType access metadata hch]
    exact updateMetadata_frame S _ _ _ _ _
  · have hct : contentTypeChanged head.ContentType contentType = false := by
      cases h : contentTypeChanged head.ContentType contentType with
      | false => rfl
      | true => exact absurd (Or.inl h) hch
    have hmd : metadataChanged E head.Metadata metadata = false := by
      cases h : metadataChanged E head.Metadata metadata with
      | false => rfl
      | true => exact absurd (Or.inr h) hch
    rcases hS : S.GetObjectAcl { Bucket := a.vargs.Bucket, Key := remotePath } a.client
      with ⟨res, c⟩
    cases res with
    | error e =>
      rw [sameHash_of_acl_error E S a remotePath head contentType access metadata e c hct hmd
        hS]
      exact ⟨rfl, rfl⟩
    | ok grant =>
      rw [sameHash_of_unchanged E S a remotePath head contentType access metadata grant c hct
        hmd hS]
      split
      · exact updateMetadata_frame S _ _ _ _ _
      · exact ⟨rfl, rfl⟩

theorem visit_frame {σ : Type} (E : Env) (S : S3 σ) (a : AWS σ) (path : String)
    (info : FileInfo) (err : Option Error) :
    (a.visit E S path info err).1.remote = a.remote ∧
      ∀ x ∈ a.locals, x ∈ (a.visit E S path info err).1.locals := by
  cases err with
  | some e => simp [AWS.visit]
  | none =>
    by_cases hpath : path = "."
    · simp [AWS.visit, hpath]
    · cases hdir : info.IsDir with
      | true => simp [AWS.visit, hpath, hdir]
      | false =>
        cases hopen : E.Open path with
        | error e => simp [AWS.visit, hpath, hdir, hopen]; intro x hx; exact Or.inl hx
        | ok file =>
          by_cases hex : localPathOf a.vargs.Source path ∈ a.remote
          · rcases hS : S.HeadObject
                { Bucket := a.vargs.Bucket,
                  Key := Join a.vargs.Target (localPathOf a.vargs.Source path) } a.client
              with ⟨res, c⟩
            cases res with
            | error e =>
              have hany : a.remote.any
                  (fun remoteFile => remoteFile == localPathOf a.vargs.Source path) = true :=
                List.any_eq_true.2 ⟨_, hex, by simp⟩
              simp [AWS.visit, hpath, hdir, hopen, hany, hS]
              intro x hx; exact Or.inl hx
            | ok head =>
              by_cases hsum : "\"" ++ E.md5hex file.content ++ "\"" = head.ETag
              · rw [visit_of_hash_match E S a path info file head c hpath hdir hopen hex hS hsum]
                obtain ⟨h1, h2⟩ := sameHash_frame E S
                  { a with
                    client := c
                    locals := a.locals ++ [localPathOf a.vargs.Source path]
                    log := a.log ++ [Request.headObject
                      { Bucket := a.vargs.Bucket,
                        Key := Join a.vargs.Target (localPathOf a.vargs.Source path) }] }
                  (Join a.vargs.Target (localPathOf a.vargs.Source path)) head
                  (resolveContentType E a.vargs (localPathOf a.vargs.Source path))
                  (resolveAccess E a.vargs (localPathOf a.vargs.Source path))
                  (resolveMetadata E a.vargs (localPathOf a.vargs.Source path))
                refine ⟨h1, fun x hx => ?_⟩
                rw [h2]
                exact List.mem_append_left _ hx
              · rw [visit_of_hash_mismatch E S a path info file head c hpath hdir hopen hex hS
                  hsum]
                cases file.seekErr with
                | some e => exact ⟨rfl, fun x hx => List.mem_append_left _ hx⟩
                | none =>
                  obtain ⟨h1, h2⟩ := upload_frame S
                    { a with
                      client := c
                      locals := a.locals ++ [localPathOf a.vargs.Source path]
                      log := a.log ++ [Request.headObject
                        { Bucket := a.vargs.Bucket,
                          Key := Join a.vargs.Target (localPathOf a.vargs.Source path) }] }
                    (Join a.vargs.Target (localPathOf a.vargs.Source path)) file
                    (resolveContentType E a.vargs (localPathOf a.vargs.Source path))
                    (resolveAccess E a.vargs (localPathOf a.vargs.Source path))
                    (resolveMetadata E a.vargs (localPathOf a.vargs.Source path))
                  refine ⟨h1, fun x hx => ?_⟩
                  simp only
                  rw [h2]
                  exact List.mem_append_left _ hx
          · rw [visit_of_absent E S a path info file hpath hdir hopen hex]
            obtain ⟨h1, h2⟩ := upload_frame S
              { a with locals := a.locals ++ [localPathOf a.vargs.Source path] }
              (Join a.vargs.Target (localPathOf a.vargs.Source path)) file
              (resolveContentType E a.vargs (localPathOf a.vargs.Source path))
              (resolveAccess E a.vargs (localPathOf a.vargs.Source path))
              (resolveMetadata E a.vargs (localPathOf a.vargs.Source path))
            refine ⟨h1, fun x hx => ?_⟩
            rw [h2]
            exact List.mem_append_left _ hx

theorem addRedirectsLoop_frame {σ : Type} (S : S3 σ) (redirects : GoMap String)
    (paths : List String) :
    ∀ a : AWS σ, (addRedirectsLoop S redirects a paths).1.remote = a.remote ∧
      ∀ x ∈ a.locals, x ∈ (addRedirectsLoop S redirects a paths).1.locals := by
  induction paths with
  | nil => intro a; exact ⟨rfl, fun x hx => hx⟩
  | cons p rest ih =>
    intro a
    rcases hS : S.PutObject
        { Bucket := a.vargs.Bucket, Key := p, Body := none, ContentType := none,
          ACL := some "public-read", Metadata := [],
          WebsiteRedirectLocation := some ((redirects.get? p).getD "") } a.client
      with ⟨res, c⟩
    cases res with
    | error e =>
      rw [addRedirectsLoop]
      simp only [hS]
      exact ⟨trivial, fun x hx => List.mem_append_left _ hx⟩
    | ok u =>
      rw [addRedirectsLoop]
      simp only [hS]
      obtain ⟨h1, h2⟩ := ih
        { a with
          client := c
          locals := a.locals ++ [TrimPrefix p "/"]
          log := a.log ++ [Request.putObject
            { Bucket := a.vargs.Bucket, Key := p, Body := none, ContentType := none,
              ACL := some "public-read", Metadata := [],
              WebsiteRedirectLocation := some ((redirects.get? p).getD "") }] }
      exact ⟨h1, fun x hx => h2 x (List.mem_append_left _ hx)⟩

theorem listLoop_frame {σ : Type} (S : S3 σ) (path : String) (fuel : Nat) :
    ∀ (a a' : AWS σ) (trunc : Bool) (err : Option Error),
      listLoop S path fuel a trunc = some (a', err) →
      (∀ x ∈ a.remote, x ∈ a'.remote) ∧ a'.locals = a.locals ∧
        (a.remote ≠ [] → ∀ e, err = some e → ∃ i c, (S.ListObjects i c).1 = .error e) := by
  induction fuel with
  | zero =>
    intro a a' trunc err h
    cases trunc with
    | false =>
      simp only [listLoop, Option.some.injEq, Prod.mk.injEq] at h
      obtain ⟨rfl, rfl⟩ := h
      exact ⟨fun x hx => hx, rfl, fun _ e he => by cases he⟩
    | true => simp [listLoop] at h
  | succ fuel ih =>
    intro a a' trunc err h
    cases trunc with
    | false =>
      simp only [listLoop, Option.some.injEq, Prod.mk.injEq] at h
      obtain ⟨rfl, rfl⟩ := h
      exact ⟨fun x hx => hx, rfl, fun _ e he => by cases he⟩
    | true =>
      cases hm : a.remote.getLast? with
      | none =>
        simp only [listLoop, hm, Option.some.injEq, Prod.mk.injEq] at h
        obtain ⟨rfl, rfl⟩ := h
        refine ⟨fun x hx => hx, rfl, fun hne => ?_⟩
        exact absurd (List.getLast?_eq_none_iff.1 hm) hne
      | some m =>
        rcases hS : S.ListObjects { Bucket := a.vargs.Bucket, Prefix := path, Marker := some m }
            a.client with ⟨res, c⟩
        cases res with
        | error e =>
          simp only [listLoop, hm, hS, Option.some.injEq, Prod.mk.injEq] at h
          obtain ⟨rfl, rfl⟩ := h
          refine ⟨fun x hx => hx, rfl, fun _ e' he' => ?_⟩
          obtain rfl := Option.some.inj he'
          exact ⟨_, _, by rw [hS]⟩
        | ok resp =>
          simp only [listLoop, hm, hS] at h
          obtain ⟨h1, h2, h3⟩ := ih _ a' resp.IsTruncated err h
          refine ⟨fun x hx => h1 x (List.mem_append_left _ hx), h2, fun hne => ?_⟩
          exact h3 (by simp [hne])

theorem List_frame {σ : Type} (S : S3 σ) (path : String) (fuel : Nat)
    (a a' : AWS σ) (err : Option Error) (h : a.List S fuel path = some (a', err)) :
    (∀ x ∈ a.remote, x ∈ a'.remote) ∧ a'.locals = a.locals ∧
      (a.remote ≠ [] → ∀ e, err = some e → ∃ i c, (S.ListObjects i c).1 = .error e) := by
  rcases hS : S.ListObjects { Bucket := a.vargs.Bucket, Prefix := path, Marker := none }
      a.client with ⟨res, c⟩
  cases res with
  | error e =>
    simp only [AWS.List, hS, Option.some.injEq, Prod.mk.injEq] at h
    obtain ⟨rfl, rfl⟩ := h
    refine ⟨fun x hx => hx, rfl, fun _ e' he' => ?_⟩
    obtain rfl := Option.some.inj he'
    exact ⟨_, _, by rw [hS]⟩
  | ok resp =>
    simp only [AWS.List, hS] at h
    obtain ⟨h1, h2, h3⟩ := listLoop_frame S path fuel _ a' resp.IsTruncated err h
    refine ⟨fun x hx => h1 x (List.mem_append_left _ hx), h2, fun hne => ?_⟩
    exact h3 (by simp [hne])

theorem cleanupLoop_deletes {σ : Type} (S : S3 σ) (rest : List String) :
    ∀ a : AWS σ, ∃ new, (cleanupLoop S a rest).1.log = a.log ++ new ∧
      ∀ i, Request.deleteObject i ∈ new → i.Key ∉ a.locals := by
  induction rest with
  | nil => intro a; exact ⟨[], by simp [cleanupLoop], fun i hi => by cases hi⟩
  | cons r rest ih =>
    intro a
    by_cases hr : r ∈ a.locals
    · have hany : a.locals.any (fun l => l == r) = true := by
        rw [locals_any_eq]; simpa using hr
      rw [cleanupLoop]
      simp only [hany, Bool.not_true, Bool.false_eq_true, if_false]
      exact ih a
    · have hany : a.locals.any (fun l => l == r) = false := by
        rw [locals_any_eq]; simpa using hr
      rcases hS : S.DeleteObject { Bucket := a.vargs.Bucket, Key := r } a.client with ⟨res, c⟩
      rw [cleanupLoop]
      simp only [hany, Bool.not_false, if_true, hS]
      cases res with
      | error e =>
        refine ⟨[Request.deleteObject { Bucket := a.vargs.Bucket, Key := r }], rfl, ?_⟩
        intro i hi
        simp only [List.mem_singleton, Request.deleteObject.injEq] at hi
        rw [hi]; exact hr
      | ok u =>
        obtain ⟨new, h1, h2⟩ := ih
          { a with
            client := c
            log := a.log ++ [Request.deleteObject { Bucket := a.vargs.Bucket, Key := r }] }
        refine ⟨Request.deleteObject { Bucket := a.vargs.Bucket, Key := r } :: new, ?_, ?_⟩
        · simp only at h1 ⊢
          rw [h1]; simp
        · intro i hi
          rcases List.mem_cons.1 hi with hi | hi
          · simp only [Request.deleteObject.injEq] at hi
            rw [hi]; exact hr
          · exact h2 i hi

theorem reachable_seed {σ : Type} (S : S3 σ) (a : AWS σ) (h : Reachable S a) :
    "" ∈ a.remote ∧ "" ∈ a.locals := by
  induction h with
  | new c vargs => simp [NewAWS]
  | list a a' fuel path err _ hlist ih =>
    obtain ⟨h1, h2, -⟩ := List_frame S path fuel a a' err hlist
    exact ⟨h1 _ ih.1, by rw [h2]; exact ih.2⟩
  | visit E a path info err _ ih =>
    obtain ⟨h1, h2⟩ := visit_frame E S a path info err
    exact ⟨by rw [h1]; exact ih.1, h2 _ ih.2⟩
  | addRedirects E a redirects _ ih =>
    obtain ⟨h1, h2⟩ := addRedirectsLoop_frame S redirects (rangeOver E redirects) a
    exact ⟨by rw [AWS.AddRedirects, h1]; exact ih.1, h2 _ ih.2⟩

/-- C20: in every state reachable from `NewAWS` through `List`, `visit` and
`AddRedirects`, the inventory and the reference set both hold the empty string
seeded by `NewAWS`, so neither is empty; hence every error `List` returns from
such a state is an error the backend answered (the marker lookup never fails),
and `Cleanup` sends no DeleteObject for the empty key. -/
theorem reachable_keeps_seed {σ : Type} (S : S3 σ) (a : AWS σ) (h : Reachable S a) :
    ("" ∈ a.remote ∧ "" ∈ a.locals) ∧ (a.remote ≠ [] ∧ a.locals ≠ []) ∧
      a.remote.getLast? ≠ none ∧
      (∀ fuel path a' e, a.List S fuel path = some (a', some e) →
        ∃ i c, (S.ListObjects i c).1 = .error e) ∧
      (∀ i, Request.deleteObject i ∈ (a.Cleanup S).1.log.drop a.log.length → i.Key ≠ "") := by
  obtain ⟨h1, h2⟩ := reachable_seed S a h
  have hne : a.remote ≠ [] := List.ne_nil_of_mem h1
  refine ⟨⟨h1, h2⟩, ⟨hne, List.ne_nil_of_mem h2⟩, ?_, ?_, ?_⟩
  · intro hnone
    exact hne (List.getLast?_eq_none_iff.1 hnone)
  · intro fuel path a' e hl
    exact (List_frame S path fuel a a' (some e) hl).2.2 hne e rfl
  · intro i hi hk
    obtain ⟨new, g1, g2⟩ := cleanupLoop_deletes S a.remote a
    rw [AWS.Cleanup, g1, List.drop_left] at hi
    exact g2 i hi (by rw [hk]; exact h2)

/-- C20, at a concrete input: the state after a listing whose first page is
truncated and carries no keys; the continuation request went out with the
seeded empty string as marker. -/
theorem reachable_keeps_seed_witness :
    ∃ a', (NewAWS [{ Contents := [], IsTruncated := true },
          { Contents := ["a"], IsTruncated := false }] (demoArgs "" .absent)).List
          scriptedS3 1 "" = some (a', none) ∧
      ("" ∈ a'.remote ∧ "" ∈ a'.locals) ∧
      a'.remote = ["", "a"] ∧
      a'.log =
        [Request.listObjects { Bucket := "bucket", Prefix := "", Marker := none },
          Request.listObjects { Bucket := "bucket", Prefix := "", Marker := some "" }] := by
  obtain ⟨a', h⟩ := exists_of_map_snd
    ((NewAWS [{ Contents := [], IsTruncated := true },
      { Contents := ["a"], IsTruncated := false }] (demoArgs "" .absent)).List scriptedS3 1 "")
    (by decide)
  have hr := (reachable_keeps_seed scriptedS3 a'
    (Reachable.list _ a' 1 "" none (Reachable.new _ _) h)).1
  have h2 := congrArg (Option.map (fun r => r.1.remote)) h
  have h3 := congrArg (Option.map (fun r => r.1.log)) h
  simp only [Option.map_some'] at h2 h3
  refine ⟨a', h, hr, ?_, ?_⟩
  · exact Option.some.inj (h2.symm.trans (by decide))
  · exact Option.some.inj (h3.symm.trans (by decide))

end S3Sync
